import Mathlib

/-!
# Customer warranty lifecycle and review workflow of the MITC store

A shallow embedding of `src/services/api/customers.js`, `src/services/api/reviews.js`,
`src/services/api/settings.js`, the validators of `src/utils/validators.js` and
`truncateText` of `src/utils/formatters.js`.

* JavaScript objects are association lists from property names to values.
* The Firestore collection is an explicit state: its documents, the server
  clock that resolves `serverTimestamp()` sentinels, and a log of the write
  calls submitted.  Every function returns its outcome together with the
  collection after the call.
* `updateDoc` is modelled for patches whose keys are names of top-level
  fields.  Firestore reads a key with a dot as a path into a nested map; a
  call with such a key has the outcome `none`, about which nothing is stated.
* `async` functions are modelled as their sequential effect; a rejected
  promise is an `Except.error`.  The `try { ... } catch (error) { console.error(...);
  throw error; }` wrapper around every body re-throws unchanged and is
  therefore the identity on outcomes.
* A `Date` is its time value in milliseconds since the epoch, `none` being
  the Invalid Date.  Where the code makes a `Date` from a number or moves one
  by days, a time value beyond ±8.64e15 ms becomes the Invalid Date.
-/

set_option autoImplicit false

namespace MitcStore

/-! ## Values and objects -/

/-- JavaScript values, and Firestore field values, that occur in customer
records, patches and filters. -/
inductive Val where
  /-- The value `undefined` (also the result of reading an absent property). -/
  | undefined
  /-- The value `null`. -/
  | null
  /-- A boolean. -/
  | bool (b : Bool)
  /-- A finite number, by its exact value. -/
  | num (x : ℚ)
  /-- The number `NaN`. -/
  | nan
  /-- A string. -/
  | str (s : String)
  /-- A JavaScript `Date` with the given time value; `none` is Invalid Date. -/
  | date (t : Option Int)
  /-- A Firestore `Timestamp`, at millisecond resolution. -/
  | timestamp (t : Int)
  /-- The sentinel returned by `serverTimestamp()`. -/
  | serverTimestamp
  /-- A plain nested object of strings; the customers module never inspects its content. -/
  | obj (entries : List (String × String))
  deriving DecidableEq, Repr, Inhabited

/-- A JavaScript object / Firestore document body: properties in insertion order. -/
abbrev Obj := List (String × Val)

/-- Whether `k` is an own property of `o`. -/
def hasProp : Obj → String → Bool
  | [], _ => false
  | (k', _) :: rest, k => decide (k' = k) || hasProp rest k

/-- Property read `o[k]`: `undefined` when the property is absent.  As in an
object literal, a later entry for a key overrides an earlier one. -/
def getProp : Obj → String → Val
  | [], _ => Val.undefined
  | (k', v) :: rest, k =>
    if hasProp rest k then getProp rest k
    else if k' = k then v else Val.undefined

/-- Assignment `o[k] = v`: overwrite in place, or append a new property. -/
def setProp (o : Obj) (k : String) (v : Val) : Obj :=
  if hasProp o k then o.map (fun e => (e.1, if e.1 = k then v else e.2))
  else o ++ [(k, v)]

/-- Object spread `{ ...target, ...source }`: the properties of `source` are
assigned onto `target` from left to right. -/
def spread (target source : Obj) : Obj :=
  source.foldl (fun acc kv => setProp acc kv.1 kv.2) target

/-- JavaScript truthiness (`ToBoolean`). -/
def truthy : Val → Bool
  | .undefined => false
  | .null => false
  | .bool b => b
  | .num x => x != 0
  | .nan => false
  | .str s => s != ""
  | _ => true

/-- The operator `a || b`. -/
def jsOr (a b : Val) : Val :=
  if truthy a then a else b

/-- Errors a call can be rejected with. -/
inductive JSError where
  /-- The error `ReferenceError: <name> is not defined`. -/
  | referenceError (name : String)
  /-- A `TypeError`. -/
  | typeError (msg : String)
  /-- An error made by `new Error(msg)`. -/
  | error (msg : String)
  /-- A `FirebaseError` with the given code. -/
  | firestore (code : String)
  deriving DecidableEq, Repr, Inhabited

deriving instance DecidableEq for Except

/-! ## Dates -/

/-- Milliseconds in a day. -/
def msPerDay : Int := 86400000

/-- Days from 1970-01-01 to the civil date `y-m-d` of the proleptic Gregorian
calendar. -/
def daysFromCivil (y m d : Int) : Int :=
  let y' := if m ≤ 2 then y - 1 else y
  let era := y' / 400
  let yoe := y' - era * 400
  let mp := (m + 9) % 12
  let doy := (153 * mp + 2) / 5 + d - 1
  let doe := yoe * 365 + yoe / 4 - yoe / 100 + doy
  era * 146097 + doe - 719468

/-- The civil date (year, month, day) of a day number counted from 1970-01-01. -/
def civilFromDays (z : Int) : Int × Int × Int :=
  let z' := z + 719468
  let era := z' / 146097
  let doe := z' - era * 146097
  let yoe := (doe - doe / 1460 + doe / 36524 - doe / 146096) / 365
  let doy := doe - (365 * yoe + yoe / 4 - yoe / 100)
  let mp := (5 * doy + 2) / 153
  let d := doy - (153 * mp + 2) / 5 + 1
  let m := if mp < 10 then mp + 3 else mp - 9
  let y := yoe + era * 400
  (if m ≤ 2 then y + 1 else y, m, d)

/-- Time value of local midnight starting the civil date `y-m-d`, in a zone
whose offset from UTC is `offsetMs`. -/
def civilTime (offsetMs y m d : Int) : Int :=
  daysFromCivil y m d * msPerDay - offsetMs

/-- The civil date on which a time value falls in the zone with offset `offsetMs`. -/
def civilDate (offsetMs t : Int) : Int × Int × Int :=
  civilFromDays ((t + offsetMs) / msPerDay)

/-- The largest time value of a `Date`: 8.64e15 ms from the epoch, on either side. -/
def maxTime : Int := 8640000000000000

/-- The operation `TimeClip`: a time value beyond the range of `Date` is `NaN`. -/
def timeClip (t : Int) : Option Int :=
  if -maxTime ≤ t ∧ t ≤ maxTime then some t else none

/-- The function `addDays(date, amount)` of date-fns, for an integer `amount`: the date itself
when `amount` is 0, otherwise `setDate(getDate() + amount)` on a copy, which
moves the local calendar day by `amount`, keeps the local time of day and
clips the result to the range of `Date`.  Modelled for a host zone with a
constant UTC offset (the shop is in India), where the move is a shift of the
time value by `amount` days of 24 hours; an Invalid Date stays invalid. -/
def addDays (date : Option Int) (amount : Int) : Option Int :=
  match date with
  | none => none
  | some t => if amount = 0 then some t else timeClip (t + amount * msPerDay)

/-- What a call reads from its host. -/
structure Host where
  /-- Time value of `new Date()`. -/
  now : Int
  /-- The function `Date.parse` of the host, `none` for `NaN`. -/
  parse : String → Option Int
  /-- The id the store assigns to the next added document. -/
  newId : String

/-- The constructor call `new Date(value)`. -/
def newDate (h : Host) : Val → Option Int
  | .undefined => none
  | .null => some 0
  | .bool b => some (if b then 1 else 0)
  | .num x =>
    if -(maxTime : ℚ) ≤ x ∧ x ≤ (maxTime : ℚ) then some (if 0 ≤ x then ⌊x⌋ else ⌈x⌉)
    else none
  | .str s => h.parse s
  | .date t => t
  | _ => none

/-- The comparison `a < b` of the code, `b` being a valid `Date` with time value
`t`.  A `Date` or a number on the left is compared by its numeric value;
`undefined` and an Invalid Date convert to `NaN`, which makes every
comparison false.  The left operand in this module is the result of
`?.toDate()`, so it is a `Date` or `undefined`. -/
def ltDate (a : Val) (t : Int) : Bool :=
  match a with
  | .date (some s) => decide (s < t)
  | .num x => decide (x < (t : ℚ))
  | _ => false

/-- The comparison `a >= b`, `b` a valid `Date` with time value `t`. -/
def geDate (a : Val) (t : Int) : Bool :=
  match a with
  | .date (some s) => decide (t ≤ s)
  | .num x => decide ((t : ℚ) ≤ x)
  | _ => false

/-- The comparison `a <= b`, `b` a `Date` with time value `t` (false when `b` is invalid). -/
def leDate (a : Val) (t : Option Int) : Bool :=
  match a, t with
  | .date (some s), some u => decide (s ≤ u)
  | .num x, some u => decide (x ≤ (u : ℚ))
  | _, _ => false

/-! ## The document store -/

/-- A write call submitted to the store. -/
inductive WriteOp where
  /-- The call `addDoc(collection, data)`. -/
  | add (data : Obj)
  /-- The call `updateDoc(doc(collection, id), data)`. -/
  | update (id : String) (data : Obj)
  /-- The call `deleteDoc(doc(collection, id))`. -/
  | delete (id : String)
  deriving DecidableEq, Repr

/-- One Firestore collection. -/
structure Collection where
  /-- The documents: id and body. -/
  docs : List (String × Obj)
  /-- The server clock, which resolves `serverTimestamp()` sentinels. -/
  serverTime : Int
  /-- The write calls submitted so far, oldest first. -/
  writes : List WriteOp
  deriving DecidableEq, Repr

/-- How the store encodes one submitted field value: a `Date` becomes a
`Timestamp`, the sentinel becomes the server time, and `undefined` or an
Invalid Date are rejected. -/
def encodeVal (serverTime : Int) : Val → Except JSError Val
  | .undefined => .error (.firestore "invalid-argument")
  | .date none => .error (.firestore "invalid-argument")
  | .date (some t) => .ok (.timestamp t)
  | .serverTimestamp => .ok (.timestamp serverTime)
  | v => .ok v

/-- Encoding of all fields of a submitted body. -/
def encodeObj (serverTime : Int) : Obj → Except JSError Obj
  | [] => .ok []
  | (k, v) :: rest =>
    match encodeVal serverTime v with
    | .error e => .error e
    | .ok v' =>
      match encodeObj serverTime rest with
      | .error e => .error e
      | .ok rest' => .ok ((k, v') :: rest')

/-- The call `getDoc(doc(collection, id))`: the body, or `none` when `exists()` is false. -/
def getDoc (c : Collection) (id : String) : Option Obj :=
  c.docs.lookup id

/-- Whether no field name contains a dot. -/
def wholeNames {α : Type} (data : List (String × α)) : Bool :=
  data.all (fun e => !(e.1.toList.contains '.'))

/-- The effect of `updateDoc(doc(collection, id), updates)` when every key of `updates` is the
name of a top-level field: it sets the given fields of an existing document and
keeps the others; it fails with `not-found` when the document does not exist. -/
def updateFields (c : Collection) (id : String) (updates : Obj) :
    Except JSError Unit × Collection :=
  let c1 : Collection := { c with writes := c.writes ++ [WriteOp.update id updates] }
  match encodeObj c.serverTime updates with
  | .error e => (.error e, c1)
  | .ok enc =>
    match c.docs.lookup id with
    | none => (.error (.firestore "not-found"), c1)
    | some _ =>
      (.ok (), { c1 with
        docs := c.docs.map (fun d => (d.1, if d.1 = id then spread d.2 enc else d.2)) })

/-- The call `updateDoc(doc(collection, id), updates)`.  Firestore reads a key with a dot as
a path into a nested map and writes inside the field the path starts with; such
a call is outside the model (`none`). -/
def updateDoc (c : Collection) (id : String) (updates : Obj) :
    Option (Except JSError Unit × Collection) :=
  if wholeNames updates then some (updateFields c id updates) else none

/-- The call `addDoc(collection, data)`: stores a new document under the id the store
picks and returns that id. -/
def addDoc (c : Collection) (newId : String) (data : Obj) :
    Except JSError String × Collection :=
  let c1 : Collection := { c with writes := c.writes ++ [WriteOp.add data] }
  match encodeObj c.serverTime data with
  | .error e => (.error e, c1)
  | .ok enc => (.ok newId, { c1 with docs := c.docs ++ [(newId, enc)] })

/-- Rank of a value kind in the ordering Firestore uses across kinds. -/
def kindRank : Val → Nat
  | .null => 0
  | .bool _ => 1
  | .num _ => 2
  | .nan => 2
  | .timestamp _ => 3
  | .str _ => 4
  | .obj _ => 5
  | _ => 6

/-- Strict order of stored values: by kind, then by value within a kind. -/
def valLt (a b : Val) : Bool :=
  match a, b with
  | .bool x, .bool y => !x && y
  | .num x, .num y => decide (x < y)
  | .timestamp x, .timestamp y => decide (x < y)
  | .str x, .str y => decide (x.toList < y.toList)
  | _, _ => decide (kindRank a < kindRank b)

/-- Whether document `a` comes no later than document `b` under `orderBy(field, "desc")`:
larger field value first, equal values by descending document id. -/
def descBefore (field : String) (a b : String × Obj) : Prop :=
  valLt (getProp b.2 field) (getProp a.2 field) = true ∨
    (valLt (getProp a.2 field) (getProp b.2 field) = false ∧ b.1.toList ≤ a.1.toList)

instance (field : String) : DecidableRel (descBefore field) :=
  fun _ _ => inferInstanceAs (Decidable (_ ∨ _))

/-- The constraint `where(field, "==", v)`. -/
def whereEq (field : String) (v : Val) (docs : List (String × Obj)) : List (String × Obj) :=
  docs.filter (fun d => decide (getProp d.2 field = v))

/-- The constraint `orderBy(field, "desc")`: only documents that have the field, sorted. -/
def orderByDesc (field : String) (docs : List (String × Obj)) : List (String × Obj) :=
  (docs.filter (fun d => hasProp d.2 field)).insertionSort (descBefore field)

/-! ## The customers module -/

/-- Name of the Firestore collection. -/
def CUSTOMERS_COLLECTION : String := "customers"

/-- Warranty duration in days. -/
def WARRANTY_DAYS : Int := 15

/-- Identifiers bound in the scope of `customers.js`: the names it imports
(from `firebase/firestore`, `../firebase` and `date-fns`), its top-level
constants and its own functions. -/
def moduleScope : List String :=
  ["collection", "doc", "getDoc", "getDocs", "addDoc", "updateDoc", "deleteDoc",
   "query", "where", "orderBy", "serverTimestamp", "db", "addDays",
   "CUSTOMERS_COLLECTION", "WARRANTY_DAYS",
   "getCustomers", "getCustomer", "createCustomer", "updateCustomer",
   "deleteCustomer", "updateCustomerStatus", "getExpiringWarranties",
   "getExpiredWarranties"]

/-- The scope `customers.js` would have with `Timestamp` added to its import
list, as `products.js` has it. -/
def scopeWithTimestamp : List String :=
  "Timestamp" :: moduleScope

/-- The expression `Timestamp.fromDate(d)` evaluated in a module with the given
scope: a `ReferenceError` when `Timestamp` is not bound there, otherwise the
timestamp of the date (an Invalid Date has none). -/
def timestampFromDate (scope : List String) (d : Option Int) : Except JSError Val :=
  if "Timestamp" ∈ scope then
    match d with
    | some t => .ok (.timestamp t)
    | none => .error (.firestore "invalid-argument")
  else .error (.referenceError "Timestamp")

/-- The conversion `field?.toDate()` applied when a document is read. -/
def toDateOpt : Val → Except JSError Val
  | .undefined => .ok .undefined
  | .null => .ok .undefined
  | .timestamp t => .ok (.date (some t))
  | _ => .error (.typeError "toDate is not a function")

/-- The object built from a document snapshot by `getCustomers` and `getCustomer`:
`{ id, ...data, purchaseDate: ..., warrantyEndDate: ..., createdAt: ... }`. -/
def customerFromDoc (d : String × Obj) : Except JSError Obj :=
  match toDateOpt (getProp d.2 "purchaseDate") with
  | .error e => .error e
  | .ok pd =>
    match toDateOpt (getProp d.2 "warrantyEndDate") with
    | .error e => .error e
    | .ok we =>
      match toDateOpt (getProp d.2 "createdAt") with
      | .error e => .error e
      | .ok ca =>
        .ok (setProp (setProp (setProp (spread [("id", Val.str d.1)] d.2)
          "purchaseDate" pd) "warrantyEndDate" we) "createdAt" ca)

/-- The call `snapshot.docs.map(...)`, failing at the first document whose conversion throws. -/
def mapDocs : List (String × Obj) → Except JSError (List Obj)
  | [] => .ok []
  | d :: rest =>
    match customerFromDoc d with
    | .error e => .error e
    | .ok cu =>
      match mapDocs rest with
      | .error e => .error e
      | .ok cus => .ok (cu :: cus)

/-- The function `getCustomers(filters)`. -/
def getCustomers (c : Collection) (filters : Obj) : Except JSError (List Obj) :=
  let matching :=
    if truthy (getProp filters "status") then
      whereEq "status" (getProp filters "status") c.docs
    else c.docs
  mapDocs (orderByDesc "purchaseDate" matching)

/-- The function `getCustomer(customerId)`. -/
def getCustomer (c : Collection) (customerId : String) : Except JSError Obj :=
  match getDoc c customerId with
  | none => .error (.error "Customer not found")
  | some data => customerFromDoc (customerId, data)

/-- The function `createCustomer(customerData)`, in a module with the given scope. -/
def createCustomerIn (scope : List String) (h : Host) (c : Collection) (customerData : Obj) :
    Except JSError Obj × Collection :=
  let purchaseDate := newDate h (getProp customerData "purchaseDate")
  let warrantyEndDate := addDays purchaseDate WARRANTY_DAYS
  match timestampFromDate scope purchaseDate with
  | .error e => (.error e, c)
  | .ok pd =>
    match timestampFromDate scope warrantyEndDate with
    | .error e => (.error e, c)
    | .ok we =>
      let newCustomer : Obj :=
        [("name", getProp customerData "name"),
         ("phone", getProp customerData "phone"),
         ("email", jsOr (getProp customerData "email") (Val.str "")),
         ("purchaseDate", pd),
         ("warrantyEndDate", we),
         ("productId", getProp customerData "productId"),
         ("productDetails", jsOr (getProp customerData "productDetails") (Val.obj [])),
         ("notes", jsOr (getProp customerData "notes") (Val.str "")),
         ("status", Val.str "Active"),
         ("createdAt", Val.serverTimestamp)]
      match addDoc c h.newId newCustomer with
      | (.error e, c') => (.error e, c')
      | (.ok id, c') => (.ok (spread [("id", Val.str id)] newCustomer), c')

/-- The function `createCustomer(customerData)` as it stands in `customers.js`. -/
def createCustomer (h : Host) (c : Collection) (customerData : Obj) :
    Except JSError Obj × Collection :=
  createCustomerIn moduleScope h c customerData

/-- The function `updateCustomer(customerId, updates)`, in a module with the given scope;
`none` marks a call outside the model of `updateDoc`. -/
def updateCustomerIn (scope : List String) (h : Host) (c : Collection) (customerId : String)
    (updates : Obj) : Option (Except JSError Obj × Collection) :=
  let submit (u : Obj) : Option (Except JSError Obj × Collection) :=
    match updateDoc c customerId u with
    | none => none
    | some (.error e, c') => some (.error e, c')
    | some (.ok _, c') => some (.ok (spread [("id", Val.str customerId)] u), c')
  if truthy (getProp updates "purchaseDate") then
    let purchaseDate := newDate h (getProp updates "purchaseDate")
    match timestampFromDate scope purchaseDate with
    | .error e => some (.error e, c)
    | .ok pd =>
      match timestampFromDate scope (addDays purchaseDate WARRANTY_DAYS) with
      | .error e => some (.error e, c)
      | .ok we => submit (setProp (setProp updates "purchaseDate" pd) "warrantyEndDate" we)
  else submit updates

/-- The function `updateCustomer(customerId, updates)` as it stands in `customers.js`. -/
def updateCustomer (h : Host) (c : Collection) (customerId : String) (updates : Obj) :
    Option (Except JSError Obj × Collection) :=
  updateCustomerIn moduleScope h c customerId updates

/-- The function `updateCustomerStatus(customerId)`.  Its call of `updateCustomer` has the
one field name `status`, so it is within the model of `updateDoc` and the
alternative for `none` is never taken. -/
def updateCustomerStatus (h : Host) (c : Collection) (customerId : String) :
    Except JSError Val × Collection :=
  match getCustomer c customerId with
  | .error e => (.error e, c)
  | .ok customer =>
    let status :=
      if ltDate (getProp customer "warrantyEndDate") h.now then Val.str "Warranty Expired"
      else getProp customer "status"
    if status ≠ getProp customer "status" then
      match updateCustomer h c customerId [("status", status)] with
      | some (.error e, c') => (.error e, c')
      | some (.ok _, c') => (.ok status, c')
      | none => (.ok status, c)
    else (.ok status, c)

/-- The filter predicate of `getExpiringWarranties`. -/
def expiringAt (now : Int) (futureDate : Option Int) (customer : Obj) : Bool :=
  geDate (getProp customer "warrantyEndDate") now &&
    leDate (getProp customer "warrantyEndDate") futureDate

/-- The function `getExpiringWarranties(daysAhead = 3)`; `none` is an omitted argument. -/
def getExpiringWarranties (h : Host) (c : Collection) (daysAhead : Option Int) :
    Except JSError (List Obj) :=
  match getCustomers c [("status", Val.str "Active")] with
  | .error e => .error e
  | .ok customers =>
    let futureDate := addDays (some h.now) (daysAhead.getD 3)
    .ok (customers.filter (expiringAt h.now futureDate))

/-- The filter predicate of `getExpiredWarranties`. -/
def expiredAt (now : Int) (customer : Obj) : Bool :=
  ltDate (getProp customer "warrantyEndDate") now &&
    decide (getProp customer "status" ≠ Val.str "Review Requested") &&
    decide (getProp customer "status" ≠ Val.str "Completed")

/-- The function `getExpiredWarranties()`. -/
def getExpiredWarranties (h : Host) (c : Collection) : Except JSError (List Obj) :=
  match getCustomers c [] with
  | .error e => .error e
  | .ok customers => .ok (customers.filter (expiredAt h.now))

/-! ## Predicates used in the statements -/

/-- Whether a stored field value is a Firestore timestamp. -/
def isTimestamp : Val → Bool
  | .timestamp _ => true
  | _ => false

/-- Whether `?.toDate()` succeeds on a stored field value. -/
def readable : Val → Bool
  | .undefined => true
  | .null => true
  | .timestamp _ => true
  | _ => false

/-- The `Date` that `?.toDate()` yields for a readable stored field value. -/
def dateView : Val → Val
  | .timestamp t => Val.date (some t)
  | _ => Val.undefined

/-- Whether the three date fields of a stored record can be read back. -/
def readableDates (data : Obj) : Bool :=
  readable (getProp data "purchaseDate") && readable (getProp data "warrantyEndDate") &&
    readable (getProp data "createdAt")

/-- The object `getCustomer` returns for a stored record whose dates are readable. -/
def customerView (d : String × Obj) : Obj :=
  setProp (setProp (setProp (spread [("id", Val.str d.1)] d.2)
    "purchaseDate" (dateView (getProp d.2 "purchaseDate")))
    "warrantyEndDate" (dateView (getProp d.2 "warrantyEndDate")))
    "createdAt" (dateView (getProp d.2 "createdAt"))

/-- A stored customer record of the data model, as far as its dates go: `purchaseDate`
and `warrantyEndDate` are timestamps, `createdAt` is a timestamp when present. -/
def customerRecord (data : Obj) : Bool :=
  hasProp data "purchaseDate" && isTimestamp (getProp data "purchaseDate") &&
    isTimestamp (getProp data "warrantyEndDate") && readable (getProp data "createdAt")

/-- The pairing invariant of a stored record: `warrantyEndDate` is `purchaseDate`
plus `WARRANTY_DAYS` days. -/
def warrantyPaired (data : Obj) : Bool :=
  match getProp data "purchaseDate", getProp data "warrantyEndDate" with
  | .timestamp p, .timestamp w => decide (w = p + WARRANTY_DAYS * msPerDay)
  | _, _ => false

/-- Position of a status in the lifecycle order
Active < Warranty Expired < Review Requested < Completed. -/
def statusRank : Val → Option Nat
  | .str s =>
    if s = "Active" then some 0
    else if s = "Warranty Expired" then some 1
    else if s = "Review Requested" then some 2
    else if s = "Completed" then some 3
    else none
  | _ => none

/-! ## Sample data -/

/-- A host whose clock reads 2024-03-01 and whose store hands out the id `c9`. -/
def sampleHost : Host :=
  { now := civilTime 0 2024 3 1, parse := fun _ => none, newId := "c9" }

/-- A stored customer record bought on the civil date `y-m-d`, with the given status; its
warranty end is the purchase date plus 15 days. -/
def recordBought (status : String) (y m d : Int) : Obj :=
  [("name", Val.str "Asif"),
   ("phone", Val.str "9876543210"),
   ("email", Val.str ""),
   ("purchaseDate", Val.timestamp (civilTime 0 y m d)),
   ("warrantyEndDate", Val.timestamp (civilTime 0 y m d + 15 * msPerDay)),
   ("productId", Val.str "p1"),
   ("productDetails", Val.obj []),
   ("notes", Val.str ""),
   ("status", Val.str status),
   ("createdAt", Val.timestamp (civilTime 0 y m d))]

/-- A stored customer record bought on 2024-01-20 (warranty end 2024-02-04), with the
given status. -/
def sampleRecord (status : String) : Obj :=
  recordBought status 2024 1 20

/-- A collection holding the sample record under id `c1`, with no writes logged. -/
def sampleStore (status : String) : Collection :=
  { docs := [("c1", sampleRecord status)], serverTime := civilTime 0 2024 3 1, writes := [] }

/-- A collection read at 2024-03-01 (`sampleHost`), by warranty end date:
`c1` Active, two days ahead; `c2` Active, four days ahead; `c3` Active, ending
at this very instant; `c4` Warranty Expired, a day ago; `c5` Completed and `c6`
Review Requested, both long ago; `c7` Active, a day ago. -/
def cohortStore : Collection :=
  { docs :=
      [("c1", recordBought "Active" 2024 2 17),
       ("c2", recordBought "Active" 2024 2 19),
       ("c3", recordBought "Active" 2024 2 15),
       ("c4", recordBought "Warranty Expired" 2024 2 14),
       ("c5", recordBought "Completed" 2023 6 1),
       ("c6", recordBought "Review Requested" 2023 7 1),
       ("c7", recordBought "Active" 2024 2 14)]
    serverTime := civilTime 0 2024 3 1
    writes := [] }

/-! ## Validators (`src/utils/validators.js`) -/

/-- Code points that `String.prototype.trim` strips and that the regular-expression
class `\s` matches: the WhiteSpace and LineTerminator code points of ECMAScript. -/
def isJsSpace (c : Char) : Bool :=
  let n := c.toNat
  n = 0x09 || n = 0x0A || n = 0x0B || n = 0x0C || n = 0x0D || n = 0x20 || n = 0xA0 ||
    n = 0x1680 || (decide (0x2000 ≤ n) && decide (n ≤ 0x200A)) || n = 0x2028 || n = 0x2029 ||
    n = 0x202F || n = 0x205F || n = 0x3000 || n = 0xFEFF

/-- The method `String.prototype.trim`, on the characters of the string. -/
def jsTrim (s : String) : List Char :=
  ((s.toList.dropWhile isJsSpace).reverse.dropWhile isJsSpace).reverse

/-- The symbols the e-mail pattern tells apart. -/
inductive EmailSym where
  /-- The character `@`. -/
  | atSign
  /-- The character `.`. -/
  | dot
  /-- A character of the class `\s`. -/
  | space
  /-- Any other character. -/
  | other
  deriving DecidableEq, Repr

/-- The symbol of a character. -/
def emailSym (c : Char) : EmailSym :=
  if c = '@' then EmailSym.atSign
  else if c = '.' then EmailSym.dot
  else if isJsSpace c then EmailSym.space
  else EmailSym.other

/-- The class `[^\s@]`, over symbols. -/
def notSpaceNorAt : RegularExpression EmailSym :=
  RegularExpression.char EmailSym.dot + RegularExpression.char EmailSym.other

/-- The repetition `r+`. -/
def oneOrMore (r : RegularExpression EmailSym) : RegularExpression EmailSym :=
  r * RegularExpression.star r

/-- The pattern `/^[^\s@]+@[^\s@]+\.[^\s@]+$/`, over symbols; the anchors make it a match
of the whole string. -/
def emailRegex : RegularExpression EmailSym :=
  oneOrMore notSpaceNorAt * (RegularExpression.char EmailSym.atSign *
    (oneOrMore notSpaceNorAt * (RegularExpression.char EmailSym.dot * oneOrMore notSpaceNorAt)))

/-- The function `isValidEmail(email)`: `emailRegex.test(email)`.  A value that is not a
string is converted to one first; the string forms of the other values of this
model contain no `@`, so they never match. -/
def isValidEmail : Val → Bool
  | .str s => emailRegex.rmatch (s.toList.map emailSym)
  | _ => false

/-- The function `isValidPhone(phone)`: `phone.replace(/\D/g, '')` keeps the digits, of which
there must be 10.  A value that is not a string has no `replace` method. -/
def isValidPhone : Val → Except JSError Bool
  | .str s => .ok (decide ((s.toList.filter Char.isDigit).length = 10))
  | _ => .error (.typeError "phone.replace is not a function")

/-- The function `isRequired(value)`. -/
def isRequired : Val → Bool
  | .str s => decide (0 < (jsTrim s).length)
  | .null => false
  | .undefined => false
  | _ => true

/-- The conversion `Number(value)`, `none` being `NaN`.  The conversion of strings and
objects goes through the host's numeric parser, which is the parameter
`coerce`. -/
def toNumber (coerce : Val → Option ℚ) : Val → Option ℚ
  | .undefined => none
  | .null => some 0
  | .bool b => some (if b then 1 else 0)
  | .num x => some x
  | .nan => none
  | v => coerce v

/-- The function `isInRange(value, min, max)`. -/
def isInRange (coerce : Val → Option ℚ) (value : Val) (min max : ℚ) : Bool :=
  match toNumber coerce value with
  | none => false
  | some num => decide (min ≤ num) && decide (num ≤ max)

/-- The function `Number.isInteger`, on the result of `Number(value)`. -/
def numberIsInteger : Option ℚ → Bool
  | none => false
  | some x => decide (x.den = 1)

/-- The function `isValidRating(rating)`. -/
def isValidRating (coerce : Val → Option ℚ) (rating : Val) : Bool :=
  isInRange coerce rating 1 5 && numberIsInteger (toNumber coerce rating)

/-- The object `{ valid, errors }` the validators return. -/
structure Validation where
  /-- Whether no error was found. -/
  valid : Bool
  /-- The error messages, in the order they were pushed. -/
  errors : List String
  deriving DecidableEq, Repr

/-- The function `validateCustomer(customer)`. -/
def validateCustomer (customer : Obj) : Except JSError Validation :=
  let errors1 : List String :=
    if isRequired (getProp customer "name") then [] else ["Name is required"]
  let phoneCheck : Except JSError (List String) :=
    if isRequired (getProp customer "phone") then
      match isValidPhone (getProp customer "phone") with
      | .error e => .error e
      | .ok true => .ok errors1
      | .ok false => .ok (errors1 ++ ["Valid 10-digit phone number is required"])
    else .ok (errors1 ++ ["Phone is required"])
  match phoneCheck with
  | .error e => .error e
  | .ok errors2 =>
    let errors3 :=
      if truthy (getProp customer "email") && !isValidEmail (getProp customer "email") then
        errors2 ++ ["Valid email is required"]
      else errors2
    let errors4 :=
      if isRequired (getProp customer "purchaseDate") then errors3
      else errors3 ++ ["Purchase date is required"]
    let errors5 :=
      if isRequired (getProp customer "productId") then errors4
      else errors4 ++ ["Product is required"]
    .ok { valid := decide (errors5.length = 0), errors := errors5 }

/-- The function `validateReview(review)`. -/
def validateReview (coerce : Val → Option ℚ) (review : Obj) : Validation :=
  let errors1 : List String :=
    if isRequired (getProp review "customerName") then [] else ["Name is required"]
  let errors2 :=
    if isRequired (getProp review "rating") then
      if isValidRating coerce (getProp review "rating") then errors1
      else errors1 ++ ["Rating must be between 1 and 5"]
    else errors1 ++ ["Rating is required"]
  let errors3 :=
    if isRequired (getProp review "comment") then errors2
    else errors2 ++ ["Comment is required"]
  { valid := decide (errors3.length = 0), errors := errors3 }

/-! ## Predicates of the validation statements -/

/-- A value is present and non-blank: it is not `null` or `undefined` and, when it is a
string, it has a character that is not white space. -/
def specPresent : Val → Prop
  | .undefined => False
  | .null => False
  | .str s => ∃ c ∈ s.toList, isJsSpace c = false
  | _ => True

/-- A string has the form `local@domain.tld` without white space: three non-empty parts
free of white space and of `@`, joined by one `@` and a `.`. -/
def specEmailForm (s : String) : Prop :=
  ∃ l d t : List Char, s.toList = l ++ '@' :: (d ++ '.' :: t) ∧
    l ≠ [] ∧ d ≠ [] ∧ t ≠ [] ∧ ∀ c ∈ l ++ (d ++ t), isJsSpace c = false ∧ c ≠ '@'

/-- A string is made of exactly 10 digits and nothing else. -/
def specTenDigitString (s : String) : Prop :=
  s.length = 10 ∧ ∀ c ∈ s.toList, c.isDigit = true

/-- A string contains exactly 10 digit characters, whatever else it contains. -/
def specHasTenDigits (s : String) : Prop :=
  s.toList.countP Char.isDigit = 10

/-- Whether a value is a string, `null` or `undefined`. -/
def stringOrMissing : Val → Bool
  | .str _ => true
  | .null => true
  | .undefined => true
  | _ => false

/-! ## Numbers: division and `toFixed`

Sums and counters of the statistics are integers far below `2 ^ 53`, so their
additions are exact and are modelled as exact.  The division that yields the
average is rounded to the nearest binary64 value, as the host does. -/

/-- Rounding to the nearest integer, a tie going to the even neighbour. -/
def roundHalfEven (x : ℚ) : ℤ :=
  if x - ⌊x⌋ < 1 / 2 then ⌊x⌋
  else if 1 / 2 < x - ⌊x⌋ then ⌊x⌋ + 1
  else if ⌊x⌋ % 2 = 0 then ⌊x⌋ else ⌊x⌋ + 1

/-- The binary64 number nearest to `x` (53-bit significand, ties to even); overflow and
subnormal numbers are not modelled. -/
def roundDouble (x : ℚ) : ℚ :=
  if x = 0 then 0
  else roundHalfEven (x * 2 ^ (52 - Int.log 2 |x|)) * 2 ^ (Int.log 2 |x| - 52)

/-- The decimal rendering of `n / 10` with one digit after the point. -/
def oneDecimal (n : Nat) : String :=
  toString (n / 10) ++ "." ++ toString (n % 10)

/-- The method `x.toFixed(1)` on a finite number below `1e21`: the integer `n` for which
`n / 10` is nearest to `x`, the larger one on a tie, rendered with one digit
after the point, with a minus sign when `x` is negative. -/
def toFixed1 (x : ℚ) : String :=
  (if x < 0 then "-" else "") ++ oneDecimal ⌊|x| * 10 + 1 / 2⌋.toNat

/-! ## The reviews module (`src/services/api/reviews.js`) -/

/-- Name of the Firestore collection. -/
def REVIEWS_COLLECTION : String := "storeReviews"

/-- The object built from a document snapshot by `getReviews` and `getReview`:
`{ id, ...data, createdAt: data.createdAt?.toDate() }`. -/
def reviewFromDoc (d : String × Obj) : Except JSError Obj :=
  match toDateOpt (getProp d.2 "createdAt") with
  | .error e => .error e
  | .ok ca => .ok (setProp (spread [("id", Val.str d.1)] d.2) "createdAt" ca)

/-- The call `snapshot.docs.map(...)` of `getReviews`, failing at the first document whose
conversion throws. -/
def mapReviewDocs : List (String × Obj) → Except JSError (List Obj)
  | [] => .ok []
  | d :: rest =>
    match reviewFromDoc d with
    | .error e => .error e
    | .ok r =>
      match mapReviewDocs rest with
      | .error e => .error e
      | .ok rs => .ok (r :: rs)

/-- The function `getReviews(filters)`. -/
def getReviews (c : Collection) (filters : Obj) : Except JSError (List Obj) :=
  let matching :=
    if truthy (getProp filters "status") then
      whereEq "status" (getProp filters "status") c.docs
    else c.docs
  mapReviewDocs (orderByDesc "createdAt" matching)

/-- The function `getApprovedReviews()`. -/
def getApprovedReviews (c : Collection) : Except JSError (List Obj) :=
  getReviews c [("status", Val.str "Approved")]

/-- The function `getReview(reviewId)`. -/
def getReview (c : Collection) (reviewId : String) : Except JSError Obj :=
  match getDoc c reviewId with
  | none => .error (.error "Review not found")
  | some data => reviewFromDoc (reviewId, data)

/-- The function `createReview(reviewData)`. -/
def createReview (h : Host) (c : Collection) (reviewData : Obj) :
    Except JSError Obj × Collection :=
  let newReview : Obj :=
    [("customerName", getProp reviewData "customerName"),
     ("rating", getProp reviewData "rating"),
     ("title", jsOr (getProp reviewData "title") (Val.str "")),
     ("comment", getProp reviewData "comment"),
     ("status", Val.str "Pending"),
     ("source", jsOr (getProp reviewData "source") (Val.str "Manual")),
     ("createdAt", Val.serverTimestamp)]
  match addDoc c h.newId newReview with
  | (.error e, c') => (.error e, c')
  | (.ok id, c') => (.ok (spread [("id", Val.str id)] newReview), c')

/-- The function `updateReview(reviewId, updates)`; `none` marks a call outside the model of
`updateDoc`. -/
def updateReview (c : Collection) (reviewId : String) (updates : Obj) :
    Option (Except JSError Obj × Collection) :=
  match updateDoc c reviewId updates with
  | none => none
  | some (.error e, c') => some (.error e, c')
  | some (.ok _, c') => some (.ok (spread [("id", Val.str reviewId)] updates), c')

/-- The function `approveReview(reviewId)`.  Its call of `updateReview` has the one field
name `status`, so it is within the model of `updateDoc` and the alternative for
`none` is never taken. -/
def approveReview (c : Collection) (reviewId : String) : Except JSError Obj × Collection :=
  match updateReview c reviewId [("status", Val.str "Approved")] with
  | some outcome => outcome
  | none => (.error (.firestore "invalid-argument"), c)

/-- The function `rejectReview(reviewId)`, which calls `updateReview` as `approveReview`
does. -/
def rejectReview (c : Collection) (reviewId : String) : Except JSError Obj × Collection :=
  match updateReview c reviewId [("status", Val.str "Rejected")] with
  | some outcome => outcome
  | none => (.error (.firestore "invalid-argument"), c)

/-- The object `getReviewStats` returns: `{ total, averageRating, ratingDistribution }`. -/
structure ReviewStats where
  /-- The number of approved reviews. -/
  total : Nat
  /-- The number `0`, or the string made by `toFixed(1)`. -/
  averageRating : Val
  /-- The counter of each rating. -/
  ratingDistribution : Obj
  deriving DecidableEq, Repr

/-- The literal `{ 1: 0, 2: 0, 3: 0, 4: 0, 5: 0 }`. -/
def emptyDistribution : Obj :=
  [("1", Val.num 0), ("2", Val.num 0), ("3", Val.num 0), ("4", Val.num 0), ("5", Val.num 0)]

/-- The sum `a + b` of two numbers.  The statistics are modelled for ratings that are
numbers; `none` marks an operand of another kind (a string or an object,
which `+` would concatenate), where the model stops. -/
def addNumbers : Val → Val → Option Val
  | .num a, .num b => some (Val.num (a + b))
  | .nan, .num _ => some Val.nan
  | .num _, .nan => some Val.nan
  | .nan, .nan => some Val.nan
  | _, _ => none

/-- The property name a rating indexes `ratingDistribution` with: the decimal form of an
integer, `NaN` for `NaN`; other ratings are outside the model (`none`).  The
exponent form JavaScript uses from `1e21` on is not modelled. -/
def ratingKey : Val → Option String
  | .num x => if x.den = 1 then some (toString x.num) else none
  | .nan => some "NaN"
  | _ => none

/-- The value `old + 1` that `++` stores: an absent counter is `undefined` and becomes `NaN`. -/
def incremented : Val → Val
  | .num n => Val.num (n + 1)
  | _ => Val.nan

/-- One round of the `forEach` loop of `getReviewStats`, on the pair of `totalRating` and
`stats.ratingDistribution`.  A property the loop adds is appended; JavaScript
would list an integer-like name among the integer names in ascending order. -/
def statsStep (st : Val × Obj) (review : Obj) : Option (Val × Obj) :=
  match addNumbers st.1 (getProp review "rating"), ratingKey (getProp review "rating") with
  | some total, some key => some (total, setProp st.2 key (incremented (getProp st.2 key)))
  | _, _ => none

/-- The `forEach` loop of `getReviewStats`. -/
def statsLoop : List Obj → Val × Obj → Option (Val × Obj)
  | [], st => some st
  | review :: rest, st =>
    match statsStep st review with
    | none => none
    | some st' => statsLoop rest st'

/-- The expression `(totalRating / reviews.length).toFixed(1)`, for a positive length. -/
def averageOf (totalRating : Val) (count : Nat) : Val :=
  match totalRating with
  | .num t => Val.str (toFixed1 (roundDouble (t / count)))
  | _ => Val.str "NaN"

/-- The body of `getReviewStats` after the reviews are fetched. -/
def reviewStats (reviews : List Obj) : Option ReviewStats :=
  if reviews.length = 0 then
    some { total := reviews.length, averageRating := Val.num 0,
           ratingDistribution := emptyDistribution }
  else
    match statsLoop reviews (Val.num 0, emptyDistribution) with
    | none => none
    | some st =>
      some { total := reviews.length, averageRating := averageOf st.1 reviews.length,
             ratingDistribution := st.2 }

/-- The function `getReviewStats()`; `none` inside a successful outcome marks ratings the
numeric model does not cover. -/
def getReviewStats (c : Collection) : Except JSError (Option ReviewStats) :=
  match getApprovedReviews c with
  | .error e => .error e
  | .ok reviews => .ok (reviewStats reviews)

/-! ## Sample reviews -/

/-- A stored review with the given rating and status, created at the given time. -/
def reviewRecord (rating : ℚ) (status : String) (createdAt : Int) : Obj :=
  [("customerName", Val.str "Asif"),
   ("rating", Val.num rating),
   ("title", Val.str ""),
   ("comment", Val.str "Good laptop"),
   ("status", Val.str status),
   ("source", Val.str "Manual"),
   ("createdAt", Val.timestamp createdAt)]

/-- A collection of reviews with the given ratings and statuses, under the ids `r0`, `r1`,
and so on, created one after the other. -/
def reviewStore (entries : List (ℚ × String)) : Collection :=
  { docs := entries.enum.map
      (fun e => ("r" ++ toString e.1, reviewRecord e.2.1 e.2.2 (1000 - (e.1 : Int))))
    serverTime := 5000
    writes := [] }

/-- Approved reviews rated 5, 5, 4, 3, 5 and a pending one rated 1. -/
def fiveReviews : Collection :=
  reviewStore [(5, "Approved"), (5, "Approved"), (4, "Approved"), (3, "Approved"),
    (5, "Approved"), (1, "Pending")]

/-- Twenty approved reviews: seven rated 5 and thirteen rated 4, of mean 87/20 = 4.35. -/
def twentyReviews : Collection :=
  reviewStore (List.replicate 7 (5, "Approved") ++ List.replicate 13 (4, "Approved"))

/-! ## Sample inputs -/

/-- A collection without documents. -/
def emptyStore : Collection :=
  { docs := [], serverTime := civilTime 0 2024 3 1, writes := [] }

/-- A customer input whose phone has three digits; every other required field is given. -/
def shortPhoneInput : Obj :=
  [("name", Val.str "Asif"), ("phone", Val.str "123"),
   ("purchaseDate", Val.date (some (civilTime 0 2024 1 20))), ("productId", Val.str "p1")]

/-- A customer input whose phone is the 11-character string `98765-43210`. -/
def dashedPhoneInput : Obj :=
  [("name", Val.str "Asif"), ("phone", Val.str "98765-43210"),
   ("purchaseDate", Val.date (some (civilTime 0 2024 1 20))), ("productId", Val.str "p1")]

/-- Whether a value is stored by Firestore as it is: anything but `undefined`, a `Date` and
the `serverTimestamp()` sentinel. -/
def plain : Val → Bool
  | .undefined => false
  | .date _ => false
  | .serverTimestamp => false
  | _ => true

/-- Whether a value is one of the four customer statuses. -/
def validStatus (v : Val) : Bool :=
  (statusRank v).isSome

/-- The title `createReview` stores for an input title that is a string or missing:
the title itself, `''` when it is missing. -/
def specTitle : Val → Val
  | .str s => Val.str s
  | _ => Val.str ""

/-- The source `createReview` stores for an input source that is a string or missing:
the source itself when it is a non-empty string, 'Manual' otherwise. -/
def specSource : Val → Val
  | .str s => if s = "" then Val.str "Manual" else Val.str s
  | _ => Val.str "Manual"

/-- The review input `{rating: 6, comment: 'x', customerName: 'A'}`. -/
def ratingSixInput : Obj :=
  [("rating", Val.num 6), ("comment", Val.str "x"), ("customerName", Val.str "A")]

/-- The review input `{rating: 5, comment: '', customerName: 'A'}`. -/
def emptyCommentInput : Obj :=
  [("rating", Val.num 5), ("comment", Val.str ""), ("customerName", Val.str "A")]

/-- A review input that carries a status and a source of its own. -/
def importedReviewInput : Obj :=
  [("customerName", Val.str "Bilal"), ("rating", Val.num 4), ("comment", Val.str "Fast delivery"),
   ("status", Val.str "Approved"), ("source", Val.str "Google")]

/-- A number is an integer between 1 and 5. -/
def specRatingInRange (x : ℚ) : Prop :=
  ∃ n : ℤ, x = n ∧ 1 ≤ n ∧ n ≤ 5

/-- A review input with rating 4.5 and a comment made of two blanks. -/
def halfStarInput : Obj :=
  [("customerName", Val.str "A"), ("rating", Val.num (9 / 2)), ("comment", Val.str "  ")]

/-- The object `getReviews` returns for a stored review whose `createdAt` is readable. -/
def reviewView (d : String × Obj) : Obj :=
  setProp (spread [("id", Val.str d.1)] d.2) "createdAt" (dateView (getProp d.2 "createdAt"))

/-- The collection after `createReview(reviewData)`. -/
def afterCreate (h : Host) (c : Collection) (reviewData : Obj) : Collection :=
  (createReview h c reviewData).2

/-- The collection after `createReview(reviewData)` and `approveReview` of the new id. -/
def afterApprove (h : Host) (c : Collection) (reviewData : Obj) : Collection :=
  (approveReview (afterCreate h c reviewData) h.newId).2

/-- The collection after `createReview(reviewData)`, `approveReview` and then `rejectReview`
of the new id. -/
def afterReject (h : Host) (c : Collection) (reviewData : Obj) : Collection :=
  (rejectReview (afterApprove h c reviewData) h.newId).2

/-- One call of the customer functions that write, with its arguments. -/
inductive CustomerCall where
  /-- The call `createCustomer(customerData)`. -/
  | create (customerData : Obj)
  /-- The call `updateCustomer(customerId, updates)`. -/
  | update (customerId : String) (updates : Obj)
  /-- The call `updateCustomerStatus(customerId)`. -/
  | refreshStatus (customerId : String)

/-- Whether the field names of the patch of a call, if it has one, contain no dot. -/
def CustomerCall.wholeNames : CustomerCall → Bool
  | .update _ updates => MitcStore.wholeNames updates
  | _ => true

/-- The collection after one call made on the given host, whether the call succeeds or
fails; `none` marks a call outside the model of `updateDoc`. -/
def afterCall (h : Host) (c : Collection) : CustomerCall → Option Collection
  | .create customerData => some (createCustomer h c customerData).2
  | .update customerId updates => (updateCustomer h c customerId updates).map Prod.snd
  | .refreshStatus customerId => some (updateCustomerStatus h c customerId).2

/-- The collection after a sequence of calls, each made on its own host, in order. -/
def afterCalls : Collection → List (Host × CustomerCall) → Option Collection
  | c, [] => some c
  | c, (h, call) :: rest =>
    match afterCall h c call with
    | none => none
    | some c' => afterCalls c' rest

/-- The calls `createCustomer` with a valid input, `updateCustomer` of the id `c9` with the
status 'Refunded', and `updateCustomerStatus` of `c9`, all at 2024-03-01. -/
def threeCalls : List (Host × CustomerCall) :=
  [(sampleHost, .create
      [("name", Val.str "Asif"), ("phone", Val.str "9876543210"),
       ("purchaseDate", Val.date (some (civilTime 0 2024 1 20))), ("productId", Val.str "p1")]),
   (sampleHost, .update "c9" [("status", Val.str "Refunded")]),
   (sampleHost, .refreshStatus "c9")]

/-- The list a successful listing holds; empty for a failed one. -/
def listedOrNil (r : Except JSError (List Obj)) : List Obj :=
  match r with
  | .ok l => l
  | .error _ => []

/-- The arithmetic mean of a list of integer ratings: their sum divided by their number. -/
def meanOf (ns : List ℤ) : ℚ :=
  (ns.sum : ℚ) / (ns.length : ℚ)

/-- The number of tenths in `q` rounded to one decimal place, a tie going up. -/
def roundHalfUpTenths (q : ℚ) : ℤ :=
  ⌊10 * q + 1 / 2⌋

/-- The `averageRating` of an outcome of `getReviewStats`. -/
def averageRatingOf (r : Except JSError (Option ReviewStats)) : Option Val :=
  match r with
  | .ok (some stats) => some stats.averageRating
  | _ => none

/-- Reviews awaiting moderation or turned down, none approved. -/
def unapprovedReviews : Collection :=
  reviewStore [(5, "Pending"), (3, "Rejected"), (4, "Pending")]

/-- The sum of the counters `1` to `5` of a rating distribution, when each is a number. -/
def countsSum (dist : Obj) : Option ℚ :=
  match getProp dist "1", getProp dist "2", getProp dist "3", getProp dist "4",
    getProp dist "5" with
  | .num a, .num b, .num c, .num d, .num e => some (a + b + c + d + e)
  | _, _, _, _, _ => none

/-- Approved reviews rated 5, 7 and 4: the second rating is outside the scale. -/
def offScaleReviews : Collection :=
  reviewStore [(5, "Approved"), (7, "Approved"), (4, "Approved")]

/-! ## The settings module (`src/services/api/settings.js`) -/

/-- A value of a settings object: one of the values above, or an array of strings. -/
inductive SettingVal where
  /-- A string, number, timestamp, sentinel or object of strings. -/
  | val (v : Val)
  /-- An array of strings, such as `contactTemplates`. -/
  | texts (items : List String)
  deriving DecidableEq, Repr, Inhabited

/-- A settings object: properties in insertion order. -/
abbrev Settings := List (String × SettingVal)

/-- Whether `k` is an own property of an object with values of type `α`. -/
def hasField {α : Type} : List (String × α) → String → Bool
  | [], _ => false
  | (k', _) :: rest, k => decide (k' = k) || hasField rest k

/-- Property read `o[k]`, `none` being `undefined`; a later entry for a key overrides an
earlier one. -/
def getField {α : Type} : List (String × α) → String → Option α
  | [], _ => none
  | (k', v) :: rest, k =>
    if hasField rest k then getField rest k
    else if k' = k then some v else none

/-- Assignment `o[k] = v`: overwrite in place, or append a new property. -/
def setField {α : Type} (o : List (String × α)) (k : String) (v : α) : List (String × α) :=
  if hasField o k then o.map (fun e => (e.1, if e.1 = k then v else e.2))
  else o ++ [(k, v)]

/-- Object spread `{ ...target, ...source }`. -/
def spreadFields {α : Type} (target source : List (String × α)) : List (String × α) :=
  source.foldl (fun acc kv => setField acc kv.1 kv.2) target

/-- Name of the Firestore collection of the site settings. -/
def SETTINGS_COLLECTION : String := "siteSettings"

/-- Id of the one settings document. -/
def SETTINGS_DOC_ID : String := "main"

/-- A write call submitted for the document `siteSettings/main`. -/
inductive SettingsWrite where
  /-- The call `setDoc(docRef, data)`. -/
  | set (data : Settings)
  /-- The call `updateDoc(docRef, data)`. -/
  | update (data : Settings)
  deriving DecidableEq, Repr

/-- The part of the store the settings functions touch. -/
structure SettingsStore where
  /-- The body of the document `siteSettings/main`; `none` when `exists()` is false. -/
  main : Option Settings
  /-- The server clock, which resolves `serverTimestamp()` sentinels. -/
  serverTime : Int
  /-- The write calls submitted so far, oldest first. -/
  writes : List SettingsWrite
  deriving DecidableEq, Repr

/-- How the store encodes one submitted settings value. -/
def encodeSetting (serverTime : Int) : SettingVal → Except JSError SettingVal
  | .val v =>
    match encodeVal serverTime v with
    | .error e => .error e
    | .ok v' => .ok (.val v')
  | .texts items => .ok (.texts items)

/-- Encoding of all fields of a submitted settings body. -/
def encodeSettings (serverTime : Int) : Settings → Except JSError Settings
  | [] => .ok []
  | (k, v) :: rest =>
    match encodeSetting serverTime v with
    | .error e => .error e
    | .ok v' =>
      match encodeSettings serverTime rest with
      | .error e => .error e
      | .ok rest' => .ok ((k, v') :: rest')

/-- The call `setDoc(docRef, data)` without merge options: the document body becomes
`data`, whether the document existed or not. -/
def setMainDoc (st : SettingsStore) (data : Settings) : Except JSError Unit × SettingsStore :=
  let st1 : SettingsStore := { st with writes := st.writes ++ [SettingsWrite.set data] }
  match encodeSettings st.serverTime data with
  | .error e => (.error e, st1)
  | .ok enc => (.ok (), { st1 with main := some enc })

/-- The call `updateDoc(docRef, data)`: sets the given top-level fields of the existing
document and keeps the others; fails with `not-found` when the document does
not exist.  Firestore reads a field name with a dot as a path into a nested
map; such a call is outside the model (`none`). -/
def updateMainDoc (st : SettingsStore) (data : Settings) :
    Option (Except JSError Unit × SettingsStore) :=
  if wholeNames data then
    let st1 : SettingsStore := { st with writes := st.writes ++ [SettingsWrite.update data] }
    match encodeSettings st.serverTime data with
    | .error e => some (.error e, st1)
    | .ok enc =>
      match st.main with
      | none => some (.error (.firestore "not-found"), st1)
      | some old => some (.ok (), { st1 with main := some (spreadFields old enc) })
  else none

/-- The function `getDefaultSettings()`. -/
def getDefaultSettings : Settings :=
  [("branding", .val (.obj
      [("logo", ""), ("slogan", "Premium Laptops in Kashmir"), ("phone", ""),
       ("address", "Maisuma, Near Gaw Kadal Bridge, Srinagar"), ("email", "")])),
   ("social", .val (.obj
      [("whatsapp", ""), ("instagram", ""), ("facebook", ""), ("youtube", ""),
       ("twitter", "")])),
   ("cloudinary", .val (.obj [("cloudName", ""), ("apiKey", ""), ("folder", "mitc-store")])),
   ("contactTemplates", .texts
      ["Hi, I'm interested in {productTitle}. Is it available?",
       "Can I get more details about {productTitle}?",
       "What's the final price for {productTitle}?",
       "Is {productTitle} still in stock?",
       "Can I visit the store to see {productTitle}?",
       "Do you offer any warranty on {productTitle}?",
       "Can you send more photos of {productTitle}?",
       "What are the payment options for {productTitle}?",
       "Is there any discount on {productTitle}?",
       "Can you hold {productTitle} for me?"]),
   ("warrantyTemplates", .val (.obj
      [("reminder", "Hi {customerName}, your warranty for {productTitle} expires on {warrantyEndDate}. Please contact us if you need any assistance."),
       ("expired", "Hi {customerName}, your warranty for {productTitle} has expired. We hope you're enjoying your purchase! Please share your experience."),
       ("reviewRequest", "Hi {customerName}, we'd love to hear about your experience with {productTitle}. Please leave us a review!")]))]

/-- The function `getSettings()`, with the store after the call. -/
def getSettings (st : SettingsStore) : Except JSError Settings × SettingsStore :=
  match st.main with
  | none => (.ok getDefaultSettings, st)
  | some data => (.ok (spreadFields [("id", .val (.str SETTINGS_DOC_ID))] data), st)

/-- The function `updateSettings(updates)`; `none` marks a call outside the model of
`updateDoc`. -/
def updateSettings (st : SettingsStore) (updates : Settings) :
    Option (Except JSError Obj × SettingsStore) :=
  match st.main with
  | none =>
    match setMainDoc st (setField (spreadFields (spreadFields [] getDefaultSettings) updates)
        "updatedAt" (.val .serverTimestamp)) with
    | (.error e, st') => some (.error e, st')
    | (.ok _, st') => some (.ok [("success", Val.bool true)], st')
  | some _ =>
    match updateMainDoc st (setField (spreadFields [] updates)
        "updatedAt" (.val .serverTimestamp)) with
    | none => none
    | some (.error e, st') => some (.error e, st')
    | some (.ok _, st') => some (.ok [("success", Val.bool true)], st')

/-- The string at `group.name` of a settings object, when `group` is an object of strings
that has it. -/
def textAt (s : Settings) (group name : String) : Option String :=
  match getField s group with
  | some (.val (.obj entries)) => getField entries name
  | _ => none

/-- The default contact templates. -/
def defaultContactTemplates : List String :=
  match getField getDefaultSettings "contactTemplates" with
  | some (.texts items) => items
  | _ => []

/-- Whether `pattern` occurs in `text`. -/
def containsText (text pattern : String) : Bool :=
  text.toList.tails.any (fun t => pattern.toList.isPrefixOf t)

/-- The names between an opening brace and the next closing brace, from a position where
`pending` holds the characters read since an opening brace, if one is open. -/
def placeholdersFrom : Option (List Char) → List Char → List String
  | _, [] => []
  | none, c :: cs =>
    if c = '{' then placeholdersFrom (some []) cs else placeholdersFrom none cs
  | some key, c :: cs =>
    if c = '}' then String.mk key :: placeholdersFrom none cs
    else if c = '{' then placeholdersFrom (some []) cs
    else placeholdersFrom (some (key ++ [c])) cs

/-- The brace-delimited placeholders of a template, in order of occurrence. -/
def placeholders (template : String) : List String :=
  placeholdersFrom none template.toList

/-- Whether a settings value is stored as it is. -/
def storable : SettingVal → Bool
  | .val v => plain v
  | .texts _ => true

/-- A store without the settings document. -/
def freshSettings : SettingsStore :=
  { main := none, serverTime := 7000, writes := [] }

/-- A store whose settings document holds a slogan-only branding, a phone list and an
earlier `updatedAt`. -/
def savedSettings : SettingsStore :=
  { main := some
      [("branding", .val (.obj [("logo", "old.png"), ("slogan", "Laptops")])),
       ("contactTemplates", .texts ["Is {productTitle} available?"]),
       ("updatedAt", .val (.timestamp 100))]
    serverTime := 7000
    writes := [] }

/-- A store whose settings document has a field named `id`. -/
def relabelledSettings : SettingsStore :=
  { main := some
      [("id", .val (.str "backup")), ("branding", .val (.obj [("slogan", "Laptops")]))]
    serverTime := 7000
    writes := [] }

/-- The patch `{ branding: { logo: 'x' }, updatedAt: 'yesterday' }`. -/
def logoPatch : Settings :=
  [("branding", .val (.obj [("logo", "x")])), ("updatedAt", .val (.str "yesterday"))]

/-! ## Text utilities (`src/utils/formatters.js`) -/

/-- The UTF-16 code units of a character: its code point when that is below 0x10000, a pair
of surrogates otherwise. -/
def utf16Units (ch : Char) : List Nat :=
  if ch.toNat < 0x10000 then [ch.toNat]
  else [0xD800 + (ch.toNat - 0x10000) / 0x400, 0xDC00 + (ch.toNat - 0x10000) % 0x400]

/-- A JavaScript string is a sequence of UTF-16 code units, which `length`, `slice` and `trim`
count and cut; this is the sequence of a text. -/
def utf16 (s : String) : List Nat :=
  (s.toList.map utf16Units).flatten

/-- Whether a code unit is white space or a line terminator, as in `isJsSpace`. -/
def isSpaceUnit (n : Nat) : Bool :=
  n = 0x09 || n = 0x0A || n = 0x0B || n = 0x0C || n = 0x0D || n = 0x20 || n = 0xA0 ||
    n = 0x1680 || (decide (0x2000 ≤ n) && decide (n ≤ 0x200A)) || n = 0x2028 || n = 0x2029 ||
    n = 0x202F || n = 0x205F || n = 0x3000 || n = 0xFEFF

/-- The method `String.prototype.trim`, on code units. -/
def trimUnits (s : List Nat) : List Nat :=
  ((s.dropWhile isSpaceUnit).reverse.dropWhile isSpaceUnit).reverse

/-- The method `s.slice(0, end)` on the code units of a string: a negative `end` counts from
the end of the string. -/
def sliceTo (s : List Nat) (endIndex : Int) : List Nat :=
  if endIndex < 0 then s.take (s.length - endIndex.natAbs)
  else s.take endIndex.toNat

/-- The function `truncateText(text, maxLength = 100)` on a string, given by its code units,
and an integer length; `none` is an omitted `maxLength`.  The empty string is
the one falsy string. -/
def truncateText (text : List Nat) (maxLength : Option Int) : List Nat :=
  let maxLen := maxLength.getD 100
  if text = [] then []
  else if (text.length : Int) ≤ maxLen then text
  else trimUnits (sliceTo text maxLen) ++ utf16 "..."

/-- Three times the character U+1F600, which takes two code units. -/
def threeFaces : String :=
  String.mk [Char.ofNat 0x1F600, Char.ofNat 0x1F600, Char.ofNat 0x1F600]

/-- Twice the character U+1F600. -/
def twoFaces : String :=
  String.mk [Char.ofNat 0x1F600, Char.ofNat 0x1F600]

/-! ## The template engine -/

/-- Modelled from the spec: the template engine `render(template, context)`, for which the
repository has no code.  It reads the template from left to right; `pending`
holds the characters read since an opening brace, if one is open.  A closing
brace ends the key: a key of the context is replaced by the context's value,
another key is copied with its braces.  Text outside braces is copied, as is an
opening brace that is never closed. -/
def renderFrom (context : List (String × String)) :
    Option (List Char) → List Char → List Char
  | none, [] => []
  | some key, [] => '{' :: key
  | none, c :: cs =>
    if c = '{' then renderFrom context (some []) cs
    else c :: renderFrom context none cs
  | some key, c :: cs =>
    if c = '}' then
      (match getField context (String.mk key) with
        | some v => v.toList
        | none => '{' :: key ++ ['}']) ++ renderFrom context none cs
    else if c = '{' then ('{' :: key) ++ renderFrom context (some []) cs
    else renderFrom context (some (key ++ [c])) cs

/-- Modelled from the spec: `render(template, context)` replaces every `{key}` of the
template by `context[key]` and leaves a `{key}` whose key is not in the context
as it is. -/
def render (template : String) (context : List (String × String)) : String :=
  String.mk (renderFrom context none template.toList)

/-- A piece of a template: literal text, or a placeholder `{key}`. -/
inductive Piece where
  /-- Literal text. -/
  | text (s : String)
  /-- The placeholder `{key}`. -/
  | hole (key : String)
  deriving DecidableEq, Repr

/-- The characters a piece is written with in a template. -/
def Piece.source : Piece → List Char
  | .text s => s.toList
  | .hole key => '{' :: key.toList ++ ['}']

/-- The characters a piece stands for under a context: the value of a placeholder whose key
the context has, the piece as written otherwise. -/
def Piece.filled (context : List (String × String)) : Piece → List Char
  | .text s => s.toList
  | .hole key =>
    match getField context key with
    | some v => v.toList
    | none => '{' :: key.toList ++ ['}']

/-- Whether literal text has no opening brace, and a key no brace at all. -/
def Piece.wellFormed : Piece → Bool
  | .text s => !(s.toList.contains '{')
  | .hole key => !(key.toList.contains '{') && !(key.toList.contains '}')

/-- The template written by a list of pieces. -/
def templateOf (pieces : List Piece) : String :=
  String.mk (pieces.map Piece.source).flatten

/-- The template `Hi {customerName}, warranty for {productTitle} expires {warrantyEndDate}`,
in pieces. -/
def reminderPieces : List Piece :=
  [.text "Hi ", .hole "customerName", .text ", warranty for ", .hole "productTitle",
   .text " expires ", .hole "warrantyEndDate"]

/-- The context `{customerName: "Asif", productTitle: "ThinkPad X1"}`. -/
def asifContext : List (String × String) :=
  [("customerName", "Asif"), ("productTitle", "ThinkPad X1")]

/-! ## Objects: reading after writing -/

theorem hasProp_append (a b : Obj) (k : String) :
    hasProp (a ++ b) k = (hasProp a k || hasProp b k) := by
  induction a with
  | nil => simp [hasProp]
  | cons e rest ih =>
    obtain ⟨k', v⟩ := e
    simp [hasProp, ih, Bool.or_assoc]

theorem getProp_of_hasProp_false (o : Obj) (k : String) (hk : hasProp o k = false) :
    getProp o k = Val.undefined := by
  induction o with
  | nil => rfl
  | cons e rest ih =>
    obtain ⟨k', v⟩ := e
    simp [hasProp] at hk
    simp [getProp, hk.1, hk.2]

theorem getProp_append (a b : Obj) (k : String) :
    getProp (a ++ b) k = if hasProp b k then getProp b k else getProp a k := by
  induction a with
  | nil =>
    by_cases hb : hasProp b k = true
    · simp [hb]
    · simp only [Bool.not_eq_true] at hb
      simp [hb, getProp, getProp_of_hasProp_false b k hb]
  | cons e rest ih =>
    obtain ⟨k', v⟩ := e
    by_cases hb : hasProp b k = true
    · simp [getProp, hasProp_append, hb, ih]
    · simp only [Bool.not_eq_true] at hb
      simp [getProp, hasProp_append, hb, ih]

theorem hasProp_map_assign (o : Obj) (k k' : String) (v : Val) :
    hasProp (o.map (fun e => (e.1, if e.1 = k then v else e.2))) k' = hasProp o k' := by
  induction o with
  | nil => rfl
  | cons e rest ih =>
    obtain ⟨k1, v1⟩ := e
    by_cases h1 : k1 = k <;> simp [hasProp, h1, ih]

theorem getProp_map_assign_same (o : Obj) (k : String) (v : Val) (hk : hasProp o k = true) :
    getProp (o.map (fun e => (e.1, if e.1 = k then v else e.2))) k = v := by
  induction o with
  | nil => simp [hasProp] at hk
  | cons e rest ih =>
    obtain ⟨k1, v1⟩ := e
    by_cases hr : hasProp rest k = true
    · by_cases h1 : k1 = k <;> simp [getProp, hasProp_map_assign, hr, h1, ih hr]
    · simp only [Bool.not_eq_true] at hr
      have h1 : k1 = k := by simpa [hasProp, hr] using hk
      simp [getProp, hasProp_map_assign, hr, h1]

theorem getProp_map_assign_other (o : Obj) (k k' : String) (v : Val) (hne : k' ≠ k) :
    getProp (o.map (fun e => (e.1, if e.1 = k then v else e.2))) k' = getProp o k' := by
  induction o with
  | nil => rfl
  | cons e rest ih =>
    obtain ⟨k1, v1⟩ := e
    by_cases h1 : k1 = k
    · subst h1
      have : ¬ k1 = k' := fun h => hne h.symm
      simp [getProp, hasProp_map_assign, ih, this]
    · simp [getProp, hasProp_map_assign, ih, h1]

theorem hasProp_setProp (o : Obj) (k k' : String) (v : Val) :
    hasProp (setProp o k v) k' = (decide (k = k') || hasProp o k') := by
  unfold setProp
  by_cases hk : hasProp o k = true
  · rw [if_pos hk, hasProp_map_assign]
    by_cases hkk : k = k'
    · subst hkk; simp [hk]
    · simp [hkk]
  · rw [if_neg hk, hasProp_append]
    simp [hasProp, Bool.or_comm]

theorem getProp_setProp_same (o : Obj) (k : String) (v : Val) :
    getProp (setProp o k v) k = v := by
  unfold setProp
  by_cases hk : hasProp o k = true
  · rw [if_pos hk, getProp_map_assign_same o k v hk]
  · rw [if_neg hk, getProp_append]
    simp [hasProp, getProp]

theorem getProp_setProp_other (o : Obj) (k k' : String) (v : Val) (hne : k' ≠ k) :
    getProp (setProp o k v) k' = getProp o k' := by
  unfold setProp
  by_cases hk : hasProp o k = true
  · rw [if_pos hk, getProp_map_assign_other o k k' v hne]
  · rw [if_neg hk, getProp_append]
    have : ¬ k = k' := fun h => hne h.symm
    simp [hasProp, this]

theorem hasProp_spread (t s : Obj) (k : String) :
    hasProp (spread t s) k = (hasProp t k || hasProp s k) := by
  unfold spread
  induction s generalizing t with
  | nil => simp [hasProp]
  | cons e rest ih =>
    obtain ⟨k1, v1⟩ := e
    simp only [List.foldl_cons, ih, hasProp_setProp, hasProp]
    cases decide (k1 = k) <;> cases hasProp t k <;> simp

theorem getProp_spread (t s : Obj) (k : String) :
    getProp (spread t s) k = if hasProp s k then getProp s k else getProp t k := by
  unfold spread
  induction s generalizing t with
  | nil => simp [hasProp]
  | cons e rest ih =>
    obtain ⟨k1, v1⟩ := e
    simp only [List.foldl_cons, ih, hasProp, getProp]
    by_cases hr : hasProp rest k = true
    · simp [hr]
    · simp only [Bool.not_eq_true] at hr
      by_cases h1 : k1 = k
      · subst h1; simp [hr, getProp_setProp_same]
      · have : k ≠ k1 := fun h => h1 h.symm
        simp [hr, h1, getProp_setProp_other _ _ _ _ this]

/-! ## The store: reading after writing -/

theorem hasProp_encodeObj (st : Int) (u enc : Obj) (k : String)
    (he : encodeObj st u = Except.ok enc) : hasProp enc k = hasProp u k := by
  induction u generalizing enc with
  | nil =>
    simp [encodeObj] at he
    subst he
    rfl
  | cons e rest ih =>
    obtain ⟨k1, v1⟩ := e
    simp only [encodeObj] at he
    cases hv : encodeVal st v1 with
    | error err => simp [hv] at he
    | ok v1' =>
      cases hr : encodeObj st rest with
      | error err => simp [hv, hr] at he
      | ok rest' =>
        simp [hv, hr] at he
        subst he
        simp [hasProp, ih rest' hr]

theorem lookup_map_docs (docs : List (String × Obj)) (id id' : String) (g : Obj → Obj) :
    (docs.map (fun d => (d.1, if d.1 = id then g d.2 else d.2))).lookup id' =
      (docs.lookup id').map (fun data => if id' = id then g data else data) := by
  induction docs with
  | nil => rfl
  | cons d rest ih =>
    obtain ⟨k, data⟩ := d
    by_cases hk : id' = k
    · subst hk
      simp [List.lookup]
    · have hb : (id' == k) = false := by simpa using hk
      simp [List.lookup, hb, ih]

theorem updateFields_status (c : Collection) (id : String) (s : String) (data : Obj)
    (hdoc : getDoc c id = some data) :
    updateFields c id [("status", Val.str s)] =
      (Except.ok (),
        { docs := c.docs.map
            (fun d => (d.1, if d.1 = id then setProp d.2 "status" (Val.str s) else d.2))
          serverTime := c.serverTime
          writes := c.writes ++ [WriteOp.update id [("status", Val.str s)]] }) := by
  unfold getDoc at hdoc
  simp [updateFields, encodeObj, encodeVal, hdoc, spread]

theorem wholeNames_status (v : Val) : wholeNames [("status", v)] = true := rfl

theorem updateDoc_of_wholeNames (c : Collection) (id : String) (updates : Obj)
    (hn : wholeNames updates = true) :
    updateDoc c id updates = some (updateFields c id updates) := by
  simp [updateDoc, hn]

theorem getDoc_after_status (c : Collection) (id id' : String) (s : String) (w : List WriteOp) :
    getDoc
      { docs := c.docs.map
          (fun d => (d.1, if d.1 = id then setProp d.2 "status" (Val.str s) else d.2))
        serverTime := c.serverTime
        writes := w } id' =
      (getDoc c id').map (fun data => if id' = id then setProp data "status" (Val.str s) else data) := by
  unfold getDoc
  exact lookup_map_docs c.docs id id' (fun o => setProp o "status" (Val.str s))

/-! ## Reading a customer -/

theorem toDateOpt_of_readable (v : Val) (hv : readable v = true) :
    toDateOpt v = Except.ok (dateView v) := by
  cases v <;> simp [readable] at hv <;> rfl

theorem customerFromDoc_of_readable (d : String × Obj) (hd : readableDates d.2 = true) :
    customerFromDoc d = Except.ok (customerView d) := by
  simp only [readableDates, Bool.and_eq_true] at hd
  obtain ⟨⟨h1, h2⟩, h3⟩ := hd
  simp [customerFromDoc, customerView, toDateOpt_of_readable _ h1, toDateOpt_of_readable _ h2,
    toDateOpt_of_readable _ h3]

theorem customerView_warrantyEndDate (d : String × Obj) :
    getProp (customerView d) "warrantyEndDate" = dateView (getProp d.2 "warrantyEndDate") := by
  unfold customerView
  rw [getProp_setProp_other _ _ _ _ (by decide), getProp_setProp_same]

theorem customerView_status (d : String × Obj) :
    getProp (customerView d) "status" = getProp d.2 "status" := by
  unfold customerView
  rw [getProp_setProp_other _ _ _ _ (by decide), getProp_setProp_other _ _ _ _ (by decide),
    getProp_setProp_other _ _ _ _ (by decide), getProp_spread]
  by_cases hs : hasProp d.2 "status" = true
  · simp [hs]
  · simp only [Bool.not_eq_true] at hs
    rw [getProp_of_hasProp_false _ _ hs]
    simp [hs, getProp, hasProp]

theorem readableDates_of_customerRecord (data : Obj) (hrec : customerRecord data = true) :
    readableDates data = true := by
  simp only [customerRecord, Bool.and_eq_true] at hrec
  obtain ⟨⟨⟨_, h1⟩, h2⟩, h3⟩ := hrec
  have r : ∀ v, isTimestamp v = true → readable v = true := by
    intro v hv
    cases v <;> simp [isTimestamp] at hv
    rfl
  simp [readableDates, r _ h1, r _ h2, h3]

theorem getCustomer_of_readable (c : Collection) (id : String) (data : Obj)
    (hdoc : getDoc c id = some data) (hd : readableDates data = true) :
    getCustomer c id = Except.ok (customerView (id, data)) := by
  simp [getCustomer, hdoc, customerFromDoc_of_readable (id, data) hd]

/-- Outcome of `updateCustomerStatus` on a readable stored record, by cases on
whether the status it computes differs from the stored one. -/
theorem updateCustomerStatus_eval (h : Host) (c : Collection) (id : String) (data : Obj)
    (hdoc : getDoc c id = some data) (hd : readableDates data = true) :
    updateCustomerStatus h c id =
      if ltDate (dateView (getProp data "warrantyEndDate")) h.now = true ∧
          getProp data "status" ≠ Val.str "Warranty Expired" then
        (Except.ok (Val.str "Warranty Expired"),
          { docs := c.docs.map (fun d =>
              (d.1, if d.1 = id then setProp d.2 "status" (Val.str "Warranty Expired") else d.2))
            serverTime := c.serverTime
            writes := c.writes ++
              [WriteOp.update id [("status", Val.str "Warranty Expired")]] })
      else (Except.ok (getProp data "status"), c) := by
  unfold updateCustomerStatus
  rw [getCustomer_of_readable c id data hdoc hd]
  simp only [customerView_warrantyEndDate, customerView_status]
  by_cases hlt : ltDate (dateView (getProp data "warrantyEndDate")) h.now = true
  · by_cases hs : getProp data "status" = Val.str "Warranty Expired"
    · simp [hlt, hs]
    · have hs' : Val.str "Warranty Expired" ≠ getProp data "status" := fun e => hs e.symm
      simp only [hlt, if_true, hs, hs', ne_eq, not_false_eq_true, and_self]
      simp [updateCustomer, updateCustomerIn, getProp, hasProp, truthy, updateDoc,
        wholeNames_status, updateFields_status c id "Warranty Expired" data hdoc]
  · simp [hlt]

/-! ## The missing `Timestamp` binding -/

theorem timestampFromDate_moduleScope (d : Option Int) :
    timestampFromDate moduleScope d = Except.error (JSError.referenceError "Timestamp") := by
  have hne : ¬ "Timestamp" ∈ moduleScope := by decide
  simp [timestampFromDate, hne]

/-- With `Timestamp` in scope, `createCustomer` on an input that carries name, phone and
product id as strings and the purchase date as a valid `Date`, 15 days before
the end of the range of `Date` or earlier, stores a record whose warranty end
is the purchase date plus 15 days, with status 'Active'. -/
theorem createCustomerIn_scopeWithTimestamp (h : Host) (c : Collection) (name phone pid : String)
    (d : Int) (hlo : -maxTime ≤ d + 15 * msPerDay) (hhi : d + 15 * msPerDay ≤ maxTime) :
    createCustomerIn scopeWithTimestamp h c
        [("name", Val.str name), ("phone", Val.str phone),
         ("purchaseDate", Val.date (some d)), ("productId", Val.str pid)] =
      (Except.ok
        [("id", Val.str h.newId), ("name", Val.str name), ("phone", Val.str phone),
         ("email", Val.str ""), ("purchaseDate", Val.timestamp d),
         ("warrantyEndDate", Val.timestamp (d + 15 * msPerDay)), ("productId", Val.str pid),
         ("productDetails", Val.obj []), ("notes", Val.str ""), ("status", Val.str "Active"),
         ("createdAt", Val.serverTimestamp)],
       { docs := c.docs ++
           [(h.newId,
             [("name", Val.str name), ("phone", Val.str phone), ("email", Val.str ""),
              ("purchaseDate", Val.timestamp d),
              ("warrantyEndDate", Val.timestamp (d + 15 * msPerDay)),
              ("productId", Val.str pid), ("productDetails", Val.obj []),
              ("notes", Val.str ""), ("status", Val.str "Active"),
              ("createdAt", Val.timestamp c.serverTime)])]
         serverTime := c.serverTime
         writes := c.writes ++
           [WriteOp.add
             [("name", Val.str name), ("phone", Val.str phone), ("email", Val.str ""),
              ("purchaseDate", Val.timestamp d),
              ("warrantyEndDate", Val.timestamp (d + 15 * msPerDay)),
              ("productId", Val.str pid), ("productDetails", Val.obj []),
              ("notes", Val.str ""), ("status", Val.str "Active"),
              ("createdAt", Val.serverTimestamp)]] }) := by
  have hmem : "Timestamp" ∈ scopeWithTimestamp := by decide
  simp [createCustomerIn, timestampFromDate, hmem, newDate, addDays, timeClip, hlo, hhi,
    WARRANTY_DAYS, getProp, hasProp, jsOr, truthy, addDoc, encodeObj, encodeVal, spread, setProp]

/-- C1: for purchases on 2024-01-20 and 2024-12-25 the code computes the warranty end
dates 2024-02-04 and 2025-01-09 (the purchase date plus 15 calendar days), but
`createCustomer` then fails with `ReferenceError: Timestamp is not defined` and
stores nothing: the collection, write log included, is unchanged. -/
theorem createCustomer_warranty_not_stored (h : Host) (c : Collection) :
    addDays (newDate h (Val.date (some (civilTime 0 2024 1 20)))) WARRANTY_DAYS =
      some (civilTime 0 2024 2 4) ∧
    addDays (newDate h (Val.date (some (civilTime 0 2024 12 25)))) WARRANTY_DAYS =
      some (civilTime 0 2025 1 9) ∧
    civilDate 0 (civilTime 0 2024 1 20 + WARRANTY_DAYS * msPerDay) = (2024, 2, 4) ∧
    civilDate 0 (civilTime 0 2024 12 25 + WARRANTY_DAYS * msPerDay) = (2025, 1, 9) ∧
    createCustomer h c
        [("name", Val.str "Asif"), ("phone", Val.str "9876543210"),
         ("purchaseDate", Val.date (some (civilTime 0 2024 1 20))),
         ("productId", Val.str "p1")] =
      (Except.error (JSError.referenceError "Timestamp"), c) ∧
    createCustomer h c
        [("name", Val.str "Asif"), ("phone", Val.str "9876543210"),
         ("purchaseDate", Val.date (some (civilTime 0 2024 12 25))),
         ("productId", Val.str "p1")] =
      (Except.error (JSError.referenceError "Timestamp"), c) := by
  refine ⟨rfl, rfl, by decide, by decide, ?_, ?_⟩ <;>
    simp [createCustomer, createCustomerIn, timestampFromDate_moduleScope]

/-- C2: for every customer id and every patch whose `purchaseDate` is truthy, `updateCustomer`
fails with `ReferenceError: Timestamp is not defined` before it reaches
`updateDoc`: no update is submitted and the collection is unchanged. -/
theorem updateCustomer_purchaseDate_throws (h : Host) (c : Collection) (id : String)
    (updates : Obj) (hp : truthy (getProp updates "purchaseDate") = true) :
    updateCustomer h c id updates =
      some (Except.error (JSError.referenceError "Timestamp"), c) := by
  simp [updateCustomer, updateCustomerIn, hp, timestampFromDate_moduleScope]

/-- Witness of C2: moving the purchase date of the sample customer to 2024-02-10. -/
theorem updateCustomer_purchaseDate_throws_witness :
    truthy (getProp [("purchaseDate", Val.date (some (civilTime 0 2024 2 10)))]
      "purchaseDate") = true ∧
    updateCustomer sampleHost (sampleStore "Active") "c1"
        [("purchaseDate", Val.date (some (civilTime 0 2024 2 10)))] =
      some (Except.error (JSError.referenceError "Timestamp"), sampleStore "Active") :=
  ⟨rfl, updateCustomer_purchaseDate_throws sampleHost (sampleStore "Active") "c1"
    [("purchaseDate", Val.date (some (civilTime 0 2024 2 10)))] rfl⟩

/-- C10: for every input, valid or not, `createCustomer` fails with
`ReferenceError: Timestamp is not defined` while it builds the record, so it
persists nothing and returns no record. -/
theorem createCustomer_always_throws (h : Host) (c : Collection) (customerData : Obj) :
    createCustomer h c customerData =
      (Except.error (JSError.referenceError "Timestamp"), c) := by
  simp [createCustomer, createCustomerIn, timestampFromDate_moduleScope]

/-! ## The pairing of purchase date and warranty end -/

theorem updateFields_keeps_fields (c : Collection) (id id' : String) (updates data : Obj)
    (hdoc : getDoc c id' = some data) :
    ∃ data', getDoc (updateFields c id updates).2 id' = some data' ∧
      (∀ k', hasProp updates k' = false → getProp data' k' = getProp data k') := by
  unfold updateFields
  cases henc : encodeObj c.serverTime updates with
  | error e => exact ⟨data, hdoc, fun _ _ => rfl⟩
  | ok enc =>
    cases hl : c.docs.lookup id with
    | none => exact ⟨data, hdoc, fun _ _ => rfl⟩
    | some d0 =>
      unfold getDoc at hdoc
      refine ⟨if id' = id then spread data enc else data, ?_, ?_⟩
      · simp only [getDoc]
        rw [lookup_map_docs c.docs id id' (fun o => spread o enc), hdoc]
        rfl
      · intro k' hk'
        by_cases hid : id' = id
        · rw [if_pos hid, getProp_spread, hasProp_encodeObj _ _ _ _ henc, hk']
          simp
        · rw [if_neg hid]

/-- Outcome of `updateCustomer` for a patch without a truthy `purchaseDate` whose field
names have no dot: what `updateDoc` answers, and the collection it leaves. -/
theorem updateCustomer_of_wholeNames (h : Host) (c : Collection) (id : String) (updates : Obj)
    (hn : wholeNames updates = true) (hfalsy : truthy (getProp updates "purchaseDate") = false) :
    ∃ r, updateCustomer h c id updates = some (r, (updateFields c id updates).2) ∧
      ((updateFields c id updates).1 = Except.ok () →
        r = Except.ok (spread [("id", Val.str id)] updates)) := by
  simp only [updateCustomer, updateCustomerIn, hfalsy, updateDoc_of_wholeNames c id updates hn]
  cases hu : updateFields c id updates with
  | mk r c' =>
    cases r with
    | error e => exact ⟨Except.error e, rfl, fun hr => by simp at hr⟩
    | ok u => exact ⟨_, rfl, fun _ => rfl⟩

/-- The call of `updateCustomer` that `updateCustomerStatus` makes is within the model. -/
theorem updateCustomer_status_within (h : Host) (c : Collection) (id : String) (v : Val) :
    (updateCustomer h c id [("status", v)]).isSome = true := by
  obtain ⟨r, hr, _⟩ := updateCustomer_of_wholeNames h c id [("status", v)] rfl rfl
  rw [hr]
  rfl

theorem updateCustomer_keeps_dates (h : Host) (c : Collection) (id id' : String)
    (updates data : Obj) (hdoc : getDoc c id' = some data)
    (hn : wholeNames updates = true)
    (hp : hasProp updates "purchaseDate" = false)
    (hw : hasProp updates "warrantyEndDate" = false) :
    ∃ r c' data', updateCustomer h c id updates = some (r, c') ∧
      getDoc c' id' = some data' ∧
      getProp data' "purchaseDate" = getProp data "purchaseDate" ∧
      getProp data' "warrantyEndDate" = getProp data "warrantyEndDate" := by
  obtain ⟨data', hd', hkeep⟩ := updateFields_keeps_fields c id id' updates data hdoc
  have hfalsy : truthy (getProp updates "purchaseDate") = false := by
    rw [getProp_of_hasProp_false _ _ hp]; rfl
  obtain ⟨r, hr, _⟩ := updateCustomer_of_wholeNames h c id updates hn hfalsy
  exact ⟨r, _, data', hr, hd', hkeep _ hp, hkeep _ hw⟩

theorem updateCustomerStatus_collection (h : Host) (c : Collection) (id : String) :
    (updateCustomerStatus h c id).2 = c ∨
      (updateCustomerStatus h c id).2 =
        (updateFields c id [("status", Val.str "Warranty Expired")]).2 := by
  unfold updateCustomerStatus
  cases hg : getCustomer c id with
  | error e => exact Or.inl rfl
  | ok customer =>
    by_cases hlt : ltDate (getProp customer "warrantyEndDate") h.now = true
    · by_cases hs : Val.str "Warranty Expired" = getProp customer "status"
      · simp [hlt, hs.symm]
      · refine Or.inr ?_
        obtain ⟨r, hr, _⟩ := updateCustomer_of_wholeNames h c id
          [("status", Val.str "Warranty Expired")] rfl rfl
        simp only [hlt, if_true, ne_eq, hs, not_false_eq_true, hr]
        cases r <;> rfl
    · simp [hlt]

theorem warrantyPaired_congr (data data' : Obj)
    (hp : getProp data' "purchaseDate" = getProp data "purchaseDate")
    (hw : getProp data' "warrantyEndDate" = getProp data "warrantyEndDate") :
    warrantyPaired data' = warrantyPaired data := by
  simp [warrantyPaired, hp, hw]

/-- C3 (as stated, refuted): a patch that carries `warrantyEndDate` and no `purchaseDate` is
written as submitted: the sample record, whose warranty end is its purchase
date plus 15 days, ends up with warranty end 2030-01-01 and its old purchase
date. -/
theorem updateCustomer_unpairs_warranty :
    warrantyPaired (sampleRecord "Active") = true ∧
    hasProp [("warrantyEndDate", Val.date (some (civilTime 0 2030 1 1)))] "purchaseDate" = false ∧
    (∃ c', updateCustomer sampleHost (sampleStore "Active") "c1"
        [("warrantyEndDate", Val.date (some (civilTime 0 2030 1 1)))] =
        some (Except.ok [("id", Val.str "c1"),
          ("warrantyEndDate", Val.date (some (civilTime 0 2030 1 1)))], c') ∧
      getDoc c' "c1" = some (setProp (sampleRecord "Active") "warrantyEndDate"
        (Val.timestamp (civilTime 0 2030 1 1)))) ∧
    warrantyPaired (setProp (sampleRecord "Active") "warrantyEndDate"
      (Val.timestamp (civilTime 0 2030 1 1))) = false := by
  refine ⟨by decide, by decide, ⟨_, rfl, rfl⟩, by decide⟩

/-- C3 (amended): the purchase date and the warranty end date of every stored customer are
left as they were, and so the pairing `warrantyEndDate = purchaseDate + 15 days`
is kept, by `updateCustomerStatus` on any customer and by `updateCustomer` with
any patch whose field names have no dot and that has neither a `purchaseDate`
nor a `warrantyEndDate` property. -/
theorem warranty_pairing_preserved (h : Host) (c : Collection) (id id' : String)
    (updates data : Obj) (hdoc : getDoc c id' = some data)
    (hpair : warrantyPaired data = true) :
    (∃ data', getDoc (updateCustomerStatus h c id).2 id' = some data' ∧
      getProp data' "purchaseDate" = getProp data "purchaseDate" ∧
      getProp data' "warrantyEndDate" = getProp data "warrantyEndDate" ∧
      warrantyPaired data' = true) ∧
    (wholeNames updates = true → hasProp updates "purchaseDate" = false →
      hasProp updates "warrantyEndDate" = false →
      ∃ r c' data', updateCustomer h c id updates = some (r, c') ∧
        getDoc c' id' = some data' ∧
        getProp data' "purchaseDate" = getProp data "purchaseDate" ∧
        getProp data' "warrantyEndDate" = getProp data "warrantyEndDate" ∧
        warrantyPaired data' = true) := by
  constructor
  · rcases updateCustomerStatus_collection h c id with hc | hc
    · rw [hc]
      exact ⟨data, hdoc, rfl, rfl, hpair⟩
    · rw [hc]
      obtain ⟨data', hd', hkeep⟩ := updateFields_keeps_fields c id id'
        [("status", Val.str "Warranty Expired")] data hdoc
      have h1 := hkeep "purchaseDate" (by decide)
      have h2 := hkeep "warrantyEndDate" (by decide)
      exact ⟨data', hd', h1, h2, by rw [warrantyPaired_congr data data' h1 h2, hpair]⟩
  · intro hn hp hw
    obtain ⟨r, c', data', hr, hd', h1, h2⟩ :=
      updateCustomer_keeps_dates h c id id' updates data hdoc hn hp hw
    exact ⟨r, c', data', hr, hd', h1, h2, by rw [warrantyPaired_congr data data' h1 h2, hpair]⟩

/-- Witness of C3 (amended): the sample customer, with a patch that changes the notes. -/
theorem warranty_pairing_preserved_witness :
    getDoc (sampleStore "Active") "c1" = some (sampleRecord "Active") ∧
    warrantyPaired (sampleRecord "Active") = true ∧
    wholeNames [("notes", Val.str "called")] = true ∧
    (∃ data', getDoc (updateCustomerStatus sampleHost (sampleStore "Active") "c1").2 "c1" =
        some data' ∧
      getProp data' "purchaseDate" = getProp (sampleRecord "Active") "purchaseDate" ∧
      getProp data' "warrantyEndDate" = getProp (sampleRecord "Active") "warrantyEndDate" ∧
      warrantyPaired data' = true) ∧
    (∃ r c' data', updateCustomer sampleHost (sampleStore "Active") "c1"
        [("notes", Val.str "called")] = some (r, c') ∧
      getDoc c' "c1" = some data' ∧
      getProp data' "purchaseDate" = getProp (sampleRecord "Active") "purchaseDate" ∧
      getProp data' "warrantyEndDate" = getProp (sampleRecord "Active") "warrantyEndDate" ∧
      warrantyPaired data' = true) :=
  ⟨rfl, by decide, by decide,
    (warranty_pairing_preserved sampleHost (sampleStore "Active") "c1" "c1"
      [("notes", Val.str "called")] (sampleRecord "Active") rfl (by decide)).1,
    (warranty_pairing_preserved sampleHost (sampleStore "Active") "c1" "c1"
      [("notes", Val.str "called")] (sampleRecord "Active") rfl (by decide)).2
      (by decide) (by decide) (by decide)⟩

/-! ## Status recomputation -/

theorem dateView_timestamp_lt (data : Obj) (w now : Int)
    (hw : getProp data "warrantyEndDate" = Val.timestamp w) :
    (ltDate (dateView (getProp data "warrantyEndDate")) now = true) ↔ w < now := by
  simp [hw, dateView, ltDate]

/-- C4: for a stored customer whose status is 'Active', `updateCustomerStatus` returns
'Warranty Expired' exactly when `now` is later than the warranty end date, and
then persists it by one update of the status field; when `now` is not later
it returns 'Active' and leaves the collection and its write log as they were. -/
theorem updateCustomerStatus_active (h : Host) (c : Collection) (id : String) (data : Obj)
    (w : Int) (hdoc : getDoc c id = some data) (hrec : customerRecord data = true)
    (hw : getProp data "warrantyEndDate" = Val.timestamp w)
    (hs : getProp data "status" = Val.str "Active") :
    ((updateCustomerStatus h c id).1 = Except.ok (Val.str "Warranty Expired") ↔ w < h.now) ∧
    (w < h.now →
      getDoc (updateCustomerStatus h c id).2 id =
          some (setProp data "status" (Val.str "Warranty Expired")) ∧
        (updateCustomerStatus h c id).2.writes =
          c.writes ++ [WriteOp.update id [("status", Val.str "Warranty Expired")]]) ∧
    (¬ w < h.now → updateCustomerStatus h c id = (Except.ok (Val.str "Active"), c)) := by
  have hev := updateCustomerStatus_eval h c id data hdoc
    (readableDates_of_customerRecord data hrec)
  have hlt := dateView_timestamp_lt data w h.now hw
  have hne : getProp data "status" ≠ Val.str "Warranty Expired" := by
    rw [hs]; decide
  by_cases hexp : w < h.now
  · have hcond : ltDate (dateView (getProp data "warrantyEndDate")) h.now = true ∧
        getProp data "status" ≠ Val.str "Warranty Expired" := ⟨hlt.mpr hexp, hne⟩
    rw [if_pos hcond] at hev
    refine ⟨⟨fun _ => hexp, fun _ => by rw [hev]⟩, fun _ => ⟨?_, by rw [hev]⟩,
      fun hn => absurd hexp hn⟩
    rw [hev, getDoc_after_status, hdoc]
    simp
  · have hcond : ¬ (ltDate (dateView (getProp data "warrantyEndDate")) h.now = true ∧
        getProp data "status" ≠ Val.str "Warranty Expired") :=
      fun hc => hexp (hlt.mp hc.1)
    rw [if_neg hcond, hs] at hev
    refine ⟨⟨fun hr => ?_, fun hx => absurd hx hexp⟩, fun hx => absurd hx hexp, fun _ => hev⟩
    rw [hev] at hr
    simp at hr

/-- Witness of C4: the sample customer, Active with warranty end 2024-02-04, at 2024-03-01. -/
theorem updateCustomerStatus_active_witness :
    civilTime 0 2024 2 4 < sampleHost.now ∧
    (updateCustomerStatus sampleHost (sampleStore "Active") "c1").1 =
      Except.ok (Val.str "Warranty Expired") ∧
    getDoc (updateCustomerStatus sampleHost (sampleStore "Active") "c1").2 "c1" =
      some (setProp (sampleRecord "Active") "status" (Val.str "Warranty Expired")) ∧
    (updateCustomerStatus sampleHost (sampleStore "Active") "c1").2.writes =
      (sampleStore "Active").writes ++
        [WriteOp.update "c1" [("status", Val.str "Warranty Expired")]] :=
  ⟨by decide,
    (updateCustomerStatus_active sampleHost (sampleStore "Active") "c1" (sampleRecord "Active")
      (civilTime 0 2024 2 4) rfl rfl rfl rfl).1.mpr (by decide),
    (updateCustomerStatus_active sampleHost (sampleStore "Active") "c1" (sampleRecord "Active")
      (civilTime 0 2024 2 4) rfl rfl rfl rfl).2.1 (by decide)⟩

/-- C5: on a customer that is already 'Completed' and whose warranty end date has passed,
`updateCustomerStatus` writes and returns 'Warranty Expired', a status that is
lower in the lifecycle order than the one the record had. -/
theorem updateCustomerStatus_regresses_completed :
    getDoc (sampleStore "Completed") "c1" = some (sampleRecord "Completed") ∧
    getProp (sampleRecord "Completed") "status" = Val.str "Completed" ∧
    updateCustomerStatus sampleHost (sampleStore "Completed") "c1" =
      (Except.ok (Val.str "Warranty Expired"),
        { docs := [("c1", sampleRecord "Warranty Expired")]
          serverTime := civilTime 0 2024 3 1
          writes := [WriteOp.update "c1" [("status", Val.str "Warranty Expired")]] }) ∧
    statusRank (Val.str "Warranty Expired") = some 1 ∧
    statusRank (Val.str "Completed") = some 3 := by
  refine ⟨rfl, rfl, ?_, rfl, rfl⟩
  rfl

/-- C6: for an Active customer whose warranty end date is before `t1`, a call at `t1` and
a second call on the resulting collection at any time `t2` (in particular any
`t2 ≥ t1`) both return 'Warranty Expired', and the second call leaves the
collection and its write log exactly as the first call left them. -/
theorem updateCustomerStatus_idempotent (h1 h2 : Host) (c : Collection) (id : String)
    (data : Obj) (w : Int) (hdoc : getDoc c id = some data)
    (hrec : customerRecord data = true)
    (hw : getProp data "warrantyEndDate" = Val.timestamp w)
    (hs : getProp data "status" = Val.str "Active")
    (hexp : w < h1.now) :
    (updateCustomerStatus h1 c id).1 = Except.ok (Val.str "Warranty Expired") ∧
    updateCustomerStatus h2 (updateCustomerStatus h1 c id).2 id =
      (Except.ok (Val.str "Warranty Expired"), (updateCustomerStatus h1 c id).2) := by
  have hev := updateCustomerStatus_eval h1 c id data hdoc
    (readableDates_of_customerRecord data hrec)
  have hcond : ltDate (dateView (getProp data "warrantyEndDate")) h1.now = true ∧
      getProp data "status" ≠ Val.str "Warranty Expired" :=
    ⟨(dateView_timestamp_lt data w h1.now hw).mpr hexp, by rw [hs]; decide⟩
  rw [if_pos hcond] at hev
  have hdoc1 : getDoc (updateCustomerStatus h1 c id).2 id =
      some (setProp data "status" (Val.str "Warranty Expired")) := by
    rw [hev, getDoc_after_status, hdoc]
    simp
  refine ⟨by rw [hev], ?_⟩
  have hd1 : readableDates (setProp data "status" (Val.str "Warranty Expired")) = true := by
    have := readableDates_of_customerRecord data hrec
    simpa [readableDates, getProp_setProp_other _ "status" _ _ (by decide : "purchaseDate" ≠ "status"),
      getProp_setProp_other _ "status" _ _ (by decide : "warrantyEndDate" ≠ "status"),
      getProp_setProp_other _ "status" _ _ (by decide : "createdAt" ≠ "status")] using this
  rw [updateCustomerStatus_eval h2 _ id _ hdoc1 hd1, getProp_setProp_same]
  simp

/-- Witness of C6: the sample Active customer, first call and second call both at 2024-03-01. -/
theorem updateCustomerStatus_idempotent_witness :
    (updateCustomerStatus sampleHost (sampleStore "Active") "c1").1 =
      Except.ok (Val.str "Warranty Expired") ∧
    updateCustomerStatus sampleHost
        (updateCustomerStatus sampleHost (sampleStore "Active") "c1").2 "c1" =
      (Except.ok (Val.str "Warranty Expired"),
        (updateCustomerStatus sampleHost (sampleStore "Active") "c1").2) :=
  updateCustomerStatus_idempotent sampleHost sampleHost (sampleStore "Active") "c1"
    (sampleRecord "Active") (civilTime 0 2024 2 4) rfl rfl rfl rfl (by decide)

/-- C7: for a stored customer whose status is 'Warranty Expired', 'Review Requested' or
'Completed', `updateCustomerStatus` succeeds, the status it returns is the one
the record holds afterwards, and that status is not 'Active'. -/
theorem updateCustomerStatus_never_active (h : Host) (c : Collection) (id : String)
    (data : Obj) (hdoc : getDoc c id = some data) (hrec : customerRecord data = true)
    (hs : getProp data "status" = Val.str "Warranty Expired" ∨
      getProp data "status" = Val.str "Review Requested" ∨
      getProp data "status" = Val.str "Completed") :
    ∃ s data', (updateCustomerStatus h c id).1 = Except.ok s ∧
      getDoc (updateCustomerStatus h c id).2 id = some data' ∧
      getProp data' "status" = s ∧ s ≠ Val.str "Active" := by
  have hev := updateCustomerStatus_eval h c id data hdoc
    (readableDates_of_customerRecord data hrec)
  by_cases hcond : ltDate (dateView (getProp data "warrantyEndDate")) h.now = true ∧
      getProp data "status" ≠ Val.str "Warranty Expired"
  · rw [if_pos hcond] at hev
    refine ⟨Val.str "Warranty Expired", setProp data "status" (Val.str "Warranty Expired"),
      by rw [hev], ?_, getProp_setProp_same _ _ _, by decide⟩
    rw [hev, getDoc_after_status, hdoc]
    simp
  · rw [if_neg hcond] at hev
    refine ⟨getProp data "status", data, by rw [hev], by rw [hev]; exact hdoc, rfl, ?_⟩
    rcases hs with hs | hs | hs <;> rw [hs] <;> decide

/-- Witness of C7: the sample customer with status 'Review Requested'. -/
theorem updateCustomerStatus_never_active_witness :
    ∃ s data',
      (updateCustomerStatus sampleHost (sampleStore "Review Requested") "c1").1 = Except.ok s ∧
      getDoc (updateCustomerStatus sampleHost (sampleStore "Review Requested") "c1").2 "c1" =
        some data' ∧
      getProp data' "status" = s ∧ s ≠ Val.str "Active" :=
  updateCustomerStatus_never_active sampleHost (sampleStore "Review Requested") "c1"
    (sampleRecord "Review Requested") rfl rfl (Or.inr (Or.inl rfl))

/-! ## Cohort queries -/

theorem mapDocs_of_readable (l : List (String × Obj))
    (hl : ∀ d ∈ l, readableDates d.2 = true) :
    mapDocs l = Except.ok (l.map customerView) := by
  induction l with
  | nil => rfl
  | cons d rest ih =>
    have hd := hl d (List.mem_cons_self d rest)
    have hrest := ih (fun x hx => hl x (List.mem_cons_of_mem d hx))
    simp [mapDocs, customerFromDoc_of_readable d hd, hrest]

theorem mem_orderByDesc (field : String) (l : List (String × Obj)) (d : String × Obj) :
    d ∈ orderByDesc field l ↔ d ∈ l ∧ hasProp d.2 field = true := by
  unfold orderByDesc
  rw [List.mem_insertionSort, List.mem_filter]

theorem mem_whereEq (field : String) (v : Val) (l : List (String × Obj)) (d : String × Obj) :
    d ∈ whereEq field v l ↔ d ∈ l ∧ getProp d.2 field = v := by
  unfold whereEq
  rw [List.mem_filter]
  simp

theorem hasProp_purchaseDate_of_customerRecord (data : Obj) (hrec : customerRecord data = true) :
    hasProp data "purchaseDate" = true := by
  simp only [customerRecord, Bool.and_eq_true] at hrec
  exact hrec.1.1.1

theorem warrantyEnd_of_customerRecord (data : Obj) (hrec : customerRecord data = true) :
    ∃ w, getProp data "warrantyEndDate" = Val.timestamp w := by
  simp only [customerRecord, Bool.and_eq_true] at hrec
  have h2 := hrec.1.2
  cases hv : getProp data "warrantyEndDate" <;> simp [hv, isTimestamp] at h2
  exact ⟨_, rfl⟩

/-- On a collection of customer records `getCustomers` succeeds; it lists the view of every
document that passes the status filter, when one is given. -/
theorem getCustomers_of_records (c : Collection) (filters : Obj)
    (hwf : ∀ d ∈ c.docs, customerRecord d.2 = true) :
    ∃ listed, getCustomers c filters = Except.ok listed ∧
      ∀ cu, cu ∈ listed ↔ ∃ d, d ∈ c.docs ∧ customerView d = cu ∧
        (truthy (getProp filters "status") = true →
          getProp d.2 "status" = getProp filters "status") := by
  unfold getCustomers
  by_cases hf : truthy (getProp filters "status") = true
  · simp only [hf, if_true]
    refine ⟨_, mapDocs_of_readable _ ?_, ?_⟩
    · intro d hd
      rw [mem_orderByDesc, mem_whereEq] at hd
      exact readableDates_of_customerRecord _ (hwf d hd.1.1)
    · intro cu
      simp only [List.mem_map, mem_orderByDesc, mem_whereEq]
      constructor
      · rintro ⟨d, ⟨⟨hd, hs⟩, _⟩, hv⟩
        exact ⟨d, hd, hv, fun _ => hs⟩
      · rintro ⟨d, hd, hv, hs⟩
        exact ⟨d, ⟨⟨hd, hs trivial⟩, hasProp_purchaseDate_of_customerRecord _ (hwf d hd)⟩, hv⟩
  · simp only [hf, if_false]
    refine ⟨_, mapDocs_of_readable _ ?_, ?_⟩
    · intro d hd
      rw [mem_orderByDesc] at hd
      exact readableDates_of_customerRecord _ (hwf d hd.1)
    · intro cu
      simp only [List.mem_map, mem_orderByDesc]
      constructor
      · rintro ⟨d, ⟨hd, _⟩, hv⟩
        exact ⟨d, hd, hv, fun h => absurd h (by simp)⟩
      · rintro ⟨d, hd, hv, _⟩
        exact ⟨d, ⟨hd, hasProp_purchaseDate_of_customerRecord _ (hwf d hd)⟩, hv⟩

theorem expiringAt_customerView (now : Int) (future : Int) (d : String × Obj) (w : Int)
    (hw : getProp d.2 "warrantyEndDate" = Val.timestamp w) :
    expiringAt now (some future) (customerView d) = true ↔ now ≤ w ∧ w ≤ future := by
  simp [expiringAt, customerView_warrantyEndDate, hw, dateView, geDate, leDate]

theorem expiredAt_customerView (now : Int) (d : String × Obj) (w : Int)
    (hw : getProp d.2 "warrantyEndDate" = Val.timestamp w) :
    expiredAt now (customerView d) = true ↔
      w < now ∧ getProp d.2 "status" ≠ Val.str "Review Requested" ∧
        getProp d.2 "status" ≠ Val.str "Completed" := by
  simp [expiredAt, customerView_warrantyEndDate, customerView_status, hw, dateView, ltDate,
    and_assoc]

theorem addDays_in_range (t n : Int) (hlo : -maxTime ≤ t + n * msPerDay)
    (hhi : t + n * msPerDay ≤ maxTime) : addDays (some t) n = some (t + n * msPerDay) := by
  by_cases hn : n = 0
  · simp [addDays, hn]
  · simp [addDays, hn, timeClip, hlo, hhi]

theorem addDays_out_of_range (t n : Int) (hn : n ≠ 0)
    (hout : ¬ (-maxTime ≤ t + n * msPerDay ∧ t + n * msPerDay ≤ maxTime)) :
    addDays (some t) n = none := by
  simp only [addDays, hn, if_false, timeClip, hout]

theorem expiringAt_of_invalid (now : Int) (cu : Obj) : expiringAt now none cu = false := by
  unfold expiringAt leDate
  cases getProp cu "warrantyEndDate" <;> simp

/-- C8 (as stated, refuted): at 2024-03-01 with `daysAhead = 100000000` the date
`now + daysAhead` days is beyond the range of `Date`, `futureDate` is the
Invalid Date and nothing is returned, although the Active customer `c1` has
its warranty end two days ahead, between `now` and `now + daysAhead` days. -/
theorem getExpiringWarranties_beyond_range :
    getExpiringWarranties sampleHost cohortStore (some 100000000) = Except.ok [] ∧
    ("c1", recordBought "Active" 2024 2 17) ∈ cohortStore.docs ∧
    getProp (recordBought "Active" 2024 2 17) "status" = Val.str "Active" ∧
    getProp (recordBought "Active" 2024 2 17) "warrantyEndDate" =
      Val.timestamp (sampleHost.now + 2 * msPerDay) ∧
    sampleHost.now ≤ sampleHost.now + 2 * msPerDay ∧
    sampleHost.now + 2 * msPerDay ≤ sampleHost.now + 100000000 * msPerDay ∧
    maxTime < sampleHost.now + 100000000 * msPerDay := by
  refine ⟨by rfl, by decide, by decide, by decide, by decide, by decide, by decide⟩

/-- C8 (amended): on a collection of customer records, `getExpiringWarranties(daysAhead)`
succeeds and returns customers in the order in which
`getCustomers({status: 'Active'})` listed them.  When `now + daysAhead` days
(of 24 hours) is within the range of `Date`, they are exactly the customers
with status 'Active' whose warranty end date `w` satisfies
`now ≤ w ≤ now + daysAhead` days, both bounds included; when it is beyond
that range and `daysAhead` is not 0, nothing is returned. -/
theorem getExpiringWarranties_window (h : Host) (c : Collection) (daysAhead : Int)
    (hwf : ∀ d ∈ c.docs, customerRecord d.2 = true) :
    ∃ listed result,
      getCustomers c [("status", Val.str "Active")] = Except.ok listed ∧
      getExpiringWarranties h c (some daysAhead) = Except.ok result ∧
      result.Sublist listed ∧
      (-maxTime ≤ h.now + daysAhead * msPerDay → h.now + daysAhead * msPerDay ≤ maxTime →
        ∀ cu, cu ∈ result ↔
          ∃ d w, d ∈ c.docs ∧ customerFromDoc d = Except.ok cu ∧
            getProp d.2 "status" = Val.str "Active" ∧
            getProp d.2 "warrantyEndDate" = Val.timestamp w ∧
            h.now ≤ w ∧ w ≤ h.now + daysAhead * msPerDay) ∧
      (daysAhead ≠ 0 →
        ¬ (-maxTime ≤ h.now + daysAhead * msPerDay ∧ h.now + daysAhead * msPerDay ≤ maxTime) →
        result = []) := by
  obtain ⟨listed, hlist, hmem⟩ := getCustomers_of_records c [("status", Val.str "Active")] hwf
  refine ⟨listed, listed.filter (expiringAt h.now (addDays (some h.now) daysAhead)),
    hlist, ?_, List.filter_sublist listed, ?_, ?_⟩
  · simp [getExpiringWarranties, hlist]
  · intro hlo hhi cu
    rw [addDays_in_range h.now daysAhead hlo hhi, List.mem_filter, hmem]
    constructor
    · rintro ⟨⟨d, hd, hv, hs⟩, hexp⟩
      obtain ⟨w, hw⟩ := warrantyEnd_of_customerRecord _ (hwf d hd)
      subst hv
      refine ⟨d, w, hd, customerFromDoc_of_readable d
        (readableDates_of_customerRecord _ (hwf d hd)), hs (by decide), hw, ?_⟩
      exact (expiringAt_customerView _ _ d w hw).mp hexp
    · rintro ⟨d, w, hd, hv, hs, hw, hwin⟩
      rw [customerFromDoc_of_readable d (readableDates_of_customerRecord _ (hwf d hd))] at hv
      have hv' : customerView d = cu := by simpa using hv
      subst hv'
      exact ⟨⟨d, hd, rfl, fun _ => hs⟩, (expiringAt_customerView _ _ d w hw).mpr hwin⟩
  · intro hn hout
    rw [addDays_out_of_range h.now daysAhead hn hout, List.filter_eq_nil_iff]
    intro cu _
    simp [expiringAt_of_invalid]

/-- Witness of C8 (amended): in the cohort collection read at 2024-03-01 with `daysAhead = 3`,
the Active customer whose warranty ends two days ahead (`c1`) is returned, as is
the one whose warranty ends at that instant (`c3`); the Active customer whose
warranty ends four days ahead (`c2`) is not, nor is any other. -/
theorem getExpiringWarranties_window_witness :
    (∀ d ∈ cohortStore.docs, customerRecord d.2 = true) ∧
    getProp (recordBought "Active" 2024 2 17) "warrantyEndDate" =
      Val.timestamp (sampleHost.now + 2 * msPerDay) ∧
    getProp (recordBought "Active" 2024 2 19) "warrantyEndDate" =
      Val.timestamp (sampleHost.now + 4 * msPerDay) ∧
    getExpiringWarranties sampleHost cohortStore (some 3) =
      Except.ok [customerView ("c1", recordBought "Active" 2024 2 17),
        customerView ("c3", recordBought "Active" 2024 2 15)] ∧
    getExpiringWarranties sampleHost cohortStore none =
      getExpiringWarranties sampleHost cohortStore (some 3) ∧
    -maxTime ≤ sampleHost.now + 3 * msPerDay ∧ sampleHost.now + 3 * msPerDay ≤ maxTime ∧
    ∃ listed result,
      getCustomers cohortStore [("status", Val.str "Active")] = Except.ok listed ∧
      getExpiringWarranties sampleHost cohortStore (some 3) = Except.ok result ∧
      result.Sublist listed ∧
      (-maxTime ≤ sampleHost.now + 3 * msPerDay → sampleHost.now + 3 * msPerDay ≤ maxTime →
        ∀ cu, cu ∈ result ↔
          ∃ d w, d ∈ cohortStore.docs ∧ customerFromDoc d = Except.ok cu ∧
            getProp d.2 "status" = Val.str "Active" ∧
            getProp d.2 "warrantyEndDate" = Val.timestamp w ∧
            sampleHost.now ≤ w ∧ w ≤ sampleHost.now + 3 * msPerDay) ∧
      ((3 : Int) ≠ 0 →
        ¬ (-maxTime ≤ sampleHost.now + 3 * msPerDay ∧ sampleHost.now + 3 * msPerDay ≤ maxTime) →
        result = []) :=
  ⟨by decide, by decide, by decide, by rfl, rfl, by decide, by decide,
    getExpiringWarranties_window sampleHost cohortStore 3 (by decide)⟩

/-- C9: on a collection of customer records, `getExpiredWarranties` succeeds and returns
exactly the customers whose warranty end date is strictly before `now` and
whose status is neither 'Review Requested' nor 'Completed'; no returned customer
has one of these two statuses. -/
theorem getExpiredWarranties_exact (h : Host) (c : Collection)
    (hwf : ∀ d ∈ c.docs, customerRecord d.2 = true) :
    ∃ result,
      getExpiredWarranties h c = Except.ok result ∧
      (∀ cu, cu ∈ result ↔
        ∃ d w, d ∈ c.docs ∧ customerFromDoc d = Except.ok cu ∧
          getProp d.2 "warrantyEndDate" = Val.timestamp w ∧ w < h.now ∧
          getProp d.2 "status" ≠ Val.str "Review Requested" ∧
          getProp d.2 "status" ≠ Val.str "Completed") ∧
      (∀ cu, cu ∈ result →
        getProp cu "status" ≠ Val.str "Review Requested" ∧
          getProp cu "status" ≠ Val.str "Completed") := by
  obtain ⟨listed, hlist, hmem⟩ := getCustomers_of_records c [] hwf
  refine ⟨listed.filter (expiredAt h.now), ?_, ?_, ?_⟩
  · simp [getExpiredWarranties, hlist]
  · intro cu
    rw [List.mem_filter, hmem]
    constructor
    · rintro ⟨⟨d, hd, hv, _⟩, hexp⟩
      obtain ⟨w, hw⟩ := warrantyEnd_of_customerRecord _ (hwf d hd)
      subst hv
      obtain ⟨h1, h2, h3⟩ := (expiredAt_customerView _ d w hw).mp hexp
      exact ⟨d, w, hd, customerFromDoc_of_readable d
        (readableDates_of_customerRecord _ (hwf d hd)), hw, h1, h2, h3⟩
    · rintro ⟨d, w, hd, hv, hw, h1, h2, h3⟩
      rw [customerFromDoc_of_readable d (readableDates_of_customerRecord _ (hwf d hd))] at hv
      have hv' : customerView d = cu := by simpa using hv
      subst hv'
      exact ⟨⟨d, hd, rfl, fun hf => absurd hf (by decide)⟩,
        (expiredAt_customerView _ d w hw).mpr ⟨h1, h2, h3⟩⟩
  · intro cu hcu
    rw [List.mem_filter] at hcu
    have hx := hcu.2
    simp only [expiredAt, Bool.and_eq_true, decide_eq_true_eq] at hx
    exact ⟨hx.1.2, hx.2⟩

/-- Witness of C9: in the cohort collection read at 2024-03-01 the result is the Active
customer and the Warranty Expired customer whose warranty ended a day ago; the
Completed and the Review Requested customers, expired for months, are left out,
and so is the customer whose warranty ends at that very instant. -/
theorem getExpiredWarranties_exact_witness :
    (∀ d ∈ cohortStore.docs, customerRecord d.2 = true) ∧
    getExpiredWarranties sampleHost cohortStore =
      Except.ok [customerView ("c7", recordBought "Active" 2024 2 14),
        customerView ("c4", recordBought "Warranty Expired" 2024 2 14)] ∧
    ∃ result,
      getExpiredWarranties sampleHost cohortStore = Except.ok result ∧
      (∀ cu, cu ∈ result ↔
        ∃ d w, d ∈ cohortStore.docs ∧ customerFromDoc d = Except.ok cu ∧
          getProp d.2 "warrantyEndDate" = Val.timestamp w ∧ w < sampleHost.now ∧
          getProp d.2 "status" ≠ Val.str "Review Requested" ∧
          getProp d.2 "status" ≠ Val.str "Completed") ∧
      (∀ cu, cu ∈ result →
        getProp cu "status" ≠ Val.str "Review Requested" ∧
          getProp cu "status" ≠ Val.str "Completed") :=
  ⟨by decide, by rfl, getExpiredWarranties_exact sampleHost cohortStore (by decide)⟩

/-! ## Validators -/

theorem dropWhile_ne_nil_iff (p : Char → Bool) (l : List Char) :
    l.dropWhile p ≠ [] ↔ ∃ c ∈ l, p c = false := by
  rw [Ne, List.dropWhile_eq_nil_iff]
  simp

theorem mem_dropWhile_of_not (p : Char → Bool) (l : List Char) (c : Char) (hc : c ∈ l)
    (hp : p c = false) : c ∈ l.dropWhile p := by
  induction l with
  | nil => simp at hc
  | cons a rest ih =>
    by_cases ha : p a = true
    · rw [List.dropWhile_cons_of_pos ha]
      rcases List.mem_cons.mp hc with h | h
      · subst h; simp [hp] at ha
      · exact ih h
    · rw [List.dropWhile_cons_of_neg ha]
      exact hc

theorem jsTrim_length_pos_iff (s : String) :
    0 < (jsTrim s).length ↔ ∃ c ∈ s.toList, isJsSpace c = false := by
  unfold jsTrim
  rw [List.length_reverse, List.length_pos, dropWhile_ne_nil_iff]
  constructor
  · rintro ⟨c, hc, hp⟩
    exact ⟨c, (List.dropWhile_sublist _).subset (List.mem_reverse.mp hc), hp⟩
  · rintro ⟨c, hc, hp⟩
    exact ⟨c, List.mem_reverse.mpr (mem_dropWhile_of_not _ _ c hc hp), hp⟩

theorem isRequired_iff (v : Val) : isRequired v = true ↔ specPresent v := by
  cases v <;> simp [isRequired, specPresent, jsTrim_length_pos_iff]

theorem mem_notSpaceNorAt (x : List EmailSym) :
    x ∈ notSpaceNorAt.matches' ↔ x = [EmailSym.dot] ∨ x = [EmailSym.other] := by
  rw [notSpaceNorAt, RegularExpression.matches'_add, Language.mem_add]
  exact Iff.rfl

theorem mem_star_notSpaceNorAt (x : List EmailSym) :
    x ∈ (RegularExpression.star notSpaceNorAt).matches' ↔
      ∀ a ∈ x, a = EmailSym.dot ∨ a = EmailSym.other := by
  rw [RegularExpression.matches'_star, Language.mem_kstar]
  constructor
  · rintro ⟨L, rfl, hL⟩ a ha
    rw [List.mem_flatten] at ha
    obtain ⟨y, hy, hay⟩ := ha
    rcases (mem_notSpaceNorAt y).mp (hL y hy) with h | h <;> subst h <;> simp at hay <;> simp [hay]
  · intro h
    refine ⟨x.map (fun a => [a]), ?_, ?_⟩
    · induction x with
      | nil => rfl
      | cons a rest ih =>
        simp only [List.map_cons, List.flatten_cons, List.singleton_append]
        rw [← ih (fun b hb => h b (List.mem_cons_of_mem a hb))]
    · intro y hy
      rw [List.mem_map] at hy
      obtain ⟨a, ha, rfl⟩ := hy
      exact (mem_notSpaceNorAt [a]).mpr (by rcases h a ha with h1 | h1 <;> simp [h1])

theorem mem_oneOrMore (x : List EmailSym) :
    x ∈ (oneOrMore notSpaceNorAt).matches' ↔
      x ≠ [] ∧ ∀ a ∈ x, a = EmailSym.dot ∨ a = EmailSym.other := by
  unfold oneOrMore
  rw [RegularExpression.matches'_mul, Language.mem_mul]
  constructor
  · rintro ⟨a, ha, b, hb, rfl⟩
    rw [mem_notSpaceNorAt] at ha
    rw [mem_star_notSpaceNorAt] at hb
    refine ⟨by rcases ha with h | h <;> simp [h], ?_⟩
    intro c hc
    rcases List.mem_append.mp hc with h | h
    · rcases ha with h1 | h1 <;> subst h1 <;> simp at h <;> simp [h]
    · exact hb c h
  · rintro ⟨hne, hall⟩
    cases x with
    | nil => exact absurd rfl hne
    | cons a rest =>
      refine ⟨[a], (mem_notSpaceNorAt [a]).mpr ?_, rest,
        (mem_star_notSpaceNorAt rest).mpr (fun b hb => hall b (List.mem_cons_of_mem a hb)), rfl⟩
      rcases hall a (List.mem_cons_self a rest) with h | h <;> simp [h]

theorem emailSym_dot_or_other (c : Char) :
    (emailSym c = EmailSym.dot ∨ emailSym c = EmailSym.other) ↔
      (isJsSpace c = false ∧ c ≠ '@') := by
  unfold emailSym
  by_cases h1 : c = '@'
  · simp [h1]
  · by_cases h2 : c = '.'
    · subst h2
      simp [h1]
      decide
    · by_cases h3 : isJsSpace c = true <;> simp [h1, h2, h3]

theorem emailSym_atSign (c : Char) : emailSym c = EmailSym.atSign ↔ c = '@' := by
  unfold emailSym
  by_cases h1 : c = '@'
  · simp [h1]
  · by_cases h2 : c = '.'
    · simp [h1, h2]
    · by_cases h3 : isJsSpace c = true <;> simp [h1, h2, h3]

theorem emailSym_dot (c : Char) : emailSym c = EmailSym.dot ↔ c = '.' := by
  unfold emailSym
  by_cases h1 : c = '@'
  · subst h1
    simp
  · by_cases h2 : c = '.'
    · simp [h1, h2]
    · by_cases h3 : isJsSpace c = true <;> simp [h1, h2, h3]

theorem map_emailSym_oneOrMore (l : List Char) :
    l.map emailSym ∈ (oneOrMore notSpaceNorAt).matches' ↔
      l ≠ [] ∧ ∀ c ∈ l, isJsSpace c = false ∧ c ≠ '@' := by
  rw [mem_oneOrMore]
  simp only [ne_eq, List.map_eq_nil_iff, List.mem_map, forall_exists_index, and_imp,
    forall_apply_eq_imp_iff₂, emailSym_dot_or_other]

theorem isValidEmail_iff (s : String) :
    isValidEmail (Val.str s) = true ↔ specEmailForm s := by
  unfold isValidEmail specEmailForm
  rw [RegularExpression.rmatch_iff_matches']
  unfold emailRegex
  simp only [RegularExpression.matches'_mul, Language.mem_mul, RegularExpression.matches'_char,
    Set.mem_singleton_iff]
  constructor
  · rintro ⟨a, ha, x1, ⟨b, hb, x2, ⟨c, hc, x3, ⟨d, hd, e, he, rfl⟩, rfl⟩, rfl⟩, hs⟩
    subst hb hd
    replace hs := hs.symm
    rw [List.map_eq_append_iff] at hs
    obtain ⟨l, r1, hl, hla, hr1⟩ := hs
    rw [List.singleton_append, List.map_eq_cons_iff] at hr1
    obtain ⟨c1, r2, hr1', hc1, hr2⟩ := hr1
    rw [List.map_eq_append_iff] at hr2
    obtain ⟨dd, r3, hr2', hdd, hr3⟩ := hr2
    rw [List.singleton_append, List.map_eq_cons_iff] at hr3
    obtain ⟨c2, t, hr3', hc2, ht⟩ := hr3
    rw [← hla, map_emailSym_oneOrMore] at ha
    rw [← hdd, map_emailSym_oneOrMore] at hc
    rw [← ht, map_emailSym_oneOrMore] at he
    rw [emailSym_atSign] at hc1
    rw [emailSym_dot] at hc2
    subst hc1 hc2
    refine ⟨l, dd, t, ?_, ha.1, hc.1, he.1, ?_⟩
    · rw [hl, hr1', hr2', hr3']
    · intro ch hch
      rcases List.mem_append.mp hch with h | h
      · exact ha.2 ch h
      · rcases List.mem_append.mp h with h | h
        · exact hc.2 ch h
        · exact he.2 ch h
  · rintro ⟨l, d, t, hs, hl, hd, ht, hall⟩
    refine ⟨l.map emailSym, (map_emailSym_oneOrMore l).mpr
        ⟨hl, fun c hc => hall c (List.mem_append_left _ hc)⟩,
      _, ⟨[EmailSym.atSign], rfl, _, ⟨d.map emailSym, (map_emailSym_oneOrMore d).mpr
        ⟨hd, fun c hc => hall c (List.mem_append_right _ (List.mem_append_left _ hc))⟩,
        _, ⟨[EmailSym.dot], rfl, t.map emailSym, (map_emailSym_oneOrMore t).mpr
          ⟨ht, fun c hc => hall c (List.mem_append_right _ (List.mem_append_right _ hc))⟩,
          rfl⟩, rfl⟩, rfl⟩, ?_⟩
    rw [hs]
    simp [emailSym]

theorem isJsSpace_of_isDigit (c : Char) (hc : c.isDigit = true) : isJsSpace c = false := by
  simp only [Char.isDigit, Bool.and_eq_true, decide_eq_true_eq, UInt32.le_def, Fin.le_def] at hc
  have h1 : 48 ≤ c.toNat := hc.1
  have h2 : c.toNat ≤ 57 := hc.2
  simp only [isJsSpace, Bool.or_eq_false_iff, Bool.and_eq_false_iff, decide_eq_false_iff_not]
  omega

theorem phone_checks_iff (s : String) :
    (isRequired (Val.str s) = true ∧ isValidPhone (Val.str s) = Except.ok true) ↔
      specHasTenDigits s := by
  unfold specHasTenDigits
  rw [List.countP_eq_length_filter]
  constructor
  · rintro ⟨_, h⟩
    simpa [isValidPhone] using h
  · intro h
    refine ⟨?_, by simpa [isValidPhone] using h⟩
    rw [isRequired_iff]
    have hne : s.toList.filter Char.isDigit ≠ [] := by
      intro he
      rw [he] at h
      simp at h
    obtain ⟨c, hc⟩ := List.exists_mem_of_ne_nil _ hne
    rw [List.mem_filter] at hc
    exact ⟨c, hc.1, isJsSpace_of_isDigit c hc.2⟩

/-- Outcome of `validateCustomer` when the phone is a string or missing, in terms of the
five checks of the code. -/
theorem validateCustomer_checks (customer : Obj)
    (hphone : stringOrMissing (getProp customer "phone") = true) :
    ∃ r, validateCustomer customer = Except.ok r ∧
      (r.valid = true ↔ r.errors = []) ∧
      (r.valid = true ↔
        (isRequired (getProp customer "name") = true ∧
          (isRequired (getProp customer "phone") = true ∧
            isValidPhone (getProp customer "phone") = Except.ok true) ∧
          (truthy (getProp customer "email") = false ∨
            isValidEmail (getProp customer "email") = true) ∧
          isRequired (getProp customer "purchaseDate") = true ∧
          isRequired (getProp customer "productId") = true)) := by
  unfold validateCustomer
  cases hp : getProp customer "phone" <;> simp [stringOrMissing, hp] at hphone
  case undefined =>
    by_cases h1 : isRequired (getProp customer "name") = true <;>
    by_cases h3 : truthy (getProp customer "email") = true <;>
    by_cases h3' : isValidEmail (getProp customer "email") = true <;>
    by_cases h4 : isRequired (getProp customer "purchaseDate") = true <;>
    by_cases h5 : isRequired (getProp customer "productId") = true <;>
    simp [h1, h3, h3', h4, h5, show isRequired Val.undefined = false from rfl]
  case null =>
    by_cases h1 : isRequired (getProp customer "name") = true <;>
    by_cases h3 : truthy (getProp customer "email") = true <;>
    by_cases h3' : isValidEmail (getProp customer "email") = true <;>
    by_cases h4 : isRequired (getProp customer "purchaseDate") = true <;>
    by_cases h5 : isRequired (getProp customer "productId") = true <;>
    simp [h1, h3, h3', h4, h5, show isRequired Val.null = false from rfl]
  case str s =>
    by_cases h1 : isRequired (getProp customer "name") = true <;>
    by_cases h2 : isRequired (Val.str s) = true <;>
    by_cases h2' : (List.filter Char.isDigit s.data).length = 10 <;>
    by_cases h3 : truthy (getProp customer "email") = true <;>
    by_cases h3' : isValidEmail (getProp customer "email") = true <;>
    by_cases h4 : isRequired (getProp customer "purchaseDate") = true <;>
    by_cases h5 : isRequired (getProp customer "productId") = true <;>
    simp [h1, h2, h2', h3, h3', h4, h5, isValidPhone]

theorem isValidEmail_true_iff (v : Val) :
    isValidEmail v = true ↔ ∃ s, v = Val.str s ∧ specEmailForm s := by
  cases v
  case str s =>
    constructor
    · intro h
      exact ⟨s, rfl, (isValidEmail_iff s).mp h⟩
    · rintro ⟨s', hs', hf⟩
      cases hs'
      exact (isValidEmail_iff s).mpr hf
  all_goals simp [isValidEmail]

theorem phone_ok_iff (v : Val) (hv : stringOrMissing v = true) :
    (isRequired v = true ∧ isValidPhone v = Except.ok true) ↔
      ∃ s, v = Val.str s ∧ specHasTenDigits s := by
  cases v <;> simp [stringOrMissing] at hv
  case undefined => simp [isRequired]
  case null => simp [isRequired]
  case str s => simpa using phone_checks_iff s

/-- C11 (as stated, refuted): on an input whose phone has three digits, which `validateCustomer`
rejects, `createCustomer` fails with the `ReferenceError` on `Timestamp`, not with
a validation error; `validateCustomer` is never called, and with `Timestamp`
in scope the same input is persisted with its three-digit phone. -/
theorem createCustomer_skips_validation :
    validateCustomer shortPhoneInput =
      Except.ok { valid := false, errors := ["Valid 10-digit phone number is required"] } ∧
    createCustomer sampleHost emptyStore shortPhoneInput =
      (Except.error (JSError.referenceError "Timestamp"), emptyStore) ∧
    (createCustomerIn scopeWithTimestamp sampleHost emptyStore shortPhoneInput).1 =
      Except.ok
        [("id", Val.str "c9"), ("name", Val.str "Asif"), ("phone", Val.str "123"),
         ("email", Val.str ""), ("purchaseDate", Val.timestamp (civilTime 0 2024 1 20)),
         ("warrantyEndDate", Val.timestamp (civilTime 0 2024 2 4)),
         ("productId", Val.str "p1"), ("productDetails", Val.obj []), ("notes", Val.str ""),
         ("status", Val.str "Active"), ("createdAt", Val.serverTimestamp)] ∧
    (getDoc (createCustomerIn scopeWithTimestamp sampleHost emptyStore shortPhoneInput).2
      "c9").map (fun data => getProp data "phone") = some (Val.str "123") := by
  refine ⟨by decide, rfl, rfl, rfl⟩

/-- C11 (amended): for every customer input whose phone is a string or missing, if a required
field (name, phone, purchaseDate, productId) is missing or blank, or the phone
does not contain exactly 10 digits, `validateCustomer` returns `valid = false`
with a non-empty list of errors. -/
theorem validateCustomer_rejects (customer : Obj)
    (hphone : stringOrMissing (getProp customer "phone") = true)
    (hbad : ¬ specPresent (getProp customer "name") ∨
      ¬ specPresent (getProp customer "phone") ∨
      ¬ specPresent (getProp customer "purchaseDate") ∨
      ¬ specPresent (getProp customer "productId") ∨
      ∃ s, getProp customer "phone" = Val.str s ∧ ¬ specHasTenDigits s) :
    ∃ r, validateCustomer customer = Except.ok r ∧ r.valid = false ∧ r.errors ≠ [] := by
  obtain ⟨r, hr, herr, hvalid⟩ := validateCustomer_checks customer hphone
  have hnot : ¬ r.valid = true := by
    rw [hvalid]
    rintro ⟨h1, h2, _, h4, h5⟩
    rw [isRequired_iff] at h1 h4 h5
    have h2' := (phone_ok_iff _ hphone).mp h2
    have h2r := (isRequired_iff _).mp h2.1
    rcases hbad with hb | hb | hb | hb | ⟨s, hs, hb⟩
    · exact hb h1
    · exact hb h2r
    · exact hb h4
    · exact hb h5
    · obtain ⟨s', hs', hten⟩ := h2'
      rw [hs] at hs'
      cases hs'
      exact hb hten
  refine ⟨r, hr, by simpa using hnot, fun he => hnot (herr.mpr he)⟩

/-- Witness of C11 (amended): the input with the three-digit phone. -/
theorem validateCustomer_rejects_witness :
    ∃ r, validateCustomer shortPhoneInput = Except.ok r ∧ r.valid = false ∧ r.errors ≠ [] :=
  validateCustomer_rejects shortPhoneInput rfl
    (Or.inr (Or.inr (Or.inr (Or.inr ⟨"123", rfl, by unfold specHasTenDigits; decide⟩))))

/-- C12 (as stated, refuted): the phone `98765-43210` is not a string of exactly 10 digits (it
has 11 characters, one of them a dash), yet `validateCustomer` returns
`valid = true` for it, with no error; and for a phone given as the number
9876543210 it does not return at all but throws a `TypeError`. -/
theorem validateCustomer_accepts_dashed_phone :
    validateCustomer dashedPhoneInput = Except.ok { valid := true, errors := [] } ∧
    getProp dashedPhoneInput "phone" = Val.str "98765-43210" ∧
    ¬ specTenDigitString "98765-43210" ∧
    validateCustomer (setProp dashedPhoneInput "phone" (Val.num 9876543210)) =
      Except.error (JSError.typeError "phone.replace is not a function") := by
  refine ⟨by decide, rfl, fun h => absurd h.1 (by decide), rfl⟩

/-- C12 (amended): for every customer object whose phone is a string or missing,
`validateCustomer` returns, and `valid` is true exactly when name is present and
non-blank, phone is a string that contains exactly 10 digit characters, email
is falsy or a string of the form `local@domain.tld` without white space,
purchaseDate is present and productId is present; `valid` is true exactly when
the errors list is empty. -/
theorem validateCustomer_valid_iff (customer : Obj)
    (hphone : stringOrMissing (getProp customer "phone") = true) :
    ∃ r, validateCustomer customer = Except.ok r ∧
      (r.valid = true ↔
        (specPresent (getProp customer "name") ∧
          (∃ s, getProp customer "phone" = Val.str s ∧ specHasTenDigits s) ∧
          (truthy (getProp customer "email") = false ∨
            ∃ s, getProp customer "email" = Val.str s ∧ specEmailForm s) ∧
          specPresent (getProp customer "purchaseDate") ∧
          specPresent (getProp customer "productId"))) ∧
      (r.valid = true ↔ r.errors = []) := by
  obtain ⟨r, hr, herr, hvalid⟩ := validateCustomer_checks customer hphone
  refine ⟨r, hr, ?_, herr⟩
  rw [hvalid]
  have hph := phone_ok_iff _ hphone
  constructor
  · rintro ⟨h1, h2, h3, h4, h5⟩
    exact ⟨(isRequired_iff _).mp h1, hph.mp h2, h3.imp id (isValidEmail_true_iff _).mp,
      (isRequired_iff _).mp h4, (isRequired_iff _).mp h5⟩
  · rintro ⟨h1, h2, h3, h4, h5⟩
    exact ⟨(isRequired_iff _).mpr h1, hph.mpr h2, h3.imp id (isValidEmail_true_iff _).mpr,
      (isRequired_iff _).mpr h4, (isRequired_iff _).mpr h5⟩

/-- Witness of C12 (amended): the input with the dashed phone, which holds 10 digits. -/
theorem validateCustomer_valid_iff_witness :
    stringOrMissing (getProp dashedPhoneInput "phone") = true ∧
    ∃ r, validateCustomer dashedPhoneInput = Except.ok r ∧
      (r.valid = true ↔
        (specPresent (getProp dashedPhoneInput "name") ∧
          (∃ s, getProp dashedPhoneInput "phone" = Val.str s ∧ specHasTenDigits s) ∧
          (truthy (getProp dashedPhoneInput "email") = false ∨
            ∃ s, getProp dashedPhoneInput "email" = Val.str s ∧ specEmailForm s) ∧
          specPresent (getProp dashedPhoneInput "purchaseDate") ∧
          specPresent (getProp dashedPhoneInput "productId"))) ∧
      (r.valid = true ↔ r.errors = []) :=
  ⟨rfl, validateCustomer_valid_iff dashedPhoneInput rfl⟩

/-! ## Customer statuses -/

theorem getProp_encodeObj (st : Int) (u enc : Obj) (k : String)
    (he : encodeObj st u = Except.ok enc) (hk : hasProp u k = true) :
    encodeVal st (getProp u k) = Except.ok (getProp enc k) := by
  induction u generalizing enc with
  | nil => simp [hasProp] at hk
  | cons e rest ih =>
    obtain ⟨k1, v1⟩ := e
    simp only [encodeObj] at he
    cases hv : encodeVal st v1 with
    | error err => simp [hv] at he
    | ok v1' =>
      cases hr : encodeObj st rest with
      | error err => simp [hv, hr] at he
      | ok rest' =>
        simp [hv, hr] at he
        subst he
        have hh := hasProp_encodeObj st rest rest' k hr
        by_cases hrest : hasProp rest k = true
        · simp [getProp, hrest, hh, ih rest' hr hrest]
        · simp only [Bool.not_eq_true] at hrest
          have h1 : k1 = k := by simpa [hasProp, hrest] using hk
          simp [getProp, hrest, hh, h1, hv]

theorem validStatus_encodeVal (st : Int) (v v' : Val) (hv : validStatus v = true)
    (he : encodeVal st v = Except.ok v') : v' = v := by
  cases v <;> simp [validStatus, statusRank] at hv
  simpa [encodeVal] using he.symm

theorem updateFields_docs_of_empty (c : Collection) (id : String) (updates : Obj)
    (hc : c.docs = []) : (updateFields c id updates).2.docs = [] := by
  unfold updateFields
  cases encodeObj c.serverTime updates with
  | error e => exact hc
  | ok enc => simp [hc]

theorem afterCall_of_empty (h : Host) (c : Collection) (call : CustomerCall)
    (hc : c.docs = []) (hn : call.wholeNames = true) :
    ∃ c', afterCall h c call = some c' ∧ c'.docs = [] := by
  cases call with
  | create customerData =>
    refine ⟨_, rfl, ?_⟩
    simp only [createCustomer, createCustomerIn, timestampFromDate_moduleScope]
    exact hc
  | update customerId updates =>
    by_cases hp : truthy (getProp updates "purchaseDate") = true
    · refine ⟨c, ?_, hc⟩
      simp [afterCall, updateCustomer, updateCustomerIn, hp, timestampFromDate_moduleScope]
    · simp only [Bool.not_eq_true] at hp
      obtain ⟨r, hr, _⟩ := updateCustomer_of_wholeNames h c customerId updates hn hp
      refine ⟨(updateFields c customerId updates).2, ?_, ?_⟩
      · simp only [afterCall, hr, Option.map_some']
      · exact updateFields_docs_of_empty c customerId updates hc
  | refreshStatus customerId =>
    refine ⟨_, rfl, ?_⟩
    have hg : getCustomer c customerId = Except.error (JSError.error "Customer not found") := by
      simp [getCustomer, getDoc, hc]
    simp only [updateCustomerStatus, hg]
    exact hc

/-- C13: starting from an empty store, after any sequence of `createCustomer`,
`updateCustomer` and `updateCustomerStatus` calls (made at any times, with any
arguments, the field names of the patches having no dot) no stored customer has
a status other than the four values of `CUSTOMER_STATUS`: none of the calls adds
a customer, so the store stays empty. -/
theorem statuses_from_empty_store (c : Collection) (calls : List (Host × CustomerCall))
    (hc : c.docs = []) (hn : ∀ p ∈ calls, p.2.wholeNames = true) :
    ∃ c', afterCalls c calls = some c' ∧ c'.docs = [] ∧
      ∀ d ∈ c'.docs, validStatus (getProp d.2 "status") = true := by
  induction calls generalizing c with
  | nil => exact ⟨c, rfl, hc, by simp [hc]⟩
  | cons p rest ih =>
    obtain ⟨h, call⟩ := p
    obtain ⟨c1, h1, hc1⟩ := afterCall_of_empty h c call hc (hn (h, call) (List.mem_cons_self _ _))
    obtain ⟨c', h2, hc', hv⟩ := ih c1 hc1 (fun q hq => hn q (List.mem_cons_of_mem _ hq))
    exact ⟨c', by simp only [afterCalls, h1, h2], hc', hv⟩

/-- Witness of C13: a `createCustomer` with a valid input, an `updateCustomer` that sets the
status 'Refunded' and an `updateCustomerStatus`, on the empty store: the first
fails on the unbound `Timestamp`, the other two find no customer. -/
theorem statuses_from_empty_store_witness :
    emptyStore.docs = [] ∧ (∀ p ∈ threeCalls, p.2.wholeNames = true) ∧
    afterCalls emptyStore threeCalls =
      some { docs := [], serverTime := civilTime 0 2024 3 1,
             writes := [WriteOp.update "c9" [("status", Val.str "Refunded")]] } ∧
    ∃ c', afterCalls emptyStore threeCalls = some c' ∧ c'.docs = [] ∧
      ∀ d ∈ c'.docs, validStatus (getProp d.2 "status") = true :=
  ⟨rfl, by decide, by rfl, statuses_from_empty_store emptyStore threeCalls rfl (by decide)⟩

/-! ## Creating and moderating reviews -/

theorem lookup_append_fresh (docs : List (String × Obj)) (id : String) (data : Obj)
    (hfresh : docs.lookup id = none) : (docs ++ [(id, data)]).lookup id = some data := by
  induction docs with
  | nil => simp [List.lookup]
  | cons d rest ih =>
    obtain ⟨k, v⟩ := d
    by_cases hk : id = k
    · subst hk
      simp [List.lookup] at hfresh
    · have hb : (id == k) = false := by simpa using hk
      simp only [List.cons_append, List.lookup, hb] at hfresh ⊢
      exact ih hfresh

theorem encodeVal_of_plain (st : Int) (v : Val) (hv : plain v = true) :
    encodeVal st v = Except.ok v := by
  cases v <;> simp [plain] at hv <;> rfl

theorem jsOr_stringOrMissing_title (v : Val) (hv : stringOrMissing v = true) :
    jsOr v (Val.str "") = specTitle v := by
  cases v <;> simp [stringOrMissing] at hv <;> simp [jsOr, truthy, specTitle]
  case str s =>
    intro hs
    rw [hs]

theorem jsOr_stringOrMissing_source (v : Val) (hv : stringOrMissing v = true) :
    jsOr v (Val.str "Manual") = specSource v := by
  cases v <;> simp [stringOrMissing] at hv <;> simp [jsOr, truthy, specSource]

theorem plain_specTitle (v : Val) : plain (specTitle v) = true := by
  cases v <;> rfl

theorem plain_specSource (v : Val) : plain (specSource v) = true := by
  cases v <;> simp [specSource, plain]
  case str s => by_cases hs : s = "" <;> simp [hs]

/-- Outcome of `createReview` on an input whose required fields can be stored and whose
optional fields are strings or missing, when the store picks a fresh id. -/
theorem createReview_eval (h : Host) (c : Collection) (reviewData : Obj)
    (hname : plain (getProp reviewData "customerName") = true)
    (hrating : plain (getProp reviewData "rating") = true)
    (hcomment : plain (getProp reviewData "comment") = true)
    (htitle : stringOrMissing (getProp reviewData "title") = true)
    (hsource : stringOrMissing (getProp reviewData "source") = true) :
    createReview h c reviewData =
      (Except.ok
        [("id", Val.str h.newId),
         ("customerName", getProp reviewData "customerName"),
         ("rating", getProp reviewData "rating"),
         ("title", specTitle (getProp reviewData "title")),
         ("comment", getProp reviewData "comment"),
         ("status", Val.str "Pending"),
         ("source", specSource (getProp reviewData "source")),
         ("createdAt", Val.serverTimestamp)],
       { docs := c.docs ++
           [(h.newId,
             [("customerName", getProp reviewData "customerName"),
              ("rating", getProp reviewData "rating"),
              ("title", specTitle (getProp reviewData "title")),
              ("comment", getProp reviewData "comment"),
              ("status", Val.str "Pending"),
              ("source", specSource (getProp reviewData "source")),
              ("createdAt", Val.timestamp c.serverTime)])]
         serverTime := c.serverTime
         writes := c.writes ++
           [WriteOp.add
             [("customerName", getProp reviewData "customerName"),
              ("rating", getProp reviewData "rating"),
              ("title", specTitle (getProp reviewData "title")),
              ("comment", getProp reviewData "comment"),
              ("status", Val.str "Pending"),
              ("source", specSource (getProp reviewData "source")),
              ("createdAt", Val.serverTimestamp)]] }) := by
  simp only [createReview, addDoc, encodeObj, jsOr_stringOrMissing_title _ htitle,
    jsOr_stringOrMissing_source _ hsource, encodeVal_of_plain _ _ hname,
    encodeVal_of_plain _ _ hrating, encodeVal_of_plain _ _ hcomment,
    encodeVal_of_plain _ _ (plain_specTitle _), encodeVal_of_plain _ _ (plain_specSource _)]
  simp [encodeVal, spread, setProp, hasProp]

/-- C14: for every review input whose customerName, rating and comment can be stored and
whose title and source are strings or missing, `createReview` succeeds; the
record it returns and the record it persists under the new id have status
'Pending' whatever status the input carried, the input's source when that is a
non-empty string and 'Manual' otherwise, the input's title or `''`, and the
input's customerName, rating and comment. -/
theorem createReview_record (h : Host) (c : Collection) (reviewData : Obj)
    (hfresh : getDoc c h.newId = none)
    (hname : plain (getProp reviewData "customerName") = true)
    (hrating : plain (getProp reviewData "rating") = true)
    (hcomment : plain (getProp reviewData "comment") = true)
    (htitle : stringOrMissing (getProp reviewData "title") = true)
    (hsource : stringOrMissing (getProp reviewData "source") = true) :
    ∃ returned stored,
      (createReview h c reviewData).1 = Except.ok returned ∧
      getDoc (createReview h c reviewData).2 h.newId = some stored ∧
      getProp returned "id" = Val.str h.newId ∧
      (∀ r, r = returned ∨ r = stored →
        getProp r "status" = Val.str "Pending" ∧
        getProp r "source" = specSource (getProp reviewData "source") ∧
        getProp r "title" = specTitle (getProp reviewData "title") ∧
        getProp r "customerName" = getProp reviewData "customerName" ∧
        getProp r "rating" = getProp reviewData "rating" ∧
        getProp r "comment" = getProp reviewData "comment") := by
  rw [createReview_eval h c reviewData hname hrating hcomment htitle hsource]
  refine ⟨_, _, rfl, lookup_append_fresh c.docs h.newId _ hfresh, ?_, ?_⟩
  · simp [getProp, hasProp]
  · rintro r (rfl | rfl) <;> simp [getProp, hasProp]

/-- Witness of C14: an input that carries status 'Approved' and source 'Google', stored in
the collection of the five sample reviews. -/
theorem createReview_record_witness :
    ∃ returned stored,
      (createReview sampleHost fiveReviews importedReviewInput).1 = Except.ok returned ∧
      getDoc (createReview sampleHost fiveReviews importedReviewInput).2 sampleHost.newId =
        some stored ∧
      getProp returned "id" = Val.str sampleHost.newId ∧
      (∀ r, r = returned ∨ r = stored →
        getProp r "status" = Val.str "Pending" ∧
        getProp r "source" = specSource (getProp importedReviewInput "source") ∧
        getProp r "title" = specTitle (getProp importedReviewInput "title") ∧
        getProp r "customerName" = getProp importedReviewInput "customerName" ∧
        getProp r "rating" = getProp importedReviewInput "rating" ∧
        getProp r "comment" = getProp importedReviewInput "comment") :=
  createReview_record sampleHost fiveReviews importedReviewInput rfl rfl rfl rfl rfl rfl

/-! ## Validating reviews -/

theorem isValidRating_num (coerce : Val → Option ℚ) (x : ℚ) :
    isValidRating coerce (Val.num x) = true ↔ specRatingInRange x := by
  simp only [isValidRating, isInRange, toNumber, numberIsInteger, Bool.and_eq_true,
    decide_eq_true_eq, specRatingInRange]
  constructor
  · rintro ⟨⟨h1, h5⟩, hd⟩
    have hx : (x.num : ℚ) = x := (Rat.den_eq_one_iff x).mp hd
    refine ⟨x.num, hx.symm, ?_, ?_⟩
    · rw [← hx] at h1
      exact_mod_cast h1
    · rw [← hx] at h5
      exact_mod_cast h5
  · rintro ⟨n, rfl, h1, h5⟩
    refine ⟨⟨by exact_mod_cast h1, by exact_mod_cast h5⟩, Rat.den_intCast n⟩

theorem specRatingInRange_six : ¬ specRatingInRange 6 := by
  rintro ⟨n, hn, _, h5⟩
  have : (6 : ℤ) = n := by exact_mod_cast hn
  omega

theorem specRatingInRange_zero : ¬ specRatingInRange 0 := by
  rintro ⟨n, hn, h1, _⟩
  have : (0 : ℤ) = n := by exact_mod_cast hn
  omega

theorem specRatingInRange_half : ¬ specRatingInRange (9 / 2) := by
  rintro ⟨n, hn, _, _⟩
  have h2 : (9 : ℚ) = 2 * n := by linarith
  have : (9 : ℤ) = 2 * n := by exact_mod_cast h2
  omega

theorem specRatingInRange_five : specRatingInRange 5 :=
  ⟨5, by norm_num, by norm_num, by norm_num⟩

/-- Outcome of `validateReview` in terms of the checks of the code. -/
theorem validateReview_checks (coerce : Val → Option ℚ) (review : Obj) :
    ((validateReview coerce review).valid = true ↔ (validateReview coerce review).errors = []) ∧
    ((validateReview coerce review).valid = true ↔
      (isRequired (getProp review "customerName") = true ∧
        isRequired (getProp review "rating") = true ∧
        isValidRating coerce (getProp review "rating") = true ∧
        isRequired (getProp review "comment") = true)) ∧
    ("Rating must be between 1 and 5" ∈ (validateReview coerce review).errors ↔
      (isRequired (getProp review "rating") = true ∧
        isValidRating coerce (getProp review "rating") = false)) ∧
    ("Comment is required" ∈ (validateReview coerce review).errors ↔
      isRequired (getProp review "comment") = false) := by
  unfold validateReview
  by_cases h1 : isRequired (getProp review "customerName") = true <;>
  by_cases h2 : isRequired (getProp review "rating") = true <;>
  by_cases h3 : isValidRating coerce (getProp review "rating") = true <;>
  by_cases h4 : isRequired (getProp review "comment") = true <;>
  simp [h1, h2, h3, h4]

/-- C15 (as stated, refuted): `createReview` runs no validation: the input with rating 6 and
the input with an empty comment are both persisted, as 'Pending' reviews. -/
theorem createReview_persists_invalid :
    createReview sampleHost emptyStore ratingSixInput =
      (Except.ok
        [("id", Val.str "c9"), ("customerName", Val.str "A"), ("rating", Val.num 6),
         ("title", Val.str ""), ("comment", Val.str "x"), ("status", Val.str "Pending"),
         ("source", Val.str "Manual"), ("createdAt", Val.serverTimestamp)],
       { docs :=
           [("c9",
             [("customerName", Val.str "A"), ("rating", Val.num 6), ("title", Val.str ""),
              ("comment", Val.str "x"), ("status", Val.str "Pending"),
              ("source", Val.str "Manual"),
              ("createdAt", Val.timestamp (civilTime 0 2024 3 1))])]
         serverTime := civilTime 0 2024 3 1
         writes :=
           [WriteOp.add
             [("customerName", Val.str "A"), ("rating", Val.num 6), ("title", Val.str ""),
              ("comment", Val.str "x"), ("status", Val.str "Pending"),
              ("source", Val.str "Manual"), ("createdAt", Val.serverTimestamp)]] }) ∧
    (getDoc (createReview sampleHost emptyStore emptyCommentInput).2 "c9").map
      (fun data => (getProp data "comment", getProp data "status")) =
      some (Val.str "", Val.str "Pending") := by
  refine ⟨rfl, rfl⟩

/-- C15 (amended): `validateReview`, which `createReview` does not call, returns `valid = false`
with a non-empty list of errors for every input whose customerName is missing
or blank, whose comment is missing or blank, whose rating is missing, or
whose rating is a number that is not an integer in 1..5; in particular it
reports the rating of `{rating: 6, comment: 'x', customerName: 'A'}` and the
comment of `{rating: 5, comment: '', customerName: 'A'}`. -/
theorem validateReview_rejects (coerce : Val → Option ℚ) :
    (∀ review : Obj,
      (¬ specPresent (getProp review "customerName") ∨
        ¬ specPresent (getProp review "comment") ∨
        ¬ specPresent (getProp review "rating") ∨
        ∃ x, getProp review "rating" = Val.num x ∧ ¬ specRatingInRange x) →
      (validateReview coerce review).valid = false ∧
        (validateReview coerce review).errors ≠ []) ∧
    validateReview coerce ratingSixInput =
      { valid := false, errors := ["Rating must be between 1 and 5"] } ∧
    validateReview coerce emptyCommentInput =
      { valid := false, errors := ["Comment is required"] } := by
  refine ⟨?_, ?_, ?_⟩
  · intro review hbad
    obtain ⟨herr, hvalid, _, _⟩ := validateReview_checks coerce review
    have hnot : ¬ (validateReview coerce review).valid = true := by
      rw [hvalid]
      rintro ⟨h1, h2, h3, h4⟩
      rw [isRequired_iff] at h1 h2 h4
      rcases hbad with hb | hb | hb | ⟨x, hx, hb⟩
      · exact hb h1
      · exact hb h4
      · exact hb h2
      · rw [hx, isValidRating_num] at h3
        exact hb h3
    exact ⟨by simpa using hnot, fun he => hnot (herr.mpr he)⟩
  · have h6 : isValidRating coerce (Val.num 6) = false := by
      rw [← Bool.not_eq_true, isValidRating_num]
      exact specRatingInRange_six
    have hr : getProp ratingSixInput "rating" = Val.num 6 := rfl
    have hn : isRequired (getProp ratingSixInput "customerName") = true := by decide
    have hc : isRequired (getProp ratingSixInput "comment") = true := by decide
    simp [validateReview, hr, hn, hc, h6, show isRequired (Val.num 6) = true from rfl]
  · have h5 : isValidRating coerce (Val.num 5) = true := by
      rw [isValidRating_num]
      exact specRatingInRange_five
    have hr : getProp emptyCommentInput "rating" = Val.num 5 := rfl
    have hn : isRequired (getProp emptyCommentInput "customerName") = true := by decide
    have hc : isRequired (getProp emptyCommentInput "comment") = false := by decide
    simp [validateReview, hr, hn, hc, h5, show isRequired (Val.num 5) = true from rfl]

/-- C16: for every review object whose rating is a number, `validateReview` returns
`valid = true` exactly when customerName is present and non-blank, the rating is
an integer with 1 <= rating <= 5, and comment is present and non-blank; it
reports 'Rating must be between 1 and 5' for every rating that is not such an
integer, so for 6, 0 and 4.5, and 'Comment is required' for a comment that is
empty or made of white space only. -/
theorem validateReview_numeric (coerce : Val → Option ℚ) (review : Obj) (x : ℚ)
    (hr : getProp review "rating" = Val.num x) :
    ((validateReview coerce review).valid = true ↔
      (specPresent (getProp review "customerName") ∧ specRatingInRange x ∧
        specPresent (getProp review "comment"))) ∧
    (¬ specRatingInRange x →
      "Rating must be between 1 and 5" ∈ (validateReview coerce review).errors) ∧
    (x = 6 ∨ x = 0 ∨ x = 9 / 2 →
      "Rating must be between 1 and 5" ∈ (validateReview coerce review).errors) ∧
    (∀ s : String, getProp review "comment" = Val.str s →
      (∀ c ∈ s.toList, isJsSpace c = true) →
      "Comment is required" ∈ (validateReview coerce review).errors) := by
  obtain ⟨_, hvalid, hrate, hcomm⟩ := validateReview_checks coerce review
  have hreq : isRequired (getProp review "rating") = true := by rw [hr]; rfl
  have hrange : ¬ specRatingInRange x →
      "Rating must be between 1 and 5" ∈ (validateReview coerce review).errors := by
    intro hx
    rw [hrate]
    refine ⟨hreq, ?_⟩
    rw [← Bool.not_eq_true, hr, isValidRating_num]
    exact hx
  refine ⟨?_, hrange, ?_, ?_⟩
  · rw [hvalid, isRequired_iff, isRequired_iff (getProp review "comment"), hr,
      isValidRating_num]
    constructor
    · rintro ⟨h1, _, h3, h4⟩
      exact ⟨h1, h3, h4⟩
    · rintro ⟨h1, h3, h4⟩
      exact ⟨h1, rfl, h3, h4⟩
  · rintro (rfl | rfl | rfl)
    · exact hrange specRatingInRange_six
    · exact hrange specRatingInRange_zero
    · exact hrange specRatingInRange_half
  · intro s hs hall
    rw [hcomm, ← Bool.not_eq_true, isRequired_iff, hs]
    rintro ⟨c, hc, hsp⟩
    rw [hall c hc] at hsp
    cases hsp

/-- Witness of C16: the input with rating 4.5 and a comment of two blanks. -/
theorem validateReview_numeric_witness :
    getProp halfStarInput "rating" = Val.num (9 / 2) ∧
    ((validateReview (fun _ => none) halfStarInput).valid = true ↔
      (specPresent (getProp halfStarInput "customerName") ∧ specRatingInRange (9 / 2) ∧
        specPresent (getProp halfStarInput "comment"))) ∧
    "Rating must be between 1 and 5" ∈ (validateReview (fun _ => none) halfStarInput).errors ∧
    "Comment is required" ∈ (validateReview (fun _ => none) halfStarInput).errors :=
  ⟨rfl,
    (validateReview_numeric (fun _ => none) halfStarInput (9 / 2) rfl).1,
    (validateReview_numeric (fun _ => none) halfStarInput (9 / 2) rfl).2.2.1
      (Or.inr (Or.inr rfl)),
    (validateReview_numeric (fun _ => none) halfStarInput (9 / 2) rfl).2.2.2 "  " rfl
      (by decide)⟩

/-! ## Moderation -/

/-- Outcome of `updateReview` for a patch whose field names have no dot. -/
theorem updateReview_of_wholeNames (c : Collection) (id : String) (updates : Obj)
    (hn : wholeNames updates = true) :
    ∃ r, updateReview c id updates = some (r, (updateFields c id updates).2) ∧
      ((updateFields c id updates).1 = Except.ok () →
        r = Except.ok (spread [("id", Val.str id)] updates)) := by
  simp only [updateReview, updateDoc_of_wholeNames c id updates hn]
  cases hu : updateFields c id updates with
  | mk r c' =>
    cases r with
    | error e => exact ⟨Except.error e, rfl, fun hr => by simp at hr⟩
    | ok u => exact ⟨_, rfl, fun _ => rfl⟩

/-- The call of `updateReview` that `approveReview` and `rejectReview` make is within the
model. -/
theorem updateReview_status_within (c : Collection) (id : String) (v : Val) :
    (updateReview c id [("status", v)]).isSome = true := by
  obtain ⟨r, hr, _⟩ := updateReview_of_wholeNames c id [("status", v)] rfl
  rw [hr]
  rfl

theorem approveReview_collection (c : Collection) (id : String) :
    (approveReview c id).2 = (updateFields c id [("status", Val.str "Approved")]).2 := by
  obtain ⟨r, hr, _⟩ := updateReview_of_wholeNames c id [("status", Val.str "Approved")] rfl
  simp only [approveReview, hr]

theorem rejectReview_collection (c : Collection) (id : String) :
    (rejectReview c id).2 = (updateFields c id [("status", Val.str "Rejected")]).2 := by
  obtain ⟨r, hr, _⟩ := updateReview_of_wholeNames c id [("status", Val.str "Rejected")] rfl
  simp only [rejectReview, hr]

theorem updateFields_status_collection (c : Collection) (id : String) (s : String) (data : Obj)
    (hdoc : getDoc c id = some data) :
    (updateFields c id [("status", Val.str s)]).2 =
      { docs := c.docs.map
          (fun d => (d.1, if d.1 = id then setProp d.2 "status" (Val.str s) else d.2))
        serverTime := c.serverTime
        writes := c.writes ++ [WriteOp.update id [("status", Val.str s)]] } := by
  rw [updateFields_status c id s data hdoc]

theorem getDoc_updateFields_status (c : Collection) (id : String) (s : String) (data : Obj)
    (hdoc : getDoc c id = some data) :
    getDoc (updateFields c id [("status", Val.str s)]).2 id =
      some (setProp data "status" (Val.str s)) := by
  rw [updateFields_status_collection c id s data hdoc, getDoc_after_status, hdoc]
  simp

theorem encodeObj_of_plain (st : Int) (u : Obj) (hu : ∀ e ∈ u, plain e.2 = true) :
    encodeObj st u = Except.ok u := by
  induction u with
  | nil => rfl
  | cons e rest ih =>
    obtain ⟨k, v⟩ := e
    have hv := encodeVal_of_plain st v (hu (k, v) (List.mem_cons_self _ _))
    have hrest := ih (fun x hx => hu x (List.mem_cons_of_mem _ hx))
    simp only [encodeObj, hv, hrest]

/-- What `updateDoc` leaves of an existing document when the values of the patch are stored
as they are: the patch spread over the document. -/
theorem updateFields_of_plain (c : Collection) (id : String) (updates data : Obj)
    (hdoc : getDoc c id = some data) (hu : ∀ e ∈ updates, plain e.2 = true) :
    (updateFields c id updates).1 = Except.ok () ∧
      getDoc (updateFields c id updates).2 id = some (spread data updates) := by
  unfold getDoc at hdoc
  simp only [updateFields, encodeObj_of_plain c.serverTime updates hu, hdoc, true_and]
  simp only [getDoc]
  rw [lookup_map_docs c.docs id id (fun o => spread o updates), hdoc]
  simp

/-- C17 (as stated, refuted): `approveReview` moves a 'Rejected' review to 'Approved', and
`updateReview` with the patch `{status: 'Pending'}` moves an 'Approved' review
back to 'Pending'. -/
theorem approveReview_reopens_rejected :
    getDoc (reviewStore [(5, "Rejected")]) "r0" = some (reviewRecord 5 "Rejected" 1000) ∧
    getDoc (approveReview (reviewStore [(5, "Rejected")]) "r0").2 "r0" =
      some (reviewRecord 5 "Approved" 1000) ∧
    getDoc (reviewStore [(5, "Approved")]) "r0" = some (reviewRecord 5 "Approved" 1000) ∧
    (∃ c', updateReview (reviewStore [(5, "Approved")]) "r0" [("status", Val.str "Pending")] =
        some (Except.ok [("id", Val.str "r0"), ("status", Val.str "Pending")], c') ∧
      getDoc c' "r0" = some (reviewRecord 5 "Pending" 1000)) := by
  refine ⟨rfl, rfl, rfl, ⟨_, rfl, rfl⟩⟩

/-- C17 (amended): for every stored review, whatever its status, `approveReview` stores the
status 'Approved' and `rejectReview` stores the status 'Rejected'.  For a patch
whose field names have no dot, `updateReview` leaves the status as it is when
the patch has no status property; when the patch has one and its values are
stored as they are, `updateReview` succeeds and stores the status the patch
carries. -/
theorem moderation_overwrites_status (c : Collection) (id : String) (data updates : Obj)
    (hdoc : getDoc c id = some data) :
    getDoc (approveReview c id).2 id = some (setProp data "status" (Val.str "Approved")) ∧
    getDoc (rejectReview c id).2 id = some (setProp data "status" (Val.str "Rejected")) ∧
    (wholeNames updates = true → hasProp updates "status" = false →
      ∃ r c' data', updateReview c id updates = some (r, c') ∧
        getDoc c' id = some data' ∧
        getProp data' "status" = getProp data "status") ∧
    (wholeNames updates = true → (∀ e ∈ updates, plain e.2 = true) →
      hasProp updates "status" = true →
      ∃ c' data', updateReview c id updates =
          some (Except.ok (spread [("id", Val.str id)] updates), c') ∧
        getDoc c' id = some data' ∧
        getProp data' "status" = getProp updates "status") := by
  refine ⟨?_, ?_, ?_, ?_⟩
  · rw [approveReview_collection]
    exact getDoc_updateFields_status c id "Approved" data hdoc
  · rw [rejectReview_collection]
    exact getDoc_updateFields_status c id "Rejected" data hdoc
  · intro hn hs
    obtain ⟨data', hd', hkeep⟩ := updateFields_keeps_fields c id id updates data hdoc
    obtain ⟨r, hr, _⟩ := updateReview_of_wholeNames c id updates hn
    exact ⟨r, _, data', hr, hd', hkeep _ hs⟩
  · intro hn hp hs
    obtain ⟨hok, hd'⟩ := updateFields_of_plain c id updates data hdoc hp
    obtain ⟨r, hr, hres⟩ := updateReview_of_wholeNames c id updates hn
    rw [hres hok] at hr
    refine ⟨_, _, hr, hd', ?_⟩
    rw [getProp_spread, hs]
    simp

/-- Witness of C17 (amended): a stored 'Pending' review, a patch that edits the comment and
a patch that puts the status back to 'Pending'. -/
theorem moderation_overwrites_status_witness :
    getDoc (reviewStore [(5, "Pending")]) "r0" = some (reviewRecord 5 "Pending" 1000) ∧
    wholeNames [("comment", Val.str "Edited")] = true ∧
    getDoc (approveReview (reviewStore [(5, "Pending")]) "r0").2 "r0" =
      some (setProp (reviewRecord 5 "Pending" 1000) "status" (Val.str "Approved")) ∧
    getDoc (rejectReview (reviewStore [(5, "Pending")]) "r0").2 "r0" =
      some (setProp (reviewRecord 5 "Pending" 1000) "status" (Val.str "Rejected")) ∧
    (∃ r c' data', updateReview (reviewStore [(5, "Pending")]) "r0"
        [("comment", Val.str "Edited")] = some (r, c') ∧
      getDoc c' "r0" = some data' ∧
      getProp data' "status" = getProp (reviewRecord 5 "Pending" 1000) "status") ∧
    (∃ c' data', updateReview (reviewStore [(5, "Approved")]) "r0"
        [("status", Val.str "Pending")] =
          some (Except.ok (spread [("id", Val.str "r0")] [("status", Val.str "Pending")]), c') ∧
      getDoc c' "r0" = some data' ∧
      getProp data' "status" = getProp [("status", Val.str "Pending")] "status") :=
  ⟨rfl, by decide,
    (moderation_overwrites_status (reviewStore [(5, "Pending")]) "r0"
      (reviewRecord 5 "Pending" 1000) [("comment", Val.str "Edited")] rfl).1,
    (moderation_overwrites_status (reviewStore [(5, "Pending")]) "r0"
      (reviewRecord 5 "Pending" 1000) [("comment", Val.str "Edited")] rfl).2.1,
    (moderation_overwrites_status (reviewStore [(5, "Pending")]) "r0"
      (reviewRecord 5 "Pending" 1000) [("comment", Val.str "Edited")] rfl).2.2.1
      (by decide) (by decide),
    (moderation_overwrites_status (reviewStore [(5, "Approved")]) "r0"
      (reviewRecord 5 "Approved" 1000) [("status", Val.str "Pending")] rfl).2.2.2
      (by decide) (by decide) (by decide)⟩

theorem mapReviewDocs_of_readable (l : List (String × Obj))
    (hl : ∀ d ∈ l, readable (getProp d.2 "createdAt") = true) :
    mapReviewDocs l = Except.ok (l.map reviewView) := by
  induction l with
  | nil => rfl
  | cons d rest ih =>
    have hd := hl d (List.mem_cons_self d rest)
    have hrest := ih (fun x hx => hl x (List.mem_cons_of_mem d hx))
    simp [mapReviewDocs, reviewFromDoc, reviewView, toDateOpt_of_readable _ hd, hrest]

theorem reviewView_status (d : String × Obj) :
    getProp (reviewView d) "status" = getProp d.2 "status" := by
  unfold reviewView
  rw [getProp_setProp_other _ _ _ _ (by decide), getProp_spread]
  by_cases hs : hasProp d.2 "status" = true
  · simp [hs]
  · simp only [Bool.not_eq_true] at hs
    rw [getProp_of_hasProp_false _ _ hs]
    simp [hs, getProp, hasProp]

/-- On a collection whose `createdAt` fields are readable `getApprovedReviews` succeeds and
lists the views of the documents that have a `createdAt` field and the status
'Approved'. -/
theorem getApprovedReviews_of_readable (c : Collection)
    (hread : ∀ d ∈ c.docs, readable (getProp d.2 "createdAt") = true) :
    ∃ listed, getApprovedReviews c = Except.ok listed ∧
      ∀ r, r ∈ listed ↔ ∃ d, d ∈ c.docs ∧ getProp d.2 "status" = Val.str "Approved" ∧
        hasProp d.2 "createdAt" = true ∧ reviewView d = r := by
  unfold getApprovedReviews getReviews
  have hg : getProp [("status", Val.str "Approved")] "status" = Val.str "Approved" := by decide
  have ht : truthy (Val.str "Approved") = true := by decide
  simp only [hg, ht, if_true]
  refine ⟨_, mapReviewDocs_of_readable _ ?_, ?_⟩
  · intro d hd
    rw [mem_orderByDesc, mem_whereEq] at hd
    exact hread d hd.1.1
  · intro r
    simp only [List.mem_map, mem_orderByDesc, mem_whereEq]
    constructor
    · rintro ⟨d, ⟨⟨hd, hs⟩, hc⟩, hv⟩
      exact ⟨d, hd, hs, hc, hv⟩
    · rintro ⟨d, hd, hs, hc, hv⟩
      exact ⟨d, ⟨⟨hd, hs⟩, hc⟩, hv⟩

theorem mem_of_lookup (docs : List (String × Obj)) (id : String) (data : Obj)
    (hl : docs.lookup id = some data) : (id, data) ∈ docs := by
  induction docs with
  | nil => simp [List.lookup] at hl
  | cons d rest ih =>
    obtain ⟨k, v⟩ := d
    by_cases hk : id = k
    · subst hk
      simp [List.lookup] at hl
      subst hl
      exact List.mem_cons_self _ _
    · have hb : (id == k) = false := by simpa using hk
      simp only [List.lookup, hb] at hl
      exact List.mem_cons_of_mem _ (ih hl)

/-- What `getApprovedReviews` lists after the status of a stored review has been set. -/
theorem approved_after_status (c : Collection) (id : String) (s : String) (data : Obj)
    (hdoc : getDoc c id = some data)
    (hread : ∀ d ∈ c.docs, readable (getProp d.2 "createdAt") = true) :
    ∃ listed,
      getApprovedReviews (updateFields c id [("status", Val.str s)]).2 = Except.ok listed ∧
      (∀ r ∈ listed, getProp r "status" = Val.str "Approved") ∧
      (s = "Approved" → hasProp data "createdAt" = true →
        reviewView (id, setProp data "status" (Val.str s)) ∈ listed) := by
  have hc := updateFields_status_collection c id s data hdoc
  have hread' : ∀ d ∈ (updateFields c id [("status", Val.str s)]).2.docs,
      readable (getProp d.2 "createdAt") = true := by
    intro d hd
    rw [hc] at hd
    simp only [List.mem_map] at hd
    obtain ⟨d0, hd0, rfl⟩ := hd
    by_cases hid : d0.1 = id
    · simp only [hid, if_true]
      rw [getProp_setProp_other _ _ _ _ (by decide)]
      exact hread d0 hd0
    · simp only [hid, if_false]
      exact hread d0 hd0
  obtain ⟨listed, hl, hmem⟩ := getApprovedReviews_of_readable _ hread'
  refine ⟨listed, hl, ?_, ?_⟩
  · intro r hr
    obtain ⟨d, _, hs, _, rfl⟩ := (hmem r).mp hr
    rw [reviewView_status]
    exact hs
  · intro hs hca
    refine (hmem _).mpr ⟨(id, setProp data "status" (Val.str s)), ?_, ?_, ?_, rfl⟩
    · rw [hc]
      simp only [List.mem_map]
      exact ⟨(id, data), mem_of_lookup _ _ _ hdoc, by simp⟩
    · simp only
      rw [getProp_setProp_same, hs]
    · simp only
      rw [hasProp_setProp]
      simp [hca]

theorem readable_after_status (c : Collection) (id : String) (s : String) (data : Obj)
    (hdoc : getDoc c id = some data)
    (hread : ∀ d ∈ c.docs, readable (getProp d.2 "createdAt") = true) :
    ∀ d ∈ (updateFields c id [("status", Val.str s)]).2.docs,
      readable (getProp d.2 "createdAt") = true := by
  intro d hd
  rw [updateFields_status_collection c id s data hdoc] at hd
  simp only [List.mem_map] at hd
  obtain ⟨d0, hd0, rfl⟩ := hd
  by_cases hid : d0.1 = id
  · simp only [hid, if_true]
    rw [getProp_setProp_other _ _ _ _ (by decide)]
    exact hread d0 hd0
  · simp only [hid, if_false]
    exact hread d0 hd0

/-- C18: for a review created by `createReview` in a collection of reviews whose `createdAt`
fields are readable, `approveReview` of its id makes `getApprovedReviews` list it,
and a following `rejectReview` makes `getApprovedReviews` leave it out; both calls
change the status of the stored review and no other field, and
`getApprovedReviews` is `getReviews({status: 'Approved'})`. -/
theorem moderation_visibility (h : Host) (c : Collection) (reviewData : Obj)
    (hfresh : getDoc c h.newId = none)
    (hname : plain (getProp reviewData "customerName") = true)
    (hrating : plain (getProp reviewData "rating") = true)
    (hcomment : plain (getProp reviewData "comment") = true)
    (htitle : stringOrMissing (getProp reviewData "title") = true)
    (hsource : stringOrMissing (getProp reviewData "source") = true)
    (hread : ∀ d ∈ c.docs, readable (getProp d.2 "createdAt") = true) :
    ∃ stored approved rejected,
      getDoc (afterCreate h c reviewData) h.newId = some stored ∧
      getProp stored "status" = Val.str "Pending" ∧
      getDoc (afterApprove h c reviewData) h.newId = some approved ∧
      getProp approved "status" = Val.str "Approved" ∧
      (∀ k, k ≠ "status" → getProp approved k = getProp stored k) ∧
      (∃ listed r, getApprovedReviews (afterApprove h c reviewData) = Except.ok listed ∧
        reviewFromDoc (h.newId, approved) = Except.ok r ∧ r ∈ listed) ∧
      getDoc (afterReject h c reviewData) h.newId = some rejected ∧
      getProp rejected "status" = Val.str "Rejected" ∧
      (∀ k, k ≠ "status" → getProp rejected k = getProp stored k) ∧
      (∃ listed r, getApprovedReviews (afterReject h c reviewData) = Except.ok listed ∧
        reviewFromDoc (h.newId, rejected) = Except.ok r ∧ r ∉ listed) ∧
      (∀ c' : Collection,
        getApprovedReviews c' = getReviews c' [("status", Val.str "Approved")]) := by
  have hev := createReview_eval h c reviewData hname hrating hcomment htitle hsource
  have hdoc1 : getDoc (afterCreate h c reviewData) h.newId = some
      [("customerName", getProp reviewData "customerName"),
       ("rating", getProp reviewData "rating"),
       ("title", specTitle (getProp reviewData "title")),
       ("comment", getProp reviewData "comment"),
       ("status", Val.str "Pending"),
       ("source", specSource (getProp reviewData "source")),
       ("createdAt", Val.timestamp c.serverTime)] := by
    unfold afterCreate
    rw [hev]
    exact lookup_append_fresh c.docs h.newId _ hfresh
  have hread1 : ∀ d ∈ (afterCreate h c reviewData).docs,
      readable (getProp d.2 "createdAt") = true := by
    intro d hd
    unfold afterCreate at hd
    rw [hev] at hd
    rcases List.mem_append.mp hd with hd | hd
    · exact hread d hd
    · rw [List.mem_singleton] at hd
      subst hd
      simp [getProp, hasProp, readable]
  generalize hst : ([("customerName", getProp reviewData "customerName"),
       ("rating", getProp reviewData "rating"),
       ("title", specTitle (getProp reviewData "title")),
       ("comment", getProp reviewData "comment"),
       ("status", Val.str "Pending"),
       ("source", specSource (getProp reviewData "source")),
       ("createdAt", Val.timestamp c.serverTime)] : Obj) = stored at hdoc1
  have hpending : getProp stored "status" = Val.str "Pending" := by
    rw [← hst]; simp [getProp, hasProp]
  have hcreated : hasProp stored "createdAt" = true := by
    rw [← hst]; simp [hasProp]
  have hcreatedv : readable (getProp stored "createdAt") = true :=
    hread1 _ (mem_of_lookup _ _ _ hdoc1)
  have hA : afterApprove h c reviewData =
      (updateFields (afterCreate h c reviewData) h.newId [("status", Val.str "Approved")]).2 :=
    approveReview_collection _ _
  have hR : afterReject h c reviewData =
      (updateFields (afterApprove h c reviewData) h.newId [("status", Val.str "Rejected")]).2 :=
    rejectReview_collection _ _
  have hdoc2 : getDoc (afterApprove h c reviewData) h.newId =
      some (setProp stored "status" (Val.str "Approved")) := by
    rw [hA]
    exact getDoc_updateFields_status _ _ "Approved" stored hdoc1
  have hread2 : ∀ d ∈ (afterApprove h c reviewData).docs,
      readable (getProp d.2 "createdAt") = true := by
    rw [hA]
    exact readable_after_status _ _ "Approved" stored hdoc1 hread1
  have hdoc3 : getDoc (afterReject h c reviewData) h.newId =
      some (setProp (setProp stored "status" (Val.str "Approved")) "status"
        (Val.str "Rejected")) := by
    rw [hR]
    exact getDoc_updateFields_status _ _ "Rejected" _ hdoc2
  obtain ⟨listed2, hl2, _, hin2⟩ :=
    approved_after_status (afterCreate h c reviewData) h.newId "Approved" stored hdoc1 hread1
  rw [← hA] at hl2
  obtain ⟨listed3, hl3, hall3, _⟩ :=
    approved_after_status (afterApprove h c reviewData) h.newId "Rejected" _ hdoc2 hread2
  rw [← hR] at hl3
  have hview : ∀ data : Obj, readable (getProp data "createdAt") = true →
      reviewFromDoc (h.newId, data) = Except.ok (reviewView (h.newId, data)) := by
    intro data hd
    simp [reviewFromDoc, reviewView, toDateOpt_of_readable _ hd]
  refine ⟨stored, _, _, hdoc1, hpending, hdoc2, getProp_setProp_same _ _ _,
    fun k hk => getProp_setProp_other _ _ _ _ hk,
    ⟨listed2, _, hl2, hview _ ?_, hin2 rfl hcreated⟩,
    hdoc3, getProp_setProp_same _ _ _, ?_,
    ⟨listed3, _, hl3, hview _ ?_, ?_⟩, fun _ => rfl⟩
  · rw [getProp_setProp_other _ _ _ _ (by decide)]
    exact hcreatedv
  · intro k hk
    rw [getProp_setProp_other _ _ _ _ hk, getProp_setProp_other _ _ _ _ hk]
  · rw [getProp_setProp_other _ _ _ _ (by decide), getProp_setProp_other _ _ _ _ (by decide)]
    exact hcreatedv
  · intro hmem
    have := hall3 _ hmem
    rw [reviewView_status] at this
    simp only at this
    rw [getProp_setProp_same] at this
    exact absurd this (by decide)

/-- Witness of C18: a review with status and source of its own, added to the five sample
reviews. -/
theorem moderation_visibility_witness :
    ∃ stored approved rejected,
      getDoc (afterCreate sampleHost fiveReviews importedReviewInput) sampleHost.newId =
        some stored ∧
      getProp stored "status" = Val.str "Pending" ∧
      getDoc (afterApprove sampleHost fiveReviews importedReviewInput) sampleHost.newId =
        some approved ∧
      getProp approved "status" = Val.str "Approved" ∧
      (∀ k, k ≠ "status" → getProp approved k = getProp stored k) ∧
      (∃ listed r,
        getApprovedReviews (afterApprove sampleHost fiveReviews importedReviewInput) =
          Except.ok listed ∧
        reviewFromDoc (sampleHost.newId, approved) = Except.ok r ∧ r ∈ listed) ∧
      getDoc (afterReject sampleHost fiveReviews importedReviewInput) sampleHost.newId =
        some rejected ∧
      getProp rejected "status" = Val.str "Rejected" ∧
      (∀ k, k ≠ "status" → getProp rejected k = getProp stored k) ∧
      (∃ listed r,
        getApprovedReviews (afterReject sampleHost fiveReviews importedReviewInput) =
          Except.ok listed ∧
        reviewFromDoc (sampleHost.newId, rejected) = Except.ok r ∧ r ∉ listed) ∧
      (∀ c' : Collection,
        getApprovedReviews c' = getReviews c' [("status", Val.str "Approved")]) :=
  moderation_visibility sampleHost fiveReviews importedReviewInput rfl rfl rfl rfl rfl rfl
    (by decide)

/-! ## Review statistics -/

theorem toString_rating_inj (m n : ℤ) (hm1 : 1 ≤ m) (hm5 : m ≤ 5) (hn1 : 1 ≤ n) (hn5 : n ≤ 5)
    (hne : m ≠ n) : (toString m : String) ≠ toString n := by
  interval_cases m <;> interval_cases n <;> first | exact absurd rfl hne | decide

theorem ratingKey_int (n : ℤ) : ratingKey (Val.num (n : ℚ)) = some (toString n) := by
  simp [ratingKey]

/-- The `forEach` loop on reviews whose ratings are integers from 1 to 5: the total grows by
the sum of the ratings, no property is added to the distribution, and the
counter of each rating grows by the number of reviews with that rating. -/
theorem statsLoop_int (reviews : List Obj) (ns : List ℤ)
    (hr : reviews.map (fun r => getProp r "rating") = ns.map (fun n : ℤ => Val.num (n : ℚ)))
    (hrange : ∀ n ∈ ns, 1 ≤ n ∧ n ≤ 5) (t : ℚ) (dist : Obj) (counts : ℤ → ℚ)
    (hkeys : ∀ n : ℤ, 1 ≤ n → n ≤ 5 → hasProp dist (toString n) = true)
    (hdist : ∀ n : ℤ, 1 ≤ n → n ≤ 5 → getProp dist (toString n) = Val.num (counts n)) :
    ∃ dist', statsLoop reviews (Val.num t, dist) = some (Val.num (t + (ns.sum : ℤ)), dist') ∧
      (∀ k, hasProp dist' k = hasProp dist k) ∧
      (∀ n : ℤ, 1 ≤ n → n ≤ 5 →
        getProp dist' (toString n) = Val.num (counts n + (ns.count n : ℕ))) := by
  induction reviews generalizing ns t dist counts with
  | nil =>
    cases ns with
    | nil => exact ⟨dist, by simp [statsLoop], fun _ => rfl, by simpa using hdist⟩
    | cons n ns' => simp at hr
  | cons r rest ih =>
    cases ns with
    | nil => simp at hr
    | cons n ns' =>
      simp only [List.map_cons, List.cons.injEq] at hr
      have hr1 : getProp r "rating" = Val.num (n : ℚ) := hr.1
      have hr2 := hr.2
      have hn := hrange n (List.mem_cons_self n ns')
      have hstep : statsStep (Val.num t, dist) r =
          some (Val.num (t + n), setProp dist (toString n) (Val.num (counts n + 1))) := by
        simp [statsStep, hr1, addNumbers, ratingKey_int, hdist n hn.1 hn.2, incremented]
      obtain ⟨dist', hloop, hk', hd'⟩ := ih ns' hr2
        (fun m hm => hrange m (List.mem_cons_of_mem n hm)) (t + n)
        (setProp dist (toString n) (Val.num (counts n + 1)))
        (fun m => if m = n then counts n + 1 else counts m)
        (by
          intro m hm1 hm5
          rw [hasProp_setProp, hkeys m hm1 hm5]
          simp)
        (by
          intro m hm1 hm5
          by_cases hmn : m = n
          · subst hmn
            simp [getProp_setProp_same]
          · rw [getProp_setProp_other _ _ _ _
              (toString_rating_inj m n hm1 hm5 hn.1 hn.2 hmn), hdist m hm1 hm5]
            simp [hmn])
      refine ⟨dist', ?_, ?_, ?_⟩
      · simp only [statsLoop, hstep, hloop, List.sum_cons]
        congr 2
        push_cast
        ring_nf
      · intro k
        rw [hk' k, hasProp_setProp]
        by_cases hk : toString n = k
        · rw [← hk, hkeys n hn.1 hn.2]
          simp
        · simp [hk]
      · intro m hm1 hm5
        rw [hd' m hm1 hm5, List.count_cons]
        by_cases hmn : m = n
        · subst hmn
          simp
          ring_nf
        · have hnm : ¬ n = m := fun e => hmn e.symm
          simp [hmn, hnm]

theorem emptyDistribution_keys (k : String) :
    hasProp emptyDistribution k = true ↔ k ∈ ["1", "2", "3", "4", "5"] := by
  simp only [emptyDistribution, hasProp, Bool.or_eq_true, decide_eq_true_eq, Bool.or_false,
    List.mem_cons, List.mem_singleton, List.not_mem_nil, or_false]
  constructor <;> rintro (h | h | h | h | h) <;> simp [h]

theorem emptyDistribution_rating (n : ℤ) (h1 : 1 ≤ n) (h5 : n ≤ 5) :
    hasProp emptyDistribution (toString n) = true ∧
      getProp emptyDistribution (toString n) = Val.num 0 := by
  interval_cases n <;> exact ⟨by decide, by decide⟩

/-- Outcome of `getReviewStats` when the approved reviews have integer ratings from 1 to 5. -/
theorem getReviewStats_int (c : Collection) (reviews : List Obj) (ns : List ℤ)
    (hlist : getApprovedReviews c = Except.ok reviews)
    (hr : reviews.map (fun r => getProp r "rating") = ns.map (fun n : ℤ => Val.num (n : ℚ)))
    (hrange : ∀ n ∈ ns, 1 ≤ n ∧ n ≤ 5) :
    ∃ dist, getReviewStats c = Except.ok (some
        { total := reviews.length
          averageRating :=
            if reviews.length = 0 then Val.num 0
            else averageOf (Val.num ((ns.sum : ℤ) : ℚ)) reviews.length
          ratingDistribution := dist }) ∧
      (∀ k, hasProp dist k = true ↔ k ∈ ["1", "2", "3", "4", "5"]) ∧
      (∀ n : ℤ, 1 ≤ n → n ≤ 5 → getProp dist (toString n) = Val.num ((ns.count n : ℕ) : ℚ)) := by
  obtain ⟨dist', hloop, hk', hd'⟩ := statsLoop_int reviews ns hr hrange 0 emptyDistribution
    (fun _ => 0) (fun n h1 h5 => (emptyDistribution_rating n h1 h5).1)
    (fun n h1 h5 => (emptyDistribution_rating n h1 h5).2)
  by_cases hlen : reviews.length = 0
  · have hnil : reviews = [] := List.length_eq_zero.mp hlen
    subst hnil
    have hns : ns = [] := by
      cases ns with
      | nil => rfl
      | cons n ns' => simp at hr
    subst hns
    refine ⟨emptyDistribution, ?_, emptyDistribution_keys, ?_⟩
    · simp [getReviewStats, hlist, reviewStats]
    · intro n h1 h5
      simpa using (emptyDistribution_rating n h1 h5).2
  · refine ⟨dist', ?_, ?_, ?_⟩
    · simp only [getReviewStats, hlist, reviewStats, hlen, if_false, hloop, zero_add]
    · intro k
      rw [hk' k]
      exact emptyDistribution_keys k
    · intro n h1 h5
      simpa using hd' n h1 h5

theorem toString_ratings :
    (toString (1 : ℤ) : String) = "1" ∧ (toString (2 : ℤ) : String) = "2" ∧
    (toString (3 : ℤ) : String) = "3" ∧ (toString (4 : ℤ) : String) = "4" ∧
    (toString (5 : ℤ) : String) = "5" := by
  decide

/-- C19: when the approved reviews have integer ratings from 1 to 5, `getReviewStats` returns
`total` equal to their number and a `ratingDistribution` whose properties are
exactly `1`, `2`, `3`, `4`, `5`, each holding the number of reviews with that
rating, zero when there is none. -/
theorem getReviewStats_distribution (c : Collection) (reviews : List Obj) (ns : List ℤ)
    (hlist : getApprovedReviews c = Except.ok reviews)
    (hr : reviews.map (fun r => getProp r "rating") = ns.map (fun n : ℤ => Val.num (n : ℚ)))
    (hrange : ∀ n ∈ ns, 1 ≤ n ∧ n ≤ 5) :
    ∃ stats, getReviewStats c = Except.ok (some stats) ∧
      stats.total = reviews.length ∧
      (∀ k, hasProp stats.ratingDistribution k = true ↔ k ∈ ["1", "2", "3", "4", "5"]) ∧
      getProp stats.ratingDistribution "1" = Val.num ((ns.count 1 : ℕ) : ℚ) ∧
      getProp stats.ratingDistribution "2" = Val.num ((ns.count 2 : ℕ) : ℚ) ∧
      getProp stats.ratingDistribution "3" = Val.num ((ns.count 3 : ℕ) : ℚ) ∧
      getProp stats.ratingDistribution "4" = Val.num ((ns.count 4 : ℕ) : ℚ) ∧
      getProp stats.ratingDistribution "5" = Val.num ((ns.count 5 : ℕ) : ℚ) := by
  obtain ⟨dist, hs, hk, hd⟩ := getReviewStats_int c reviews ns hlist hr hrange
  obtain ⟨t1, t2, t3, t4, t5⟩ := toString_ratings
  refine ⟨_, hs, rfl, hk, ?_, ?_, ?_, ?_, ?_⟩
  · have := hd 1 (by norm_num) (by norm_num)
    rwa [t1] at this
  · have := hd 2 (by norm_num) (by norm_num)
    rwa [t2] at this
  · have := hd 3 (by norm_num) (by norm_num)
    rwa [t3] at this
  · have := hd 4 (by norm_num) (by norm_num)
    rwa [t4] at this
  · have := hd 5 (by norm_num) (by norm_num)
    rwa [t5] at this

theorem fiveReviews_ratings :
    (listedOrNil (getApprovedReviews fiveReviews)).map (fun r => getProp r "rating") =
      [5, 5, 4, 3, 5].map (fun n : ℤ => Val.num (n : ℚ)) := by
  have h : (listedOrNil (getApprovedReviews fiveReviews)).map (fun r => getProp r "rating") =
      [Val.num 5, Val.num 5, Val.num 4, Val.num 3, Val.num 5] := rfl
  rw [h]
  simp

/-- Witness of C19: the approved reviews rated 5, 5, 4, 3, 5 give `total = 5` and the
distribution `{1: 0, 2: 0, 3: 1, 4: 1, 5: 3}`. -/
theorem getReviewStats_distribution_witness :
    ∃ stats, getReviewStats fiveReviews = Except.ok (some stats) ∧
      stats.total = 5 ∧
      (∀ k, hasProp stats.ratingDistribution k = true ↔ k ∈ ["1", "2", "3", "4", "5"]) ∧
      getProp stats.ratingDistribution "1" = Val.num 0 ∧
      getProp stats.ratingDistribution "2" = Val.num 0 ∧
      getProp stats.ratingDistribution "3" = Val.num 1 ∧
      getProp stats.ratingDistribution "4" = Val.num 1 ∧
      getProp stats.ratingDistribution "5" = Val.num 3 := by
  obtain ⟨stats, hs, ht, hk, h1, h2, h3, h4, h5⟩ :=
    getReviewStats_distribution fiveReviews (listedOrNil (getApprovedReviews fiveReviews))
      [5, 5, 4, 3, 5] rfl fiveReviews_ratings (by decide)
  refine ⟨stats, hs, ht, hk, ?_, ?_, ?_, ?_, ?_⟩
  · simpa using h1
  · simpa using h2
  · simpa using h3
  · simpa using h4
  · simpa using h5
/-! ## Binary rounding -/

theorem roundHalfEven_error (y : ℚ) : |(roundHalfEven y : ℚ) - y| ≤ 1 / 2 := by
  have h1 : (⌊y⌋ : ℚ) ≤ y := Int.floor_le y
  have h2 : y < ⌊y⌋ + 1 := Int.lt_floor_add_one y
  unfold roundHalfEven
  split_ifs with ha hb hc
  · rw [abs_le]; constructor <;> linarith
  · rw [abs_le]; push_cast; constructor <;> linarith
  · rw [abs_le]; constructor <;> linarith
  · rw [abs_le]; push_cast; constructor <;> linarith

theorem roundHalfEven_of_frac_lt (y : ℚ) (z : ℤ) (h1 : (z : ℚ) ≤ y) (h2 : y - z < 1 / 2) :
    roundHalfEven y = z := by
  have hf : ⌊y⌋ = z := by
    rw [Int.floor_eq_iff]
    constructor
    · exact h1
    · linarith
  unfold roundHalfEven
  rw [hf, if_pos h2]

theorem int_log_two_eq (x : ℚ) (e : ℤ) (hx : 0 < x) (h1 : (2 : ℚ) ^ e ≤ x)
    (h2 : x < (2 : ℚ) ^ (e + 1)) : Int.log 2 x = e := by
  have ha : e ≤ Int.log 2 x := by
    have := (Int.zpow_le_iff_le_log (b := 2) (by norm_num) (x := e) hx).mp (by exact_mod_cast h1)
    exact this
  have hb : Int.log 2 x < e + 1 := by
    have := (Int.lt_zpow_iff_log_lt (b := 2) (by norm_num) (x := e + 1) hx).mp
      (by exact_mod_cast h2)
    exact this
  omega

theorem roundDouble_of_exponent (x : ℚ) (e : ℤ) (hx : 0 < x) (h1 : (2 : ℚ) ^ e ≤ x)
    (h2 : x < (2 : ℚ) ^ (e + 1)) :
    roundDouble x = roundHalfEven (x * 2 ^ (52 - e)) * 2 ^ (e - 52) := by
  unfold roundDouble
  rw [if_neg (ne_of_gt hx), abs_of_pos hx, int_log_two_eq x e hx h1 h2]

theorem roundDouble_error (x : ℚ) (h1 : 1 ≤ x) (h8 : x < 8) :
    |roundDouble x - x| ≤ 1 / 2 ^ 51 := by
  have hx : 0 < x := by linarith
  have hcase : ∀ e : ℤ, 0 ≤ e → e ≤ 2 → (2 : ℚ) ^ e ≤ x → x < (2 : ℚ) ^ (e + 1) →
      |roundDouble x - x| ≤ 1 / 2 ^ 51 := by
    intro e he0 he2 hlo hhi
    rw [roundDouble_of_exponent x e hx hlo hhi]
    have herr := roundHalfEven_error (x * 2 ^ (52 - e))
    have hpos : (0 : ℚ) < 2 ^ (e - 52) := by positivity
    have hmul : x = x * 2 ^ (52 - e) * 2 ^ (e - 52) := by
      rw [mul_assoc, ← zpow_add₀ (by norm_num : (2 : ℚ) ≠ 0)]
      simp
    have hrewrite : (roundHalfEven (x * 2 ^ (52 - e)) : ℚ) * 2 ^ (e - 52) - x =
        ((roundHalfEven (x * 2 ^ (52 - e)) : ℚ) - x * 2 ^ (52 - e)) * 2 ^ (e - 52) := by
      rw [sub_mul, ← hmul]
    rw [hrewrite, abs_mul, abs_of_pos hpos]
    have hle : (2 : ℚ) ^ (e - 52) ≤ 2 ^ (-50 : ℤ) :=
      zpow_le_zpow_right₀ (by norm_num) (by omega)
    calc |(roundHalfEven (x * 2 ^ (52 - e)) : ℚ) - x * 2 ^ (52 - e)| * 2 ^ (e - 52)
        ≤ 1 / 2 * 2 ^ (-50 : ℤ) := by
          apply mul_le_mul herr hle (le_of_lt hpos) (by norm_num)
      _ = 1 / 2 ^ 51 := by norm_num
  by_cases h2 : x < 2
  · exact hcase 0 (by norm_num) (by norm_num) (by simpa using h1) (by simpa using h2)
  · by_cases h4 : x < 4
    · exact hcase 1 (by norm_num) (by norm_num) (by push_neg at h2; simpa using h2)
        (by norm_num; linarith)
    · exact hcase 2 (by norm_num) (by norm_num) (by push_neg at h4; norm_num; linarith)
        (by norm_num; linarith)

theorem roundDouble_87_20 : roundDouble (87 / 20) = 2448832297382707 / 562949953421312 := by
  rw [roundDouble_of_exponent (87 / 20) 2 (by norm_num) (by norm_num) (by norm_num)]
  rw [roundHalfEven_of_frac_lt _ 4897664594765414 (by norm_num) (by norm_num)]
  norm_num

theorem toFixed1_of_bounds (x : ℚ) (m : ℕ) (hx : 0 ≤ x) (h1 : (m : ℚ) ≤ x * 10 + 1 / 2)
    (h2 : x * 10 + 1 / 2 < m + 1) : toFixed1 x = oneDecimal m := by
  unfold toFixed1
  rw [if_neg (not_lt.mpr hx), abs_of_nonneg hx]
  have hf : ⌊x * 10 + 1 / 2⌋ = (m : ℤ) := by
    rw [Int.floor_eq_iff]
    exact ⟨by exact_mod_cast h1, by exact_mod_cast h2⟩
  rw [hf]
  simp

theorem toFixed1_87_20 : toFixed1 (roundDouble (87 / 20)) = "4.3" := by
  rw [roundDouble_87_20, toFixed1_of_bounds _ 43 (by norm_num) (by norm_num) (by norm_num)]
  decide

theorem ratings_sum_bounds (ns : List ℤ) (hrange : ∀ n ∈ ns, 1 ≤ n ∧ n ≤ 5) :
    (ns.length : ℤ) ≤ ns.sum ∧ ns.sum ≤ 5 * (ns.length : ℤ) := by
  induction ns with
  | nil => simp
  | cons n rest ih =>
    have hn := hrange n (List.mem_cons_self n rest)
    have hrest := ih (fun m hm => hrange m (List.mem_cons_of_mem n hm))
    simp only [List.length_cons, List.sum_cons]
    push_cast
    constructor <;> linarith [hrest.1, hrest.2, hn.1, hn.2]

/-- The rendering by `toFixed(1)` of the binary64 quotient `S / N`, for `N` ratings from 1 to 5
of sum `S`: the number of tenths it shows is within one half of ten times the
exact quotient. -/
theorem average_nearest_tenth (S : ℤ) (N : ℕ) (hN : 0 < N) (hN32 : N < 2 ^ 32)
    (hlo : (N : ℤ) ≤ S) (hhi : S ≤ 5 * (N : ℤ)) :
    ∃ m : ℕ, toFixed1 (roundDouble ((S : ℚ) / (N : ℚ))) = oneDecimal m ∧
      10 * ((S : ℚ) / (N : ℚ)) - 1 / 2 ≤ (m : ℚ) ∧ (m : ℚ) ≤ 10 * ((S : ℚ) / (N : ℚ)) + 1 / 2 := by
  have hNq : (0 : ℚ) < N := by exact_mod_cast hN
  have hN32q : (N : ℚ) < 2 ^ 32 := by exact_mod_cast hN32
  have hloq : (N : ℚ) ≤ S := by exact_mod_cast hlo
  have hhiq : (S : ℚ) ≤ 5 * N := by exact_mod_cast hhi
  set μ : ℚ := (S : ℚ) / (N : ℚ) with hμdef
  have hμN : μ * N = S := by
    rw [hμdef]
    field_simp
  have hμ1 : 1 ≤ μ := by
    rw [hμdef, le_div_iff₀ hNq]
    linarith
  have hμ5 : μ ≤ 5 := by
    rw [hμdef, div_le_iff₀ hNq]
    linarith
  have herr := roundDouble_error μ hμ1 (by linarith)
  rw [abs_le] at herr
  set d : ℚ := roundDouble μ with hddef
  have hd0 : 0 ≤ d := by
    have : (0 : ℚ) < 1 / 2 ^ 51 := by positivity
    have h51 : (1 : ℚ) / 2 ^ 51 ≤ 1 := by norm_num
    linarith [herr.1]
  have hsmall : (20 : ℚ) * N * (1 / 2 ^ 51) < 1 := by
    have : (20 : ℚ) * N * (1 / 2 ^ 51) < 20 * 2 ^ 32 * (1 / 2 ^ 51) := by
      apply mul_lt_mul_of_pos_right _ (by positivity)
      linarith
    have h2 : (20 : ℚ) * 2 ^ 32 * (1 / 2 ^ 51) ≤ 1 := by norm_num
    linarith
  have hfl1 : ((⌊d * 10 + 1 / 2⌋ : ℤ) : ℚ) ≤ d * 10 + 1 / 2 := Int.floor_le _
  have hfl2 : d * 10 + 1 / 2 < (⌊d * 10 + 1 / 2⌋ : ℤ) + 1 := Int.lt_floor_add_one _
  have hmz0 : 0 ≤ ⌊d * 10 + 1 / 2⌋ := by
    rw [Int.floor_nonneg]
    linarith
  set mz : ℤ := ⌊d * 10 + 1 / 2⌋ with hmzdef
  have hcast : ((mz.toNat : ℕ) : ℚ) = (mz : ℚ) := by
    have : ((mz.toNat : ℕ) : ℤ) = mz := Int.toNat_of_nonneg hmz0
    exact_mod_cast this
  refine ⟨mz.toNat, ?_, ?_, ?_⟩
  · exact toFixed1_of_bounds d mz.toNat hd0 (by rw [hcast]; exact hfl1)
      (by rw [hcast]; exact hfl2)
  · rw [hcast]
    by_contra hcon
    push_neg at hcon
    have h1 : (2 * (N : ℚ)) * mz < (2 * N) * (10 * μ - 1 / 2) :=
      mul_lt_mul_of_pos_left hcon (by positivity)
    have h2 : (2 * (N : ℚ)) * (10 * μ - 1 / 2) = 20 * S - N := by
      rw [← hμN]
      ring
    rw [h2] at h1
    have h3 : 2 * (N : ℤ) * mz < 20 * S - N := by exact_mod_cast h1
    have h4 : 2 * (N : ℤ) * mz + 1 ≤ 20 * S - N := h3
    have h5 : (2 * (N : ℚ)) * mz + 1 ≤ 20 * S - N := by exact_mod_cast h4
    have h6 : (2 * (N : ℚ)) * (d * 10 + 1 / 2) < (2 * N) * ((mz : ℚ) + 1) :=
      mul_lt_mul_of_pos_left hfl2 (by positivity)
    have h7 : (2 * (N : ℚ)) * (10 * (μ - 1 / 2 ^ 51)) ≤ (2 * N) * (10 * d) := by
      apply mul_le_mul_of_nonneg_left _ (by positivity)
      linarith [herr.1]
    nlinarith [h5, h6, h7, hsmall, hμN]
  · rw [hcast]
    by_contra hcon
    push_neg at hcon
    have h1 : (2 * (N : ℚ)) * (10 * μ + 1 / 2) < (2 * N) * mz :=
      mul_lt_mul_of_pos_left hcon (by positivity)
    have h2 : (2 * (N : ℚ)) * (10 * μ + 1 / 2) = 20 * S + N := by
      rw [← hμN]
      ring
    rw [h2] at h1
    have h3 : 20 * S + N < 2 * (N : ℤ) * mz := by exact_mod_cast h1
    have h4 : 20 * S + N + 1 ≤ 2 * (N : ℤ) * mz := h3
    have h5 : 20 * (S : ℚ) + N + 1 ≤ (2 * (N : ℚ)) * mz := by exact_mod_cast h4
    have h6 : (2 * (N : ℚ)) * mz ≤ (2 * N) * (d * 10 + 1 / 2) :=
      mul_le_mul_of_nonneg_left hfl1 (by positivity)
    have h7 : (2 * (N : ℚ)) * (10 * d) ≤ (2 * N) * (10 * (μ + 1 / 2 ^ 51)) := by
      apply mul_le_mul_of_nonneg_left _ (by positivity)
      linarith [herr.2]
    nlinarith [h5, h6, h7, hsmall, hμN]

theorem oneDecimal_44 : oneDecimal 44 = "4.4" := by decide

/-- C20 (as stated, refuted): for twenty approved reviews, seven rated 5 and thirteen rated 4,
the mean is 87/20 = 4.35, which rounded to one decimal place with the tie
going up is 4.4; `getReviewStats` returns "4.3", because the binary64 quotient
87/20 lies just below 4.35. -/
theorem getReviewStats_tie_rounds_down :
    averageRatingOf (getReviewStats twentyReviews) = some (Val.str "4.3") ∧
    meanOf (List.replicate 7 5 ++ List.replicate 13 4) = 87 / 20 ∧
    roundHalfUpTenths (87 / 20) = 44 ∧
    oneDecimal 44 = "4.4" ∧
    roundDouble (87 / 20) < 87 / 20 := by
  have hr : (listedOrNil (getApprovedReviews twentyReviews)).map (fun r => getProp r "rating") =
      (List.replicate 7 5 ++ List.replicate 13 4).map (fun n : ℤ => Val.num (n : ℚ)) := by
    have h : (listedOrNil (getApprovedReviews twentyReviews)).map
        (fun r => getProp r "rating") =
        List.replicate 7 (Val.num 5) ++ List.replicate 13 (Val.num 4) := rfl
    rw [h]
    simp
  obtain ⟨dist, hs, _, _⟩ := getReviewStats_int twentyReviews
    (listedOrNil (getApprovedReviews twentyReviews))
    (List.replicate 7 5 ++ List.replicate 13 4) rfl hr (by decide)
  have hlen : (listedOrNil (getApprovedReviews twentyReviews)).length = 20 := rfl
  refine ⟨?_, ?_, ?_, oneDecimal_44, ?_⟩
  · rw [hs, hlen]
    have hsum : ((List.replicate 7 (5 : ℤ) ++ List.replicate 13 4).sum : ℤ) = 87 := by decide
    simp only [averageRatingOf, averageOf, hsum]
    norm_num
    exact toFixed1_87_20
  · simp [meanOf]
  · unfold roundHalfUpTenths
    rw [Int.floor_eq_iff]
    norm_num
  · rw [roundDouble_87_20]
    norm_num

/-- C20 (amended): for every non-empty list of fewer than 2^32 approved reviews with integer
ratings from 1 to 5, the `averageRating` of `getReviewStats` is a number of tenths
rendered with one digit after the decimal point, and it is a tenth nearest to
the arithmetic mean of the ratings: it differs from the mean by at most 0.05.
When the mean is not half-way between two tenths, it is the mean rounded to
one decimal place. -/
theorem getReviewStats_average (c : Collection) (reviews : List Obj) (ns : List ℤ)
    (hlist : getApprovedReviews c = Except.ok reviews)
    (hr : reviews.map (fun r => getProp r "rating") = ns.map (fun n : ℤ => Val.num (n : ℚ)))
    (hrange : ∀ n ∈ ns, 1 ≤ n ∧ n ≤ 5) (hne : reviews ≠ []) (hlen : reviews.length < 2 ^ 32) :
    ∃ stats, ∃ m : ℕ, getReviewStats c = Except.ok (some stats) ∧
      stats.averageRating = Val.str (oneDecimal m) ∧
      |(m : ℚ) / 10 - meanOf ns| ≤ 1 / 20 ∧
      (((roundHalfUpTenths (meanOf ns) : ℤ) : ℚ) ≠ 10 * meanOf ns + 1 / 2 →
        (m : ℤ) = roundHalfUpTenths (meanOf ns)) := by
  obtain ⟨dist, hs, _, _⟩ := getReviewStats_int c reviews ns hlist hr hrange
  have hlens : reviews.length = ns.length := by
    have := congrArg List.length hr
    simpa using this
  have hpos : 0 < ns.length := by
    rw [← hlens]
    exact List.length_pos.mpr hne
  obtain ⟨hlo, hhi⟩ := ratings_sum_bounds ns hrange
  obtain ⟨m, hm, hm1, hm2⟩ := average_nearest_tenth ns.sum ns.length hpos (hlens ▸ hlen) hlo hhi
  have hlen0 : ¬ ns.length = 0 := by omega
  refine ⟨_, m, hs, ?_, ?_, ?_⟩
  · simp only [hlens, hlen0, if_false, averageOf]
    rw [hm]
  · unfold meanOf
    rw [abs_le]
    constructor <;> linarith
  · intro htie
    unfold meanOf roundHalfUpTenths at htie ⊢
    symm
    rw [Int.floor_eq_iff]
    have hfl := Int.floor_le (10 * ((ns.sum : ℚ) / (ns.length : ℚ)) + 1 / 2)
    have hlt : ((⌊10 * ((ns.sum : ℚ) / (ns.length : ℚ)) + 1 / 2⌋ : ℤ) : ℚ) <
        10 * ((ns.sum : ℚ) / (ns.length : ℚ)) + 1 / 2 := lt_of_le_of_ne hfl htie
    rw [Int.cast_natCast]
    constructor
    · exact hm2
    · by_contra hcon
      push_neg at hcon
      have hfloor : (m : ℤ) + 1 ≤ ⌊10 * ((ns.sum : ℚ) / (ns.length : ℚ)) + 1 / 2⌋ := by
        rw [Int.le_floor]
        simp only [Int.cast_add, Int.cast_one, Int.cast_natCast]
        exact hcon
      have hq : (((m : ℤ) + 1 : ℤ) : ℚ) ≤
          ((⌊10 * ((ns.sum : ℚ) / (ns.length : ℚ)) + 1 / 2⌋ : ℤ) : ℚ) :=
        Int.cast_le.mpr hfloor
      simp only [Int.cast_add, Int.cast_one, Int.cast_natCast] at hq
      linarith

/-- Witness of C20 (amended): for the approved reviews rated 5, 5, 4, 3, 5, of mean 4.4, the
`averageRating` is "4.4". -/
theorem getReviewStats_average_witness :
    ∃ stats, getReviewStats fiveReviews = Except.ok (some stats) ∧
      stats.averageRating = Val.str "4.4" := by
  obtain ⟨stats, m, hs, ha, hm, _⟩ :=
    getReviewStats_average fiveReviews (listedOrNil (getApprovedReviews fiveReviews))
      [5, 5, 4, 3, 5] rfl fiveReviews_ratings (by decide) (by decide) (by decide)
  refine ⟨stats, hs, ?_⟩
  have hmean : meanOf [5, 5, 4, 3, 5] = 22 / 5 := by
    simp [meanOf]
  rw [hmean, abs_le] at hm
  have h1 : (43 : ℚ) < m := by linarith [hm.1]
  have h2 : (m : ℚ) < 45 := by linarith [hm.2]
  have h3 : 43 < m := by exact_mod_cast h1
  have h4 : m < 45 := by exact_mod_cast h2
  have h5 : m = 44 := by omega
  rw [ha, h5, oneDecimal_44]

/-! ## Statistics without approved reviews -/

/-- C21: when no stored review has status 'Approved' (the collection is empty, or holds only
pending and rejected reviews), `getReviewStats` succeeds and returns
`total = 0`, `averageRating = 0` and the distribution `{1: 0, 2: 0, 3: 0, 4: 0, 5: 0}`. -/
theorem getReviewStats_no_approved (c : Collection)
    (hnone : ∀ d ∈ c.docs, getProp d.2 "status" ≠ Val.str "Approved") :
    getReviewStats c = Except.ok (some
      { total := 0, averageRating := Val.num 0, ratingDistribution := emptyDistribution }) := by
  have hfilter : whereEq "status" (Val.str "Approved") c.docs = [] := by
    unfold whereEq
    rw [List.filter_eq_nil_iff]
    intro d hd
    simpa using hnone d hd
  have ht : truthy (Val.str "Approved") = true := by decide
  have hg : getProp [("status", Val.str "Approved")] "status" = Val.str "Approved" := by decide
  have hlist : getApprovedReviews c = Except.ok [] := by
    simp only [getApprovedReviews, getReviews, hg, ht, if_true, hfilter]
    rfl
  simp only [getReviewStats, hlist]
  rfl

/-- Witness of C21: a collection with two pending reviews and a rejected one, and the empty
collection. -/
theorem getReviewStats_no_approved_witness :
    (∀ d ∈ unapprovedReviews.docs, getProp d.2 "status" ≠ Val.str "Approved") ∧
    unapprovedReviews.docs.length = 3 ∧
    getReviewStats unapprovedReviews = Except.ok (some
      { total := 0, averageRating := Val.num 0, ratingDistribution := emptyDistribution }) :=
  ⟨by decide, by decide, getReviewStats_no_approved unapprovedReviews (by decide)⟩

/-! ## The two warranty cohorts -/

theorem ltDate_of_geDate (v : Val) (t : Int) (hge : geDate v t = true) : ltDate v t = false := by
  cases v with
  | date d =>
    cases d with
    | none => rfl
    | some s =>
      simp only [geDate, decide_eq_true_eq] at hge
      simp only [ltDate, decide_eq_false_iff_not, not_lt]
      exact hge
  | num x =>
    simp only [geDate, decide_eq_true_eq] at hge
    simp only [ltDate, decide_eq_false_iff_not, not_lt]
    exact hge
  | _ => rfl

/-- C28: on a collection of customer records, read at one instant `now`,
`getExpiringWarranties(daysAhead)` and `getExpiredWarranties()` both succeed
and share no customer, whatever `daysAhead` is (also when omitted); a stored
customer whose warranty end date is `now` is not among the expired ones. -/
theorem warranty_cohorts_disjoint (h : Host) (c : Collection) (daysAhead : Option Int)
    (hwf : ∀ d ∈ c.docs, customerRecord d.2 = true) :
    ∃ expiring expired,
      getExpiringWarranties h c daysAhead = Except.ok expiring ∧
      getExpiredWarranties h c = Except.ok expired ∧
      (∀ cu, cu ∈ expiring → cu ∉ expired) ∧
      (∀ cu, cu ∈ expired → getProp cu "warrantyEndDate" ≠ Val.date (some h.now)) ∧
      (∀ d ∈ c.docs, getProp d.2 "warrantyEndDate" = Val.timestamp h.now →
        customerView d ∉ expired) := by
  obtain ⟨active, hactive, _⟩ := getCustomers_of_records c [("status", Val.str "Active")] hwf
  obtain ⟨listed, hlisted, _⟩ := getCustomers_of_records c [] hwf
  have hnow : ∀ cu, cu ∈ listed.filter (expiredAt h.now) →
      getProp cu "warrantyEndDate" ≠ Val.date (some h.now) := by
    intro cu hcu heq
    rw [List.mem_filter] at hcu
    have hx := hcu.2
    simp only [expiredAt, Bool.and_eq_true] at hx
    have hlt := hx.1.1
    rw [heq] at hlt
    simp [ltDate] at hlt
  refine ⟨active.filter (expiringAt h.now (addDays (some h.now) (daysAhead.getD 3))),
    listed.filter (expiredAt h.now), ?_, ?_, ?_, hnow, ?_⟩
  · simp [getExpiringWarranties, hactive]
  · simp [getExpiredWarranties, hlisted]
  · intro cu hcu hcu'
    rw [List.mem_filter] at hcu hcu'
    have hx := hcu.2
    have hy := hcu'.2
    simp only [expiringAt, Bool.and_eq_true] at hx
    simp only [expiredAt, Bool.and_eq_true] at hy
    have hlt := ltDate_of_geDate _ _ hx.1
    rw [hlt] at hy
    exact absurd hy.1.1 (by simp)
  · intro d _ hw hmem
    apply hnow _ hmem
    rw [customerView_warrantyEndDate, hw]
    rfl

/-- Witness of C28: in the cohort collection read at 2024-03-01 with `daysAhead = 3` the
expiring customers are `c1` and `c3`, the expired ones `c7` and `c4`; `c3`,
whose warranty ends at that very instant, is expiring and not expired. -/
theorem warranty_cohorts_disjoint_witness :
    (∀ d ∈ cohortStore.docs, customerRecord d.2 = true) ∧
    getProp (recordBought "Active" 2024 2 15) "warrantyEndDate" =
      Val.timestamp sampleHost.now ∧
    getExpiringWarranties sampleHost cohortStore (some 3) =
      Except.ok [customerView ("c1", recordBought "Active" 2024 2 17),
        customerView ("c3", recordBought "Active" 2024 2 15)] ∧
    getExpiredWarranties sampleHost cohortStore =
      Except.ok [customerView ("c7", recordBought "Active" 2024 2 14),
        customerView ("c4", recordBought "Warranty Expired" 2024 2 14)] ∧
    ∃ expiring expired,
      getExpiringWarranties sampleHost cohortStore (some 3) = Except.ok expiring ∧
      getExpiredWarranties sampleHost cohortStore = Except.ok expired ∧
      (∀ cu, cu ∈ expiring → cu ∉ expired) ∧
      (∀ cu, cu ∈ expired → getProp cu "warrantyEndDate" ≠ Val.date (some sampleHost.now)) ∧
      (∀ d ∈ cohortStore.docs, getProp d.2 "warrantyEndDate" = Val.timestamp sampleHost.now →
        customerView d ∉ expired) :=
  ⟨by decide, by decide, by rfl, by rfl,
    warranty_cohorts_disjoint sampleHost cohortStore (some 3) (by decide)⟩

/-! ## Totals of the review statistics -/

theorem toDigitsCore_length_pos (f n : ℕ) (l : List Char) :
    l.length + 1 ≤ (Nat.toDigitsCore 10 (f + 1) n l).length := by
  induction f generalizing n l with
  | zero =>
    rw [Nat.toDigitsCore]
    split
    · simp
    · simp [Nat.toDigitsCore]
  | succ f ih =>
    rw [Nat.toDigitsCore]
    split
    · simp
    · have := ih (n / 10) (Nat.digitChar (n % 10) :: l)
      simp only [List.length_cons] at this
      omega

theorem length_repr_of_ten_le (k : ℕ) (hk : 10 ≤ k) : 2 ≤ (Nat.repr k).length := by
  obtain ⟨f, rfl⟩ : ∃ f, k = f + 1 := ⟨k - 1, by omega⟩
  have h1 : ¬ (f + 1) / 10 = 0 := by omega
  simp only [Nat.repr, Nat.toDigits, String.length, List.asString]
  rw [Nat.toDigitsCore]
  simp only [h1, if_false]
  have := toDigitsCore_length_pos f ((f + 1) / 10) [Nat.digitChar ((f + 1) % 10)]
  simpa using this

/-- Only the integers 1 to 5 have the decimal forms `1` to `5`. -/
theorem toString_int_eq_rating (n m : ℤ) (hm1 : 1 ≤ m) (hm5 : m ≤ 5)
    (h : (toString n : String) = toString m) : n = m := by
  have hlen : (toString m : String).length = 1 := by
    interval_cases m <;> decide
  cases n with
  | ofNat k =>
    by_cases hk : k < 10
    · interval_cases k <;> interval_cases m <;> first | rfl | (exact absurd h (by decide))
    · exfalso
      have h2 := length_repr_of_ten_le k (by omega)
      have h3 : (toString (Int.ofNat k) : String) = Nat.repr k := rfl
      rw [h] at h3
      rw [← h3, hlen] at h2
      omega
  | negSucc k =>
    exfalso
    have h3 : (toString (Int.negSucc k) : String) = "-" ++ Nat.repr (k + 1) := rfl
    rw [h] at h3
    have h4 := congrArg String.data h3
    simp only [String.data_append] at h4
    have h5 : ∃ ch, (toString m : String).data = [ch] ∧ ch ≠ '-' := by
      interval_cases m <;> exact ⟨_, rfl, by decide⟩
    obtain ⟨ch, h6, h7⟩ := h5
    rw [h6] at h4
    simp only [List.cons_append, List.nil_append, List.cons.injEq] at h4
    exact h7 h4.1

/-- The `forEach` loop on reviews whose ratings are integers, on the scale or not: the total
grows by the sum of the ratings, and the counter of each rating from 1 to 5
grows by the number of reviews with that rating. -/
theorem statsLoop_ints (reviews : List Obj) (ns : List ℤ)
    (hr : reviews.map (fun r => getProp r "rating") = ns.map (fun n : ℤ => Val.num (n : ℚ)))
    (t : ℚ) (dist : Obj) (counts : ℤ → ℚ)
    (hdist : ∀ n : ℤ, 1 ≤ n → n ≤ 5 → getProp dist (toString n) = Val.num (counts n)) :
    ∃ dist', statsLoop reviews (Val.num t, dist) = some (Val.num (t + (ns.sum : ℤ)), dist') ∧
      (∀ n : ℤ, 1 ≤ n → n ≤ 5 →
        getProp dist' (toString n) = Val.num (counts n + (ns.count n : ℕ))) := by
  induction reviews generalizing ns t dist counts with
  | nil =>
    cases ns with
    | nil => exact ⟨dist, by simp [statsLoop], by simpa using hdist⟩
    | cons n ns' => simp at hr
  | cons r rest ih =>
    cases ns with
    | nil => simp at hr
    | cons n ns' =>
      simp only [List.map_cons, List.cons.injEq] at hr
      have hr1 : getProp r "rating" = Val.num (n : ℚ) := hr.1
      have hr2 := hr.2
      have hstep : statsStep (Val.num t, dist) r =
          some (Val.num (t + n),
            setProp dist (toString n) (incremented (getProp dist (toString n)))) := by
        simp [statsStep, hr1, addNumbers, ratingKey_int]
      obtain ⟨dist', hloop, hd'⟩ := ih ns' hr2 (t + n)
        (setProp dist (toString n) (incremented (getProp dist (toString n))))
        (fun m => if m = n then counts n + 1 else counts m)
        (by
          intro m hm1 hm5
          by_cases hmn : m = n
          · subst hmn
            simp [getProp_setProp_same, hdist m hm1 hm5, incremented]
          · have hne : (toString m : String) ≠ toString n := fun e =>
              hmn (toString_int_eq_rating n m hm1 hm5 e.symm).symm
            rw [getProp_setProp_other _ _ _ _ hne, hdist m hm1 hm5]
            simp [hmn])
      refine ⟨dist', ?_, ?_⟩
      · simp only [statsLoop, hstep, hloop, List.sum_cons]
        congr 2
        push_cast
        ring_nf
      · intro m hm1 hm5
        rw [hd' m hm1 hm5, List.count_cons]
        by_cases hmn : m = n
        · subst hmn
          simp
          ring_nf
        · have hnm : ¬ n = m := fun e => hmn e.symm
          simp [hmn, hnm]

theorem count_ratings (ns : List ℤ) :
    ns.count 1 + ns.count 2 + ns.count 3 + ns.count 4 + ns.count 5 =
      (ns.filter (fun n => decide (1 ≤ n) && decide (n ≤ 5))).length := by
  induction ns with
  | nil => rfl
  | cons n rest ih =>
    simp only [List.count_cons, List.filter_cons]
    by_cases h : 1 ≤ n ∧ n ≤ 5
    · obtain ⟨h1, h5⟩ := h
      interval_cases n <;> simp <;> omega
    · have e1 : ¬ n = 1 := fun e => h (by omega)
      have e2 : ¬ n = 2 := fun e => h (by omega)
      have e3 : ¬ n = 3 := fun e => h (by omega)
      have e4 : ¬ n = 4 := fun e => h (by omega)
      have e5 : ¬ n = 5 := fun e => h (by omega)
      have hb : (decide (1 ≤ n) && decide (n ≤ 5)) = false := by
        simpa using fun h1 => lt_of_not_le (fun h5 => h ⟨h1, h5⟩)
      simp [hb, e1, e2, e3, e4, e5, ih]

/-- Outcome of `getReviewStats` when the approved reviews have integer ratings, on the scale or
not. -/
theorem getReviewStats_ints (c : Collection) (reviews : List Obj) (ns : List ℤ)
    (hlist : getApprovedReviews c = Except.ok reviews)
    (hr : reviews.map (fun r => getProp r "rating") = ns.map (fun n : ℤ => Val.num (n : ℚ))) :
    ∃ dist, getReviewStats c = Except.ok (some
        { total := reviews.length
          averageRating :=
            if reviews.length = 0 then Val.num 0
            else averageOf (Val.num ((ns.sum : ℤ) : ℚ)) reviews.length
          ratingDistribution := dist }) ∧
      (∀ n : ℤ, 1 ≤ n → n ≤ 5 → getProp dist (toString n) = Val.num ((ns.count n : ℕ) : ℚ)) := by
  obtain ⟨dist', hloop, hd'⟩ := statsLoop_ints reviews ns hr 0 emptyDistribution
    (fun _ => 0) (fun n h1 h5 => (emptyDistribution_rating n h1 h5).2)
  by_cases hlen : reviews.length = 0
  · have hnil : reviews = [] := List.length_eq_zero.mp hlen
    subst hnil
    have hns : ns = [] := by
      cases ns with
      | nil => rfl
      | cons n ns' => simp at hr
    subst hns
    refine ⟨emptyDistribution, ?_, ?_⟩
    · simp [getReviewStats, hlist, reviewStats]
    · intro n h1 h5
      simpa using (emptyDistribution_rating n h1 h5).2
  · refine ⟨dist', ?_, ?_⟩
    · simp only [getReviewStats, hlist, reviewStats, hlen, if_false, hloop, zero_add]
    · intro n h1 h5
      simpa using hd' n h1 h5

theorem countsSum_of_counts (dist : Obj) (ns : List ℤ)
    (hd : ∀ n : ℤ, 1 ≤ n → n ≤ 5 →
      getProp dist (toString n) = Val.num ((ns.count n : ℕ) : ℚ)) :
    countsSum dist =
      some (((ns.filter (fun n => decide (1 ≤ n) && decide (n ≤ 5))).length : ℕ) : ℚ) := by
  obtain ⟨t1, t2, t3, t4, t5⟩ := toString_ratings
  have h1 := hd 1 (by norm_num) (by norm_num)
  have h2 := hd 2 (by norm_num) (by norm_num)
  have h3 := hd 3 (by norm_num) (by norm_num)
  have h4 := hd 4 (by norm_num) (by norm_num)
  have h5 := hd 5 (by norm_num) (by norm_num)
  rw [t1] at h1
  rw [t2] at h2
  rw [t3] at h3
  rw [t4] at h4
  rw [t5] at h5
  simp only [countsSum, h1, h2, h3, h4, h5, ← count_ratings]
  push_cast
  rfl

/-- C29: for approved reviews with integer ratings (fewer than 2^32 of them, the bound of an
array), `getReviewStats` returns `total` equal to their number and numeric
counters `1` to `5`.  When every rating is from 1 to 5 the five counters sum to
`total` and, unless there is no review, `averageRating` is a number of tenths
from 1.0 to 5.0 shown with one decimal; when some rating is below 1 or above 5
the five counters sum to less than `total`. -/
theorem getReviewStats_totals (c : Collection) (reviews : List Obj) (ns : List ℤ)
    (hlist : getApprovedReviews c = Except.ok reviews)
    (hr : reviews.map (fun r => getProp r "rating") = ns.map (fun n : ℤ => Val.num (n : ℚ)))
    (hlen : reviews.length < 2 ^ 32) :
    ∃ stats, ∃ counted : ℕ, getReviewStats c = Except.ok (some stats) ∧
      stats.total = reviews.length ∧
      countsSum stats.ratingDistribution = some (counted : ℚ) ∧
      ((∀ n ∈ ns, 1 ≤ n ∧ n ≤ 5) → counted = stats.total ∧
        (reviews ≠ [] →
          ∃ m : ℕ, stats.averageRating = Val.str (oneDecimal m) ∧ 10 ≤ m ∧ m ≤ 50)) ∧
      ((∃ n ∈ ns, n < 1 ∨ 5 < n) → counted < stats.total) := by
  obtain ⟨dist, hs, hd⟩ := getReviewStats_ints c reviews ns hlist hr
  have hlens : reviews.length = ns.length := by
    have := congrArg List.length hr
    simpa using this
  refine ⟨_, (ns.filter (fun n => decide (1 ≤ n) && decide (n ≤ 5))).length, hs, rfl,
    countsSum_of_counts dist ns hd, ?_, ?_⟩
  · intro hrange
    have hall : ns.filter (fun n => decide (1 ≤ n) && decide (n ≤ 5)) = ns := by
      rw [List.filter_eq_self]
      intro n hn
      simp [hrange n hn]
    refine ⟨by simp only [hall, hlens], ?_⟩
    intro hne
    have hpos : 0 < ns.length := by
      rw [← hlens]
      exact List.length_pos.mpr hne
    obtain ⟨hlo, hhi⟩ := ratings_sum_bounds ns hrange
    obtain ⟨m, hm, hm1, hm2⟩ :=
      average_nearest_tenth ns.sum ns.length hpos (hlens ▸ hlen) hlo hhi
    have hlen0 : ¬ ns.length = 0 := by omega
    have hNq : (0 : ℚ) < (ns.length : ℚ) := by exact_mod_cast hpos
    have hloq : (ns.length : ℚ) ≤ (ns.sum : ℚ) := by exact_mod_cast hlo
    have hhiq : (ns.sum : ℚ) ≤ 5 * (ns.length : ℚ) := by exact_mod_cast hhi
    have hμ1 : (1 : ℚ) ≤ (ns.sum : ℚ) / (ns.length : ℚ) := by
      rw [le_div_iff₀ hNq]
      linarith
    have hμ5 : (ns.sum : ℚ) / (ns.length : ℚ) ≤ 5 := by
      rw [div_le_iff₀ hNq]
      linarith
    refine ⟨m, ?_, ?_, ?_⟩
    · simp only [hlens, hlen0, if_false, averageOf]
      rw [hm]
    · have h9 : (9 : ℚ) < (m : ℚ) := by linarith
      have : 9 < m := by exact_mod_cast h9
      omega
    · have h51 : (m : ℚ) < 51 := by linarith
      have : m < 51 := by exact_mod_cast h51
      omega
  · rintro ⟨n, hn, hout⟩
    show _ < reviews.length
    rw [hlens]
    apply List.length_filter_lt_length_iff_exists.mpr
    refine ⟨n, hn, ?_⟩
    rcases hout with h | h
    · simp [not_le.mpr h]
    · simp [not_le.mpr h]

theorem offScaleReviews_ratings :
    (listedOrNil (getApprovedReviews offScaleReviews)).map (fun r => getProp r "rating") =
      [5, 7, 4].map (fun n : ℤ => Val.num (n : ℚ)) := by
  have h : (listedOrNil (getApprovedReviews offScaleReviews)).map
      (fun r => getProp r "rating") = [Val.num 5, Val.num 7, Val.num 4] := rfl
  rw [h]
  simp

/-- Witness of C29: the approved reviews rated 5, 7 and 4 give `total = 3`, while the counters
`1` to `5` sum to less than 3. -/
theorem getReviewStats_totals_witness :
    ∃ stats, ∃ counted : ℕ, getReviewStats offScaleReviews = Except.ok (some stats) ∧
      stats.total = 3 ∧
      countsSum stats.ratingDistribution = some (counted : ℚ) ∧
      counted < stats.total := by
  obtain ⟨stats, counted, hs, ht, hc, _, hout⟩ :=
    getReviewStats_totals offScaleReviews (listedOrNil (getApprovedReviews offScaleReviews))
      [5, 7, 4] rfl offScaleReviews_ratings (by decide)
  exact ⟨stats, counted, hs, ht, hc, hout ⟨7, by decide, by decide⟩⟩

/-! ## Settings objects: reading after writing -/

theorem hasField_append {α : Type} (a b : List (String × α)) (k : String) :
    hasField (a ++ b) k = (hasField a k || hasField b k) := by
  induction a with
  | nil => simp [hasField]
  | cons e rest ih =>
    obtain ⟨k', v⟩ := e
    simp [hasField, ih, Bool.or_assoc]

theorem getField_of_hasField_false {α : Type} (o : List (String × α)) (k : String)
    (hk : hasField o k = false) : getField o k = none := by
  induction o with
  | nil => rfl
  | cons e rest ih =>
    obtain ⟨k', v⟩ := e
    simp [hasField] at hk
    simp [getField, hk.1, hk.2]

theorem getField_append {α : Type} (a b : List (String × α)) (k : String) :
    getField (a ++ b) k = if hasField b k then getField b k else getField a k := by
  induction a with
  | nil =>
    by_cases hb : hasField b k = true
    · simp [hb]
    · simp only [Bool.not_eq_true] at hb
      simp [hb, getField, getField_of_hasField_false b k hb]
  | cons e rest ih =>
    obtain ⟨k', v⟩ := e
    by_cases hb : hasField b k = true
    · simp [getField, hasField_append, hb, ih]
    · simp only [Bool.not_eq_true] at hb
      simp [getField, hasField_append, hb, ih]

theorem hasField_map_values {α : Type} (o : List (String × α)) (f : String → α → α)
    (k : String) : hasField (o.map (fun e => (e.1, f e.1 e.2))) k = hasField o k := by
  induction o with
  | nil => rfl
  | cons e rest ih =>
    obtain ⟨k1, v1⟩ := e
    simp [hasField, ih]

theorem getField_map_values {α : Type} (o : List (String × α)) (f : String → α → α)
    (k : String) :
    getField (o.map (fun e => (e.1, f e.1 e.2))) k = (getField o k).map (f k) := by
  induction o with
  | nil => rfl
  | cons e rest ih =>
    obtain ⟨k1, v1⟩ := e
    by_cases hr : hasField rest k = true
    · simp [getField, hasField_map_values, hr, ih]
    · simp only [Bool.not_eq_true] at hr
      by_cases h1 : k1 = k
      · subst h1
        simp [getField, hasField_map_values, hr]
      · simp [getField, hasField_map_values, hr, h1]

theorem hasField_setField {α : Type} (o : List (String × α)) (k k' : String) (v : α) :
    hasField (setField o k v) k' = (decide (k = k') || hasField o k') := by
  unfold setField
  by_cases hk : hasField o k = true
  · rw [if_pos hk, hasField_map_values o (fun n x => if n = k then v else x)]
    by_cases hkk : k = k'
    · subst hkk; simp [hk]
    · simp [hkk]
  · rw [if_neg hk, hasField_append]
    simp [hasField, Bool.or_comm]

theorem getField_setField_same {α : Type} (o : List (String × α)) (k : String) (v : α) :
    getField (setField o k v) k = some v := by
  unfold setField
  by_cases hk : hasField o k = true
  · rw [if_pos hk, getField_map_values o (fun n x => if n = k then v else x)]
    cases hg : getField o k with
    | none =>
      exfalso
      clear v
      induction o with
      | nil => simp [hasField] at hk
      | cons e rest ih =>
        obtain ⟨k1, v1⟩ := e
        by_cases hr : hasField rest k = true
        · simp only [getField, hr, if_true] at hg
          exact ih hr hg
        · simp only [Bool.not_eq_true] at hr
          have h1 : k1 = k := by simpa [hasField, hr] using hk
          simp [getField, hr, h1] at hg
    | some x => simp
  · rw [if_neg hk, getField_append]
    simp [hasField, getField]

theorem getField_setField_other {α : Type} (o : List (String × α)) (k k' : String) (v : α)
    (hne : k' ≠ k) : getField (setField o k v) k' = getField o k' := by
  unfold setField
  by_cases hk : hasField o k = true
  · rw [if_pos hk, getField_map_values o (fun n x => if n = k then v else x)]
    cases getField o k' <;> simp [hne]
  · rw [if_neg hk, getField_append]
    have : ¬ k = k' := fun h => hne h.symm
    simp [hasField, this]

theorem hasField_spreadFields {α : Type} (t s : List (String × α)) (k : String) :
    hasField (spreadFields t s) k = (hasField t k || hasField s k) := by
  unfold spreadFields
  induction s generalizing t with
  | nil => simp [hasField]
  | cons e rest ih =>
    obtain ⟨k1, v1⟩ := e
    simp only [List.foldl_cons, ih, hasField_setField, hasField]
    cases decide (k1 = k) <;> cases hasField t k <;> simp

theorem getField_spreadFields {α : Type} (t s : List (String × α)) (k : String) :
    getField (spreadFields t s) k = if hasField s k then getField s k else getField t k := by
  unfold spreadFields
  induction s generalizing t with
  | nil => simp [hasField]
  | cons e rest ih =>
    obtain ⟨k1, v1⟩ := e
    simp only [List.foldl_cons, ih, hasField, getField]
    by_cases hr : hasField rest k = true
    · simp [hr]
    · simp only [Bool.not_eq_true] at hr
      by_cases h1 : k1 = k
      · subst h1; simp [hr, getField_setField_same]
      · have : k ≠ k1 := fun h => h1 h.symm
        simp [hr, h1, getField_setField_other _ _ _ _ this]

theorem mem_setField {α : Type} (o : List (String × α)) (k : String) (v : α)
    (e : String × α) (he : e ∈ setField o k v) : e ∈ o ∨ e = (k, v) := by
  unfold setField at he
  by_cases hk : hasField o k = true
  · rw [if_pos hk, List.mem_map] at he
    obtain ⟨e', he', rfl⟩ := he
    by_cases h1 : e'.1 = k
    · right
      simp [h1]
    · left
      simpa [h1] using he'
  · rw [if_neg hk, List.mem_append] at he
    rcases he with h | h
    · exact Or.inl h
    · right
      simpa using h

theorem mem_spreadFields {α : Type} (t s : List (String × α)) (e : String × α)
    (he : e ∈ spreadFields t s) : e ∈ t ∨ e ∈ s := by
  unfold spreadFields at he
  induction s generalizing t with
  | nil => exact Or.inl (by simpa using he)
  | cons x rest ih =>
    simp only [List.foldl_cons] at he
    rcases ih _ he with h | h
    · rcases mem_setField t x.1 x.2 e h with h' | h'
      · exact Or.inl h'
      · right
        rw [h']
        exact List.mem_cons_self _ _
    · exact Or.inr (List.mem_cons_of_mem _ h)

theorem encodeSetting_of_storable (st : Int) (v : SettingVal)
    (hv : storable v = true ∨ v = SettingVal.val Val.serverTimestamp) :
    encodeSetting st v = Except.ok
      (if v = SettingVal.val Val.serverTimestamp then SettingVal.val (Val.timestamp st)
        else v) := by
  rcases hv with h | h
  · cases v with
    | texts items => simp [encodeSetting]
    | val x => cases x <;> simp_all [encodeSetting, encodeVal, storable, plain]
  · subst h
    simp [encodeSetting, encodeVal]

/-- Encoding of a body whose values are stored as they are, but for `serverTimestamp()`
sentinels: it succeeds and replaces each sentinel by the server time. -/
theorem encodeSettings_of_storable (st : Int) (u : Settings)
    (hu : ∀ e ∈ u, storable e.2 = true ∨ e.2 = SettingVal.val Val.serverTimestamp) :
    encodeSettings st u = Except.ok (u.map (fun e => (e.1,
      if e.2 = SettingVal.val Val.serverTimestamp then SettingVal.val (Val.timestamp st)
      else e.2))) := by
  induction u with
  | nil => rfl
  | cons e rest ih =>
    obtain ⟨k1, v1⟩ := e
    have h1 := encodeSetting_of_storable st v1 (hu (k1, v1) (List.mem_cons_self _ _))
    have h2 := ih (fun x hx => hu x (List.mem_cons_of_mem _ hx))
    simp only [encodeSettings, h1, h2, List.map_cons]

theorem mem_of_getField {α : Type} (o : List (String × α)) (k : String) (v : α)
    (h : getField o k = some v) : (k, v) ∈ o := by
  induction o with
  | nil => simp [getField] at h
  | cons e rest ih =>
    obtain ⟨k1, v1⟩ := e
    by_cases hr : hasField rest k = true
    · simp only [getField, hr, if_true] at h
      exact List.mem_cons_of_mem _ (ih h)
    · simp only [Bool.not_eq_true] at hr
      by_cases h1 : k1 = k
      · simp only [getField, hr, h1, if_true] at h
        simp only [Bool.false_eq_true, if_false, Option.some.injEq] at h
        rw [h1, h]
        exact List.mem_cons_self _ _
      · simp [getField, hr, h1] at h

/-- The body `{ ...base, ...updates, updatedAt: serverTimestamp() }` as the store encodes
it, when the values of `base` and `updates` are stored as they are. -/
theorem encode_stamped (st : Int) (base updates : Settings)
    (hb : ∀ e ∈ base, storable e.2 = true) (hu : ∀ e ∈ updates, storable e.2 = true) :
    ∃ enc, encodeSettings st (setField (spreadFields (spreadFields [] base) updates)
        "updatedAt" (SettingVal.val Val.serverTimestamp)) = Except.ok enc ∧
      (∀ k, hasField enc k =
        (decide ("updatedAt" = k) || (hasField base k || hasField updates k))) ∧
      getField enc "updatedAt" = some (SettingVal.val (Val.timestamp st)) ∧
      (∀ k, k ≠ "updatedAt" →
        getField enc k = if hasField updates k then getField updates k else getField base k) := by
  have hmerged : ∀ e ∈ spreadFields (spreadFields [] base) updates, storable e.2 = true := by
    intro e he
    rcases mem_spreadFields _ _ e he with h | h
    · rcases mem_spreadFields _ _ e h with h' | h'
      · simp at h'
      · exact hb e h'
    · exact hu e h
  have hvals : ∀ e ∈ setField (spreadFields (spreadFields [] base) updates)
      "updatedAt" (SettingVal.val Val.serverTimestamp),
      storable e.2 = true ∨ e.2 = SettingVal.val Val.serverTimestamp := by
    intro e he
    rcases mem_setField _ _ _ e he with h | h
    · exact Or.inl (hmerged e h)
    · right
      rw [h]
  refine ⟨_, encodeSettings_of_storable st _ hvals, ?_, ?_, ?_⟩
  · intro k
    rw [hasField_map_values _ (fun _ v =>
      if v = SettingVal.val Val.serverTimestamp then SettingVal.val (Val.timestamp st) else v),
      hasField_setField, hasField_spreadFields, hasField_spreadFields]
    simp [hasField]
  · rw [getField_map_values _ (fun _ v =>
      if v = SettingVal.val Val.serverTimestamp then SettingVal.val (Val.timestamp st) else v),
      getField_setField_same]
    simp
  · intro k hk
    rw [getField_map_values _ (fun _ v =>
      if v = SettingVal.val Val.serverTimestamp then SettingVal.val (Val.timestamp st) else v),
      getField_setField_other _ _ _ _ hk]
    have hkeep : ∀ v, getField (spreadFields (spreadFields [] base) updates) k = some v →
        v ≠ SettingVal.val Val.serverTimestamp := by
      intro v hv hs
      have := hmerged _ (mem_of_getField _ _ _ hv)
      rw [hs] at this
      simp [storable, plain] at this
    have hsame : (getField (spreadFields (spreadFields [] base) updates) k).map (fun v =>
        if v = SettingVal.val Val.serverTimestamp then SettingVal.val (Val.timestamp st)
        else v) = getField (spreadFields (spreadFields [] base) updates) k := by
      cases hg : getField (spreadFields (spreadFields [] base) updates) k with
      | none => rfl
      | some v => simp [hkeep v hg]
    rw [hsame, getField_spreadFields, getField_spreadFields]
    by_cases h1 : hasField updates k = true
    · simp [h1]
    · by_cases h2 : hasField base k = true
      · simp [h1, h2]
      · simp only [Bool.not_eq_true] at h2
        simp [h1, h2, getField, getField_of_hasField_false base k h2]

theorem wholeNames_stamped (updates : Settings) (hn : wholeNames updates = true) :
    wholeNames (setField (spreadFields [] updates) "updatedAt"
      (SettingVal.val Val.serverTimestamp)) = true := by
  unfold wholeNames at hn ⊢
  rw [List.all_eq_true] at hn ⊢
  intro e he
  rcases mem_setField _ _ _ e he with h | h
  · rcases mem_spreadFields _ _ e h with h' | h'
    · simp at h'
    · exact hn e h'
  · rw [h]
    decide

theorem storable_defaults : ∀ e ∈ getDefaultSettings, storable e.2 = true := by
  decide

/-! ## Reading and updating the settings -/

/-- A settings document with a field named `id` is returned with that field's value under
`id`, not with the document id `main`, contrary to the last part of C22. -/
theorem getSettings_id_overridden :
    ∃ s, getSettings relabelledSettings = (Except.ok s, relabelledSettings) ∧
      getField s "id" = some (SettingVal.val (Val.str "backup")) ∧
      getField s "id" ≠ some (SettingVal.val (Val.str SETTINGS_DOC_ID)) :=
  ⟨_, rfl, by decide, by decide⟩

/-- C22 (amended): `getSettings` always succeeds with an object and leaves the store as it was.  When the
document is missing the object is `getDefaultSettings()`, whose branding slogan,
branding address and cloudinary folder are the three literals and whose other
branding, social and cloudinary strings are empty; when the document exists the
object has the property `id` and every field of the document with the
document's value, `id` being the document id `main` unless the document has a
field of that name. -/
theorem getSettings_total (st : SettingsStore) (data : Settings) :
    (∃ s, getSettings st = (Except.ok s, st)) ∧
    getSettings { st with main := none } =
      (Except.ok getDefaultSettings, { st with main := none }) ∧
    (∃ s, getSettings { st with main := some data } =
        (Except.ok s, { st with main := some data }) ∧
      (∀ k, hasField s k = (decide (k = "id") || hasField data k)) ∧
      (∀ k, hasField data k = true → getField s k = getField data k) ∧
      (hasField data "id" = false →
        getField s "id" = some (SettingVal.val (Val.str "main")))) ∧
    textAt getDefaultSettings "branding" "slogan" = some "Premium Laptops in Kashmir" ∧
    textAt getDefaultSettings "branding" "address" =
      some "Maisuma, Near Gaw Kadal Bridge, Srinagar" ∧
    textAt getDefaultSettings "cloudinary" "folder" = some "mitc-store" ∧
    (∀ p ∈ [("branding", "logo"), ("branding", "phone"), ("branding", "email"),
        ("social", "whatsapp"), ("social", "instagram"), ("social", "facebook"),
        ("social", "youtube"), ("social", "twitter"), ("cloudinary", "cloudName"),
        ("cloudinary", "apiKey")], textAt getDefaultSettings p.1 p.2 = some "") := by
  refine ⟨?_, rfl, ?_, by decide, by decide, by decide, by decide⟩
  · unfold getSettings
    cases st.main with
    | none => exact ⟨_, rfl⟩
    | some d => exact ⟨_, rfl⟩
  · refine ⟨_, rfl, ?_, ?_, ?_⟩
    · intro k
      rw [hasField_spreadFields]
      simp [hasField, SETTINGS_DOC_ID, eq_comm]
    · intro k hk
      rw [getField_spreadFields, hk]
      simp
    · intro hid
      rw [getField_spreadFields, hid]
      simp [getField, hasField, SETTINGS_DOC_ID]

/-- Witness of C22 (amended): the saved document is returned with its three fields and the id `main`;
without a document the defaults are returned. -/
theorem getSettings_total_witness :
    getSettings savedSettings =
      (Except.ok
        [("id", SettingVal.val (Val.str "main")),
         ("branding", SettingVal.val (Val.obj [("logo", "old.png"), ("slogan", "Laptops")])),
         ("contactTemplates", SettingVal.texts ["Is {productTitle} available?"]),
         ("updatedAt", SettingVal.val (Val.timestamp 100))], savedSettings) ∧
    getSettings freshSettings = (Except.ok getDefaultSettings, freshSettings) ∧
    ∃ s, getSettings savedSettings = (Except.ok s, savedSettings) :=
  ⟨by decide, by decide, (getSettings_total savedSettings []).1⟩

/-- C23: for a patch whose values are stored as they are and whose field names have no dot,
`updateSettings` succeeds and the document it leaves is the shallow merge of the
patch over the existing document, or over the defaults when there was none:
a top-level field of the patch other than `updatedAt` holds the patch's value
whole, any other field keeps the value it had, and `updatedAt` is the server
time, whether the patch has an `updatedAt` or not. -/
theorem updateSettings_merges (st : SettingsStore) (updates : Settings)
    (hvals : ∀ e ∈ updates, storable e.2 = true) (hnames : wholeNames updates = true) :
    ∃ st' stored,
      updateSettings st updates = some (Except.ok [("success", Val.bool true)], st') ∧
      st'.main = some stored ∧
      (∀ k, k ≠ "updatedAt" → hasField updates k = true →
        getField stored k = getField updates k) ∧
      (∀ k, k ≠ "updatedAt" → hasField updates k = false →
        getField stored k = getField (st.main.getD getDefaultSettings) k) ∧
      getField stored "updatedAt" = some (SettingVal.val (Val.timestamp st.serverTime)) := by
  cases hm : st.main with
  | none =>
    obtain ⟨enc, henc, _, hstamp, hrest⟩ :=
      encode_stamped st.serverTime getDefaultSettings updates storable_defaults hvals
    refine ⟨{ main := some enc
              serverTime := st.serverTime
              writes := st.writes ++ [SettingsWrite.set
        (setField (spreadFields (spreadFields [] getDefaultSettings) updates) "updatedAt"
          (SettingVal.val Val.serverTimestamp))] }, enc, ?_, rfl, ?_, ?_, hstamp⟩
    · simp only [updateSettings, hm, setMainDoc, henc]
    · intro k hk hu
      rw [hrest k hk, hu]
      simp
    · intro k hk hu
      rw [hrest k hk, hu]
      simp
  | some old =>
    obtain ⟨enc, henc, hkeys, hstamp, hrest⟩ :=
      encode_stamped st.serverTime [] updates (by simp) hvals
    have henc' : encodeSettings st.serverTime (setField (spreadFields [] updates) "updatedAt"
        (SettingVal.val Val.serverTimestamp)) = Except.ok enc := henc
    refine ⟨{ main := some (spreadFields old enc)
              serverTime := st.serverTime
              writes := st.writes ++ [SettingsWrite.update
        (setField (spreadFields [] updates) "updatedAt"
          (SettingVal.val Val.serverTimestamp))] }, spreadFields old enc, ?_, rfl, ?_, ?_, ?_⟩
    · simp only [updateSettings, hm, updateMainDoc, wholeNames_stamped updates hnames, if_true,
        henc']
    · intro k hk hu
      rw [getField_spreadFields, hkeys k, hrest k hk, hu]
      simp
    · intro k hk hu
      have hk' : ¬ "updatedAt" = k := fun e => hk e.symm
      rw [getField_spreadFields, hkeys k, hu]
      simp [hasField, hk']
    · rw [getField_spreadFields, hkeys "updatedAt", hstamp]
      simp

/-- Witness of C23: the patch `{ branding: { logo: 'x' }, updatedAt: 'yesterday' }` on the
saved document leaves a branding that has only the logo, keeps the contact
templates and stamps the server time; on a store without the document it leaves
the defaults with that branding. -/
theorem updateSettings_merges_witness :
    (∀ e ∈ logoPatch, storable e.2 = true) ∧ wholeNames logoPatch = true ∧
    (updateSettings savedSettings logoPatch).map (fun r => r.2.main) = some (some
      [("branding", SettingVal.val (Val.obj [("logo", "x")])),
       ("contactTemplates", SettingVal.texts ["Is {productTitle} available?"]),
       ("updatedAt", SettingVal.val (Val.timestamp 7000))]) ∧
    ∃ st' stored,
      updateSettings freshSettings logoPatch =
        some (Except.ok [("success", Val.bool true)], st') ∧
      st'.main = some stored ∧
      (∀ k, k ≠ "updatedAt" → hasField logoPatch k = true →
        getField stored k = getField logoPatch k) ∧
      (∀ k, k ≠ "updatedAt" → hasField logoPatch k = false →
        getField stored k = getField (freshSettings.main.getD getDefaultSettings) k) ∧
      getField stored "updatedAt" =
        some (SettingVal.val (Val.timestamp freshSettings.serverTime)) :=
  ⟨by decide, by decide, by decide,
    updateSettings_merges freshSettings logoPatch (by decide) (by decide)⟩

/-! ## The default templates -/

/-- The default `expired` and `reviewRequest` templates do not mention `{warrantyEndDate}`,
contrary to C24. -/
theorem default_templates_without_end_date :
    (∃ t, textAt getDefaultSettings "warrantyTemplates" "expired" = some t ∧
      containsText t "{warrantyEndDate}" = false ∧
      placeholders t = ["customerName", "productTitle"]) ∧
    (∃ t, textAt getDefaultSettings "warrantyTemplates" "reviewRequest" = some t ∧
      containsText t "{warrantyEndDate}" = false ∧
      placeholders t = ["customerName", "productTitle"]) :=
  ⟨⟨_, rfl, by decide, by decide⟩, ⟨_, rfl, by decide, by decide⟩⟩

/-- C24 (amended): each of the three default warranty templates contains `{customerName}` and
`{productTitle}`; `{warrantyEndDate}` occurs in the `reminder` template only;
no template has another brace-delimited placeholder. -/
theorem default_warranty_templates :
    ∀ name ∈ ["reminder", "expired", "reviewRequest"],
      ∃ t, textAt getDefaultSettings "warrantyTemplates" name = some t ∧
        containsText t "{customerName}" = true ∧
        containsText t "{productTitle}" = true ∧
        (containsText t "{warrantyEndDate}" = true ↔ name = "reminder") ∧
        (∀ p ∈ placeholders t, p ∈ ["customerName", "productTitle", "warrantyEndDate"]) := by
  intro name hn
  simp only [List.mem_cons, List.mem_singleton, List.not_mem_nil, or_false] at hn
  rcases hn with rfl | rfl | rfl
  · exact ⟨_, rfl, by decide, by decide, by decide, by decide⟩
  · exact ⟨_, rfl, by decide, by decide, by decide, by decide⟩
  · exact ⟨_, rfl, by decide, by decide, by decide, by decide⟩

/-- Witness of C24 (amended): the `reminder` template, the one with all three placeholders. -/
theorem default_warranty_templates_witness :
    "reminder" ∈ ["reminder", "expired", "reviewRequest"] ∧
    ∃ t, textAt getDefaultSettings "warrantyTemplates" "reminder" = some t ∧
      containsText t "{customerName}" = true ∧
      containsText t "{productTitle}" = true ∧
      (containsText t "{warrantyEndDate}" = true ↔ "reminder" = "reminder") ∧
      (∀ p ∈ placeholders t, p ∈ ["customerName", "productTitle", "warrantyEndDate"]) :=
  ⟨by decide, default_warranty_templates "reminder" (by decide)⟩

/-- C25: the default settings hold exactly ten contact templates, and `{productTitle}` occurs
in each of them. -/
theorem default_contact_templates :
    getField getDefaultSettings "contactTemplates" =
      some (SettingVal.texts defaultContactTemplates) ∧
    defaultContactTemplates.length = 10 ∧
    ∀ t ∈ defaultContactTemplates, containsText t "{productTitle}" = true := by
  decide

/-! ## Truncating text -/

theorem length_trimUnits_le (s : List Nat) : (trimUnits s).length ≤ s.length := by
  unfold trimUnits
  rw [List.length_reverse]
  calc ((s.dropWhile isSpaceUnit).reverse.dropWhile isSpaceUnit).length
      ≤ (s.dropWhile isSpaceUnit).reverse.length :=
        (List.dropWhile_sublist isSpaceUnit).length_le
    _ = (s.dropWhile isSpaceUnit).length := List.length_reverse _
    _ ≤ s.length := (List.dropWhile_sublist isSpaceUnit).length_le

/-- C27: `truncateText('abcdefghij', 5)` is `abcde...`, a string of 8 code units and not of at
most 5: the ellipsis is appended after the cut to `maxLength`.  Lengths are
counted in UTF-16 code units: three characters of two code units each, cut at
4, come back as two of them and the ellipsis, 7 code units. -/
theorem truncateText_exceeds_maxLength :
    truncateText (utf16 "abcdefghij") (some 5) = utf16 "abcde..." ∧
    (utf16 "abcdefghij").length = 10 ∧
    (truncateText (utf16 "abcdefghij") (some 5)).length = 8 ∧
    (utf16 threeFaces).length = 6 ∧
    truncateText (utf16 threeFaces) (some 4) = utf16 twoFaces ++ utf16 "..." ∧
    (truncateText (utf16 threeFaces) (some 4)).length = 7 := by
  refine ⟨by decide, by decide, by decide, by decide, by decide, by decide⟩

/-- For every text and every `maxLength ≥ 0`, `truncateText` returns the text unchanged when it
has at most `maxLength` code units; otherwise it returns the first `maxLength`
code units, trimmed of white space at both ends, followed by `...`, which are
at most `maxLength + 3` code units. -/
theorem truncateText_length (text : List Nat) (maxLength : Int) (hmax : 0 ≤ maxLength) :
    ((text.length : Int) ≤ maxLength → truncateText text (some maxLength) = text) ∧
    (maxLength < (text.length : Int) →
      truncateText text (some maxLength) =
        trimUnits (text.take maxLength.toNat) ++ utf16 "..." ∧
      ((truncateText text (some maxLength)).length : Int) ≤ maxLength + 3) := by
  constructor
  · intro hle
    unfold truncateText
    by_cases he : text = []
    · simp [he]
    · simp [he, hle]
  · intro hlt
    have hne : text ≠ [] := by
      rintro rfl
      simp at hlt
      omega
    have hnot : ¬ (text.length : Int) ≤ maxLength := not_le.mpr hlt
    have hneg : ¬ maxLength < 0 := not_lt.mpr hmax
    have heq : truncateText text (some maxLength) =
        trimUnits (text.take maxLength.toNat) ++ utf16 "..." := by
      simp [truncateText, hne, hnot, sliceTo, hneg]
    refine ⟨heq, ?_⟩
    rw [heq]
    have h1 := length_trimUnits_le (text.take maxLength.toNat)
    have h2 : (text.take maxLength.toNat).length ≤ maxLength.toNat := by
      rw [List.length_take]
      exact Nat.min_le_left _ _
    have h3 : (utf16 "...").length = 3 := by decide
    rw [List.length_append, h3]
    have h4 : (maxLength.toNat : Int) = maxLength := Int.toNat_of_nonneg hmax
    omega

/-! ## Rendering templates -/

theorem renderFrom_text (context : List (String × String)) (s rest : List Char)
    (hs : s.contains '{' = false) :
    renderFrom context none (s ++ rest) = s ++ renderFrom context none rest := by
  induction s with
  | nil => rfl
  | cons c cs ih =>
    simp only [List.contains_cons, Bool.or_eq_false_iff, beq_eq_false_iff_ne, ne_eq] at hs
    have hc : ¬ c = '{' := fun e => hs.1 e.symm
    simp [renderFrom, hc, ih hs.2]

theorem renderFrom_key (context : List (String × String)) (key pending rest : List Char)
    (h1 : key.contains '{' = false) (h2 : key.contains '}' = false) :
    renderFrom context (some pending) (key ++ '}' :: rest) =
      (match getField context (String.mk (pending ++ key)) with
        | some v => v.toList
        | none => '{' :: (pending ++ key) ++ ['}']) ++ renderFrom context none rest := by
  induction key generalizing pending with
  | nil => simp [renderFrom]
  | cons c cs ih =>
    simp only [List.contains_cons, Bool.or_eq_false_iff, beq_eq_false_iff_ne, ne_eq] at h1 h2
    have hc1 : ¬ c = '{' := fun e => h1.1 e.symm
    have hc2 : ¬ c = '}' := fun e => h2.1 e.symm
    have := ih (pending ++ [c]) h1.2 h2.2
    simp only [List.append_assoc, List.singleton_append] at this
    simp [renderFrom, hc1, hc2, this]

theorem renderFrom_pieces (context : List (String × String)) (pieces : List Piece)
    (hwf : ∀ p ∈ pieces, p.wellFormed = true) :
    renderFrom context none (pieces.map Piece.source).flatten =
      (pieces.map (Piece.filled context)).flatten := by
  induction pieces with
  | nil => rfl
  | cons p ps ih =>
    have hp := hwf p (List.mem_cons_self _ _)
    have hps := ih (fun q hq => hwf q (List.mem_cons_of_mem _ hq))
    simp only [List.map_cons, List.flatten_cons]
    cases p with
    | text s =>
      simp only [Piece.wellFormed, Bool.not_eq_true'] at hp
      rw [Piece.source, renderFrom_text context _ _ hp, hps, Piece.filled]
    | hole key =>
      simp only [Piece.wellFormed, Bool.and_eq_true, Bool.not_eq_true'] at hp
      have hk := renderFrom_key context key.toList [] (ps.map Piece.source).flatten hp.1 hp.2
      simp only [List.nil_append] at hk
      have hsrc : (Piece.hole key).source ++ (ps.map Piece.source).flatten =
          '{' :: (key.toList ++ '}' :: (ps.map Piece.source).flatten) := by
        simp [Piece.source]
      rw [hsrc, renderFrom]
      simp only [if_true]
      rw [hk, hps]
      rfl

/-- C26: `render` replaces every `{key}` whose key the context has by the context's value and
copies everything else, a `{key}` whose key the context lacks included; it is a
total function, so it never fails.  The template is given by its pieces, literal
text without an opening brace and keys without braces. -/
theorem render_fills (context : List (String × String)) (pieces : List Piece)
    (hwf : ∀ p ∈ pieces, p.wellFormed = true) :
    render (templateOf pieces) context =
      String.mk (pieces.map (Piece.filled context)).flatten := by
  show String.mk (renderFrom context none (pieces.map Piece.source).flatten) = _
  rw [renderFrom_pieces context pieces hwf]

/-- Witness of C26: the reminder of the spec, rendered without a `warrantyEndDate`. -/
theorem render_fills_witness :
    (∀ p ∈ reminderPieces, p.wellFormed = true) ∧
    templateOf reminderPieces =
      "Hi {customerName}, warranty for {productTitle} expires {warrantyEndDate}" ∧
    String.mk (reminderPieces.map (Piece.filled asifContext)).flatten =
      "Hi Asif, warranty for ThinkPad X1 expires {warrantyEndDate}" ∧
    render "Hi {customerName}, warranty for {productTitle} expires {warrantyEndDate}"
      asifContext = "Hi Asif, warranty for ThinkPad X1 expires {warrantyEndDate}" ∧
    render (templateOf reminderPieces) asifContext =
      String.mk (reminderPieces.map (Piece.filled asifContext)).flatten :=
  ⟨by decide, by decide, by decide, by decide,
    render_fills asifContext reminderPieces (by decide)⟩

end MitcStore
